import Mathlib

/-!
# Streaming adapter of the zstd binding (zstd_stream.go)

A shallow embedding of `Writer`, `reader`, `resize` and `TryReadFull`.

* Go slices are modelled with their backing array (from the slice start up to
  the capacity), their length and their nil-ness, so that re-slicing up to the
  capacity, aliasing through a shared start and `append` behave as in Go.
* The zstd engine, the downstream sink and the upstream source are external
  collaborators: they are parameters (`Env`), each a transition function on an
  abstract state.
* Every call that leaves the Go code (engine, sink, source, pools) is recorded
  in a chronological trace, so that statements such as "the engine was not
  invoked" are statements about that trace.
* Go panics, memory faults of the engine and non-termination (fuel) are the
  error side of `Except Fail`.
-/

namespace Zstd

abbrev Byte := Nat

/-! ## Go errors and run-time failures -/

/-- Go error values that flow through the stream code. -/
inductive GoError where
  /-- the package variable errShortRead -/
  | errShortRead
  /-- the package variable errReaderClosed -/
  | errReaderClosed
  /-- io.EOF -/
  | EOF
  /-- the ErrorCode built by getError from a negative status -/
  | ErrorCode (code : Int)
  /-- fmt.Errorf("failed to read from underlying reader: %s", err) -/
  | failedToRead (err : GoError)
  /-- fmt.Errorf("failed to decompress: %s", err) -/
  | failedToDecompress (err : GoError)
  /-- any other error value of a sink or a source -/
  | other (tag : Nat)
  deriving DecidableEq, Repr

/-- Ways in which a call does not return. -/
inductive Fail where
  /-- run-time panic: index out of range -/
  | indexOutOfRange
  /-- run-time panic: slice bounds out of range -/
  | sliceBounds
  /-- run-time panic: makeslice: len out of range -/
  | makeslice
  /-- the package initialiser panicked (invalid recommended size) -/
  | initPanic
  /-- the engine reported more output than the buffer it was given can hold -/
  | memoryFault
  /-- the loop did not finish within the fuel given -/
  | outOfFuel
  deriving DecidableEq, Repr

/-! ## Machine integers -/

/-- Conversion `int(x)` of a `size_t` value on a 64-bit platform. -/
def sizeToInt (v : Nat) : Int :=
  if v % 2 ^ 64 < 2 ^ 63 then ((v % 2 ^ 64 : Nat) : Int) else ((v % 2 ^ 64 : Nat) : Int) - 2 ^ 64

/-- Conversion `C.int(x)` of a Go `int`. -/
def toCInt (v : Int) : Int :=
  (v + 2 ^ 31) % 2 ^ 32 - 2 ^ 31

/-! ## Slices -/

/-- A Go `[]byte`: `arr` is the backing array from the start of the slice up to
its capacity, `len` its length (at most `arr.length`), `isNil` whether it is
the nil slice. -/
structure Slice where
  arr : List Byte
  len : Nat
  isNil : Bool
  deriving DecidableEq, Repr

namespace Slice

/-- The nil slice. -/
def null : Slice := ⟨[], 0, true⟩

/-- Capacity `cap(s)`. -/
def cap (s : Slice) : Nat := s.arr.length

/-- The visible bytes `s[0:len(s)]`. -/
def data (s : Slice) : List Byte := s.arr.take s.len

/-- A slice literal: length and capacity are the length of the list. -/
def ofList (l : List Byte) : Slice := ⟨l, l.length, false⟩

/-- The well-formedness of a slice value: `len(s) <= cap(s)`. -/
def WF (s : Slice) : Prop := s.len ≤ s.arr.length

instance (s : Slice) : Decidable s.WF := by unfold WF; infer_instance

/-- Re-slicing `s[lo:]`. -/
def sliceFrom (s : Slice) (lo : Int) : Except Fail Slice :=
  if 0 ≤ lo ∧ lo ≤ (s.len : Int) then
    .ok ⟨s.arr.drop lo.toNat, s.len - lo.toNat, s.isNil⟩
  else .error .sliceBounds

/-- Re-slicing `s[:hi]`; `hi` may go up to the capacity. -/
def sliceTo (s : Slice) (hi : Int) : Except Fail Slice :=
  if 0 ≤ hi ∧ hi ≤ (s.cap : Int) then
    .ok ⟨s.arr, hi.toNat, s.isNil⟩
  else .error .sliceBounds

/-- Re-slicing `s[lo:hi]`. -/
def slice (s : Slice) (lo hi : Int) : Except Fail Slice :=
  if 0 ≤ lo ∧ lo ≤ hi ∧ hi ≤ (s.cap : Int) then
    .ok ⟨s.arr.drop lo.toNat, hi.toNat - lo.toNat, s.isNil⟩
  else .error .sliceBounds

/-- The bytes `xs` stored at the front of the backing array of `s`. -/
def store (s : Slice) (xs : List Byte) : Slice :=
  { s with arr := xs ++ s.arr.drop xs.length }

/-- The slice `s` after its part from index `lo` on (which shares the backing
array) has become `sub`. -/
def setFrom (s : Slice) (lo : Nat) (sub : Slice) : Slice :=
  { s with arr := s.arr.take lo ++ sub.arr }

end Slice

/-- Allocation `make([]byte, n)`. -/
def make (n : Int) : Except Fail Slice :=
  if 0 ≤ n then .ok ⟨List.replicate n.toNat 0, n.toNat, false⟩ else .error .makeslice

/-- The builtin `copy(dst, src)`: the updated destination and the number of
bytes copied, `min(len(dst), len(src))`. The source is read before the
destination is written, as for overlapping slices in Go. -/
def copy (dst src : Slice) : Slice × Int :=
  let n := min dst.len src.len
  (dst.store (src.data.take n), (n : Int))

/-- The builtin `append(s, xs...)`. When the capacity does not suffice a new
array is allocated, whose capacity is chosen by the run time (`grow`, given
the old capacity and the length needed) and is at least the length needed;
its spare part is zeroed. -/
def append (grow : Nat → Nat → Nat) (s : Slice) (xs : List Byte) : Slice :=
  if xs.length = 0 then s
  else if s.len + xs.length ≤ s.cap then
    ⟨s.data ++ xs ++ s.arr.drop (s.len + xs.length), s.len + xs.length, false⟩
  else
    ⟨s.data ++ xs ++ List.replicate (grow s.cap (s.len + xs.length) - (s.len + xs.length)) 0,
      s.len + xs.length, false⟩

/-- Source function `resize`. -/
def resize (grow : Nat → Nat → Nat) (s : Slice) (newSize : Int) : Except Fail Slice :=
  if s.isNil then
    make newSize
  else if newSize ≤ (s.cap : Int) then
    s.sliceTo newSize
  else
    let toAdd := newSize - (s.len : Int)
    .ok (append grow s (List.replicate toAdd.toNat 0))

/-! ## External collaborators -/

/-- The end directive of `ZSTD_compressStream2`. -/
inductive EndDirective where
  /-- ZSTD_e_continue -/
  | e_continue
  /-- ZSTD_e_end -/
  | e_end
  deriving DecidableEq, Repr

/-- What one engine step reports: its status (a `size_t`), the number of input
bytes it consumed, and the bytes it produced (their number is the produced
count). -/
structure StepResult where
  code : Nat
  consumed : Nat
  out : List Byte
  deriving DecidableEq, Repr

/-- The collaborators of the stream code. `CS` and `DS` are the states of a
compression and of a decompression session, `K` the state of the downstream
sink and `U` that of the upstream source. The engine steps receive the length
of the destination buffer and the bytes of the source view. A source call
receives the length of the slice it may fill and returns the bytes it
delivers (its count is their number) and its error. -/
structure Env (CS DS K U : Type) where
  ZSTD_createCStream : CS
  ZSTD_CCtx_loadDictionary : CS → List Byte → Nat × CS
  ZSTD_CCtx_setParameter : CS → Int → Nat × CS
  ZSTD_compressStream2 : CS → Nat → List Byte → EndDirective → StepResult × CS
  ZSTD_freeCStream : CS → Nat
  ZBUFF_createDCtx : DS
  ZBUFF_decompressInit : DS → Nat × DS
  ZBUFF_decompressInitDictionary : DS → List Byte → Nat × DS
  ZBUFF_decompressContinue : DS → Nat → List Byte → StepResult × DS
  ZBUFF_freeDCtx : DS → Nat
  ZBUFF_recommendedDInSize : Nat
  ZBUFF_recommendedDOutSize : Nat
  /-- the function CompressBound of the package (declared in another file) -/
  CompressBound : Nat → Nat
  /-- the capacity the run time chooses when append reallocates -/
  growslice : Nat → Nat → Nat
  /-- the method Write of the underlying io.Writer -/
  sinkWrite : K → List Byte → (Int × Option GoError) × K
  /-- the method Read of the underlying io.Reader -/
  sourceRead : U → Nat → (List Byte × Option GoError) × U

/-- Calls that leave the stream code, in the order they happen. -/
inductive Event where
  | createCStream
  | loadDictionary (dict : List Byte)
  | setParameter (level : Int)
  | compressStream2 (mode : EndDirective) (dstLen : Nat) (src : List Byte) (res : StepResult)
  | sinkWrite (bytes : List Byte)
  | freeCStream
  | createDCtx
  | decompressInit
  | decompressInitDictionary (dict : List Byte)
  | decompressContinue (dstLen : Nat) (src : List Byte) (res : StepResult)
  | sourceRead (len : Nat) (bytes : List Byte) (err : Option GoError)
  | freeDCtx
  | cPoolGet
  | dPoolGet
  | cPoolPut (buf : Slice)
  | dPoolPut (buf : Slice)
  deriving DecidableEq, Repr

/-- The state shared by all streams: the two buffer pools and the trace of
external calls. -/
structure World where
  cPool : List Slice
  dPool : List Slice
  trace : List Event
  deriving DecidableEq, Repr

/-- The world after one more external call. -/
def World.emit (W : World) (e : Event) : World :=
  { W with trace := W.trace ++ [e] }

/-- An empty world: empty pools, nothing called yet. -/
def World.init : World := ⟨[], [], []⟩

/-- The outcome of one iteration of a loop with early returns: the enclosing
function returns (`ret`) or the loop goes on (`next`). -/
inductive LoopStep (α β : Type) where
  | ret (a : α)
  | next (b : β)

/-- Modelled from the spec: the status translator `getError` is declared in
another file of the package; by the spec a negative status is a decoded error
and a status that is zero or positive is a success. -/
def getError (code : Int) : Option GoError :=
  if code < 0 then some (.ErrorCode code) else none

/-! ## Writer -/

/-- The C struct compressStream2_result. -/
structure compressStream2_result where
  return_code : Nat
  bytes_consumed : Nat
  bytes_written : Nat
  deriving DecidableEq, Repr

/-- The struct Writer. -/
structure Writer (CS K : Type) where
  CompressionLevel : Int
  ctx : CS
  dict : Slice
  srcBuffer : Slice
  dstBuffer : Slice
  firstError : Option GoError
  underlyingWriter : K
  resultBuffer : compressStream2_result
  deriving DecidableEq, Repr

section WriterOps

variable {CS DS K U : Type}

/-- Source function `NewWriterLevelDict`. -/
def NewWriterLevelDict (E : Env CS DS K U) (w : K) (level : Int) (dict : Slice) (W : World) :
    Except Fail (Writer CS K × World) := do
  let ctx := E.ZSTD_createCStream
  let W := W.emit .createCStream
  -- if dict != nil { err = getError(loadDictionary(ctx, &dict[0], len(dict))) }
  let (err, ctx, W) ←
    if dict.isNil then
      (pure (none, ctx, W) : Except Fail (Option GoError × CS × World))
    else if dict.len = 0 then
      .error .indexOutOfRange
    else
      let r := E.ZSTD_CCtx_loadDictionary ctx dict.data
      pure (getError (sizeToInt r.1), r.2, W.emit (.loadDictionary dict.data))
  -- if err == nil { err = getError(setParameter(ctx, level)) }
  let (err, ctx, W) :=
    match err with
    | none =>
      let r := E.ZSTD_CCtx_setParameter ctx (toCInt level)
      (getError (sizeToInt r.1), r.2, W.emit (.setParameter (toCInt level)))
    | some e => (some e, ctx, W)
  let dst ← make (E.CompressBound 1024)
  pure ({ CompressionLevel := level, ctx := ctx, dict := dict, srcBuffer := Slice.null,
          dstBuffer := dst, firstError := err, underlyingWriter := w,
          resultBuffer := ⟨0, 0, 0⟩ }, W)

/-- Source function `NewWriterLevel`. -/
def NewWriterLevel (E : Env CS DS K U) (w : K) (level : Int) (W : World) :
    Except Fail (Writer CS K × World) :=
  NewWriterLevelDict E w level Slice.null W

/-- The first statements of `Writer.Write` ("Check if dstBuffer is enough"):
dstBuffer re-sliced to its capacity, or a new buffer of CompressBound(n) bytes
when that is too small for an input of `n` bytes. -/
def Writer.sizedDst (E : Env CS DS K U) (dstBuffer : Slice) (n : Nat) : Except Fail Slice := do
  -- w.dstBuffer = w.dstBuffer[0:cap(w.dstBuffer)]
  let dst ← dstBuffer.slice 0 dstBuffer.cap
  if dst.len < E.CompressBound n then make (E.CompressBound n) else pure dst

/-- Source method `Writer.Write`: the returned pair, the Writer and the world
after the call. The fields the method assigns are local values here and the
Writer is put together where the method returns. -/
def Writer.Write (E : Env CS DS K U) (w : Writer CS K) (p : Slice) (W : World) :
    Except Fail ((Int × Option GoError) × Writer CS K × World) :=
  match w.firstError with
  | some e => .ok ((0, some e), w, W)
  | none =>
    if p.len = 0 then .ok ((0, none), w, W)
    else
      -- Check if dstBuffer is enough
      match Writer.sizedDst E w.dstBuffer p.len with
      | .error f => .error f
      | .ok dst =>
        -- Do not do an extra memcopy if zstd ingest all input data
        let fastPath : Bool := w.srcBuffer.len == 0
        let srcBuffer := if fastPath then w.srcBuffer else append E.growslice w.srcBuffer p.data
        let srcData := if fastPath then p else srcBuffer
        -- &w.dstBuffer[0]
        if dst.len = 0 then .error .indexOutOfRange
        else
          let r := E.ZSTD_compressStream2 w.ctx dst.len srcData.data .e_continue
          let W := W.emit (.compressStream2 .e_continue dst.len srcData.data r.1)
          if dst.len < r.1.out.length then .error .memoryFault
          else
            let dst := dst.store r.1.out
            let resultBuffer : compressStream2_result := ⟨r.1.code, r.1.consumed, r.1.out.length⟩
            let ret := sizeToInt resultBuffer.return_code
            match getError ret with
            | some err =>
              .ok ((0, some err),
                { w with ctx := r.2, srcBuffer := srcBuffer, dstBuffer := dst,
                         resultBuffer := resultBuffer }, W)
            | none =>
              -- if !fastPath { w.srcBuffer = w.srcBuffer[int(bytes_consumed):] }
              match (if fastPath then .ok srcBuffer
                     else srcBuffer.sliceFrom (sizeToInt resultBuffer.bytes_consumed)) with
              | .error f => .error f
              | .ok srcBuffer =>
                let written := sizeToInt resultBuffer.bytes_written
                -- Write to underlying buffer
                match dst.sliceTo written with
                | .error f => .error f
                | .ok view =>
                  let s := E.sinkWrite w.underlyingWriter view.data
                  let W := W.emit (.sinkWrite view.data)
                  let w := { w with ctx := r.2, srcBuffer := srcBuffer, dstBuffer := dst,
                                    resultBuffer := resultBuffer, underlyingWriter := s.2 }
                  match s.1.2 with
                  | some err => .ok ((0, some err), w, W)
                  | none => .ok (((p.len : Int), none), w, W)

/-- The statements of the loop of `Writer.Close` that follow a hint ("We have a
hint if we need to resize the dstBuffer"). -/
def Writer.hintedDst (dstBuffer : Slice) (ret : Int) : Except Fail Slice :=
  if 0 < ret then do
    let d ← dstBuffer.sliceTo dstBuffer.cap
    if (d.len : Int) < ret then make ret else pure d
  else pure dstBuffer

/-- One iteration of the loop of `Writer.Close`: the call returns an engine
error (`ret`) or the loop goes on (`next`). `srcArr` is the memory `srcPtr`
points to: the pointer is taken once, before the loop. -/
def Writer.closeStep (E : Env CS DS K U) (srcArr : List Byte) (w : Writer CS K) (W : World) :
    Except Fail (LoopStep (Option GoError × Writer CS K × World) (Writer CS K × World)) :=
  -- &w.dstBuffer[0]
  if w.dstBuffer.len = 0 then .error .indexOutOfRange
  else
    let src := srcArr.take w.srcBuffer.len
    let r := E.ZSTD_compressStream2 w.ctx w.dstBuffer.len src .e_end
    let W := W.emit (.compressStream2 .e_end w.dstBuffer.len src r.1)
    if w.dstBuffer.len < r.1.out.length then .error .memoryFault
    else
      let dst := w.dstBuffer.store r.1.out
      let resultBuffer : compressStream2_result := ⟨r.1.code, r.1.consumed, r.1.out.length⟩
      let ret := sizeToInt resultBuffer.return_code
      match getError ret with
      | some err =>
        .ok (.ret (some err, { w with ctx := r.2, dstBuffer := dst, resultBuffer := resultBuffer }, W))
      | none =>
        -- w.srcBuffer = w.srcBuffer[w.resultBuffer.bytes_consumed:]
        match w.srcBuffer.sliceFrom ((resultBuffer.bytes_consumed % 2 ^ 64 : Nat) : Int) with
        | .error f => .error f
        | .ok srcBuffer =>
          let written := sizeToInt resultBuffer.bytes_written
          match dst.sliceTo written with
          | .error f => .error f
          | .ok view =>
            -- the result of this Write is dropped
            let s := E.sinkWrite w.underlyingWriter view.data
            let W := W.emit (.sinkWrite view.data)
            match Writer.hintedDst dst ret with
            | .error f => .error f
            | .ok dst =>
              .ok (.next ({ w with ctx := r.2, srcBuffer := srcBuffer, dstBuffer := dst,
                                   resultBuffer := resultBuffer, underlyingWriter := s.2 }, W))

/-- The loop of `Writer.Close` and the release of the session after it. -/
def Writer.closeLoop (E : Env CS DS K U) (srcArr : List Byte) :
    Nat → Writer CS K → World → Except Fail (Option GoError × Writer CS K × World)
  | fuel, w, W =>
    if 0 < w.resultBuffer.return_code % 2 ^ 64 then
      match fuel with
      | 0 => .error .outOfFuel
      | fuel + 1 =>
        match Writer.closeStep E srcArr w W with
        | .error e => .error e
        | .ok (.ret res) => .ok res
        | .ok (.next (w, W)) => Writer.closeLoop E srcArr fuel w W
    else
      let code := E.ZSTD_freeCStream w.ctx
      .ok (getError (sizeToInt code), w, W.emit .freeCStream)

/-- Source method `Writer.Close`. -/
def Writer.Close (E : Env CS DS K U) (fuel : Nat) (w : Writer CS K) (W : World) :
    Except Fail (Option GoError × Writer CS K × World) :=
  match w.firstError with
  | some e => .ok (some e, w, W)
  | none =>
    -- So we loop at least once
    let w := { w with resultBuffer := { w.resultBuffer with return_code := 1 } }
    Writer.closeLoop E w.srcBuffer.arr fuel w W

end WriterOps

/-! ## reader -/

/-- The struct reader. -/
structure reader (DS U : Type) where
  ctx : DS
  compressionBuffer : Slice
  compressionLeft : Int
  decompressionBuffer : Slice
  decompOff : Int
  decompSize : Int
  dict : Slice
  firstError : Option GoError
  recommendedSrcSize : Int
  underlyingReader : U
  deriving DecidableEq, Repr

section ReaderOps

variable {CS DS K U : Type}

/-- Package variable `cSize`: the recommended size of reader.compressionBuffer;
its initialiser panics when the size is not positive. -/
def cSize (E : Env CS DS K U) : Except Fail Int :=
  let v := sizeToInt E.ZBUFF_recommendedDInSize
  if v ≤ 0 then .error .initPanic else .ok v

/-- Package variable `dSize`: the recommended size of
reader.decompressionBuffer. -/
def dSize (E : Env CS DS K U) : Except Fail Int :=
  let v := sizeToInt E.ZBUFF_recommendedDOutSize
  if v ≤ 0 then .error .initPanic else .ok v

/-- The call `cPool.Get()`: a buffer of the pool when there is one, else a new
buffer made by `New`. -/
def cPoolGet (E : Env CS DS K U) (W : World) : Except Fail (Slice × World) :=
  match W.cPool with
  | b :: rest => .ok (b, { W with cPool := rest }.emit .cPoolGet)
  | [] => do
    let n ← cSize E
    let buff ← make n
    .ok (buff, W.emit .cPoolGet)

/-- The call `dPool.Get()`. -/
def dPoolGet (E : Env CS DS K U) (W : World) : Except Fail (Slice × World) :=
  match W.dPool with
  | b :: rest => .ok (b, { W with dPool := rest }.emit .dPoolGet)
  | [] => do
    let n ← dSize E
    let buff ← make n
    .ok (buff, W.emit .dPoolGet)

/-- The call `cPool.Put(&cb)`. -/
def cPoolPut (cb : Slice) (W : World) : World :=
  { W with cPool := cb :: W.cPool }.emit (.cPoolPut cb)

/-- The call `dPool.Put(&db)`. -/
def dPoolPut (db : Slice) (W : World) : World :=
  { W with dPool := db :: W.dPool }.emit (.dPoolPut db)

/-- Source function `NewReaderDict`. -/
def NewReaderDict (E : Env CS DS K U) (r : U) (dict : Slice) (W : World) :
    Except Fail (reader DS U × World) := do
  let ctx := E.ZBUFF_createDCtx
  let W := W.emit .createDCtx
  let (err, ctx, W) :=
    if dict.len = 0 then
      let i := E.ZBUFF_decompressInit ctx
      (getError (sizeToInt i.1), i.2, W.emit .decompressInit)
    else
      let i := E.ZBUFF_decompressInitDictionary ctx dict.data
      (getError (sizeToInt i.1), i.2, W.emit (.decompressInitDictionary dict.data))
  let (compressionBuffer, W) ← cPoolGet E W
  let (decompressionBuffer, W) ← dPoolGet E W
  let c ← cSize E
  pure ({ ctx := ctx, dict := dict, compressionBuffer := compressionBuffer,
          compressionLeft := 0, decompressionBuffer := decompressionBuffer,
          decompOff := 0, decompSize := 0, firstError := err,
          recommendedSrcSize := c, underlyingReader := r }, W)

/-- Source function `NewReader`. -/
def NewReader (E : Env CS DS K U) (r : U) (W : World) : Except Fail (reader DS U × World) :=
  NewReaderDict E r Slice.null W

/-- Source method `reader.Close`. -/
def reader.Close (E : Env CS DS K U) (r : reader DS U) (W : World) :
    Option GoError × reader DS U × World :=
  match r.firstError with
  | some e => (some e, r, W)
  | none =>
    let cb := r.compressionBuffer
    let db := r.decompressionBuffer
    -- Ensure that we won't resuse buffer
    let r := { r with firstError := some .errReaderClosed, compressionBuffer := Slice.null,
                      decompressionBuffer := Slice.null }
    let W := cPoolPut cb W
    let W := dPoolPut db W
    (getError (sizeToInt (E.ZBUFF_freeDCtx r.ctx)), r, W.emit .freeDCtx)

/-- The loop of `TryReadFull`, from the state `(n, err)`. -/
def TryReadFull.loop (E : Env CS DS K U) :
    Nat → U → Slice → Int → Option GoError → World →
      Except Fail ((Int × Option GoError) × U × Slice × World)
  | fuel, r, buf, n, err, W =>
    if n < (buf.len : Int) ∧ err = none then
      match fuel with
      | 0 => .error .outOfFuel
      | fuel + 1 => do
        let sub ← buf.sliceFrom n
        let res := E.sourceRead r sub.len
        let W := W.emit (.sourceRead sub.len res.1.1 res.1.2)
        let buf := buf.setFrom n.toNat (sub.store (res.1.1.take sub.len))
        TryReadFull.loop E fuel res.2 buf (n + (res.1.1.length : Int)) res.1.2 W
    else .ok ((n, err), r, buf, W)

/-- Source function `TryReadFull`: the returned pair, the source, the buffer and
the world after the call. -/
def TryReadFull (E : Env CS DS K U) (fuel : Nat) (r : U) (buf : Slice) (W : World) :
    Except Fail ((Int × Option GoError) × U × Slice × World) := do
  let t ← TryReadFull.loop E fuel r buf 0 none W
  if t.1.1 = (buf.len : Int) ∧ t.1.2 = some .EOF then
    -- EOF at the end is somewhat expected
    pure ((t.1.1, none), t.2)
  else if t.1.2 = some .EOF then
    pure ((t.1.1, some .errShortRead), t.2)
  else pure t

/-- The statements of the decode loop of `reader.Read` under "Resize buffers":
the size the compression buffer is resized to. -/
def reader.nextSize (retCode recommendedSrcSize compressionLeft : Int) : Int :=
  -- Hint for next src buffer size
  let nsize := retCode
  -- Reset to recommended size
  let nsize := if nsize ≤ 0 then recommendedSrcSize else nsize
  if nsize < compressionLeft then compressionLeft else nsize

/-- One iteration of the decode loop of `reader.Read`: the call returns
(`ret`) or the loop goes on with a new `got` (`next`). The fields the
iteration assigns are local values here and the reader is put together where
the iteration ends. -/
def reader.readStep (E : Env CS DS K U) (fuel : Nat) (r : reader DS U) (p : Slice) (got : Int)
    (W : World) :
    Except Fail (LoopStep ((Int × Option GoError) × reader DS U × Slice × World)
      (reader DS U × Slice × Int × World)) :=
  -- Populate src: src := r.compressionBuffer; TryReadFull(reader, src[r.compressionLeft:])
  match r.compressionBuffer.sliceFrom r.compressionLeft with
  | .error f => .error f
  | .ok tail =>
    match TryReadFull E fuel r.underlyingReader tail W with
    | .error f => .error f
    | .ok t =>
      let n : Int := t.1.1
      let err := t.1.2
      let W := t.2.2.2
      -- the bytes read are in the array src shares with r.compressionBuffer
      let cb := r.compressionBuffer.setFrom r.compressionLeft.toNat t.2.2.1
      if err ≠ none ∧ err ≠ some .errShortRead then
        -- Handle underlying reader errors first
        .ok (.ret ((0, err.map .failedToRead),
          { r with underlyingReader := t.2.1, compressionBuffer := cb }, p, W))
      else if n = 0 ∧ r.compressionLeft = 0 then
        .ok (.ret ((got, some .EOF),
          { r with underlyingReader := t.2.1, compressionBuffer := cb }, p, W))
      else
        -- src = src[:r.compressionLeft+n]
        match cb.sliceTo (r.compressionLeft + n) with
        | .error f => .error f
        | .ok src =>
          -- &r.decompressionBuffer[0] and &src[0]
          if r.decompressionBuffer.len = 0 ∨ src.len = 0 then .error .indexOutOfRange
          else
            let d := E.ZBUFF_decompressContinue r.ctx r.decompressionBuffer.len src.data
            let W := W.emit (.decompressContinue r.decompressionBuffer.len src.data d.1)
            if r.decompressionBuffer.len < d.1.out.length then .error .memoryFault
            else
              let db := r.decompressionBuffer.store d.1.out
              let retCode := sizeToInt d.1.code
              let cSrcSize := sizeToInt d.1.consumed
              let cDstSize := sizeToInt d.1.out.length
              match getError retCode with
              | some err =>
                .ok (.ret ((0, some (.failedToDecompress err)),
                  { r with underlyingReader := t.2.1, compressionBuffer := cb, ctx := d.2,
                           decompressionBuffer := db }, p, W))
              | none =>
                -- Put everything in buffer
                match (if cSrcSize < (src.len : Int) then
                         (src.sliceFrom cSrcSize).map (fun left => (copy cb left).1)
                       else .ok cb) with
                | .error f => .error f
                | .ok cb =>
                  let compressionLeft := (src.len : Int) - cSrcSize
                  let decompSize := cDstSize
                  -- r.decompOff = copy(p[got:], r.decompressionBuffer[:r.decompSize])
                  match p.sliceFrom got with
                  | .error f => .error f
                  | .ok pt =>
                    match db.sliceTo decompSize with
                    | .error f => .error f
                    | .ok dh =>
                      let c := copy pt dh
                      let p := p.setFrom got.toNat c.1
                      let decompOff := c.2
                      let got := got + decompOff
                      -- Resize buffers
                      let nsize := reader.nextSize retCode r.recommendedSrcSize compressionLeft
                      match resize E.growslice cb nsize with
                      | .error f => .error f
                      | .ok cb =>
                        .ok (.next ({ ctx := d.2, compressionBuffer := cb,
                                      compressionLeft := compressionLeft,
                                      decompressionBuffer := db, decompOff := decompOff,
                                      decompSize := decompSize, dict := r.dict,
                                      firstError := r.firstError,
                                      recommendedSrcSize := r.recommendedSrcSize,
                                      underlyingReader := t.2.1 }, p, got, W))

/-- The decode loop of `reader.Read`, from the state `got`. -/
def reader.readLoop (E : Env CS DS K U) :
    Nat → reader DS U → Slice → Int → World →
      Except Fail ((Int × Option GoError) × reader DS U × Slice × World)
  | fuel, r, p, got, W =>
    if got < (p.len : Int) then
      match fuel with
      | 0 => .error .outOfFuel
      | fuel + 1 =>
        match reader.readStep E fuel r p got W with
        | .error e => .error e
        | .ok (.ret res) => .ok res
        | .ok (.next (r, p, got, W)) => reader.readLoop E fuel r p got W
    else .ok ((got, none), r, p, W)

/-- Source method `reader.Read`: the returned pair, the reader, the
destination `p` and the world after the call. -/
def reader.Read (E : Env CS DS K U) (fuel : Nat) (r : reader DS U) (p : Slice) (W : World) :
    Except Fail ((Int × Option GoError) × reader DS U × Slice × World) :=
  match r.firstError with
  | some e => .ok ((0, some e), r, p, W)
  | none =>
    -- If we already have enough bytes, return
    if r.decompSize - r.decompOff ≥ (p.len : Int) then do
      let sub ← r.decompressionBuffer.sliceFrom r.decompOff
      let c := copy p sub
      .ok (((p.len : Int), none), { r with decompOff := r.decompOff + (p.len : Int) }, c.1, W)
    else do
      let sub ← r.decompressionBuffer.slice r.decompOff r.decompSize
      let c := copy p sub
      let got := r.decompSize - r.decompOff
      let r := { r with decompSize := 0, decompOff := 0 }
      reader.readLoop E fuel r c.1 got W

end ReaderOps

/-! ## Sequences of calls -/

/-- A call on a Writer. -/
inductive WriterCall where
  | Write (p : Slice)
  | Close
  deriving DecidableEq, Repr

/-- What a call on a Writer returned. -/
inductive WriterReturn where
  | Write (n : Int) (err : Option GoError)
  | Close (err : Option GoError)
  deriving DecidableEq, Repr

/-- A call on a reader. -/
inductive ReaderCall where
  | Read (p : Slice)
  | Close
  deriving DecidableEq, Repr

/-- What a call on a reader returned; for Read also the destination after the
call. -/
inductive ReaderReturn where
  | Read (n : Int) (err : Option GoError) (p : Slice)
  | Close (err : Option GoError)
  deriving DecidableEq, Repr

section Runs

variable {CS DS K U : Type}

/-- The calls of the list made one after the other on a Writer. -/
def Writer.run (E : Env CS DS K U) (fuel : Nat) :
    List WriterCall → Writer CS K → World → Except Fail (List WriterReturn × Writer CS K × World)
  | [], w, W => .ok ([], w, W)
  | .Write p :: cs, w, W =>
    match Writer.Write E w p W with
    | .error e => .error e
    | .ok (res, w, W) =>
      match Writer.run E fuel cs w W with
      | .error e => .error e
      | .ok (rs, w, W) => .ok (.Write res.1 res.2 :: rs, w, W)
  | .Close :: cs, w, W =>
    match Writer.Close E fuel w W with
    | .error e => .error e
    | .ok (err, w, W) =>
      match Writer.run E fuel cs w W with
      | .error e => .error e
      | .ok (rs, w, W) => .ok (.Close err :: rs, w, W)

/-- The calls of the list made one after the other on a reader. -/
def reader.run (E : Env CS DS K U) (fuel : Nat) :
    List ReaderCall → reader DS U → World → Except Fail (List ReaderReturn × reader DS U × World)
  | [], r, W => .ok ([], r, W)
  | .Read p :: cs, r, W =>
    match reader.Read E fuel r p W with
    | .error e => .error e
    | .ok (res, r, p, W) =>
      match reader.run E fuel cs r W with
      | .error e => .error e
      | .ok (rs, r, W) => .ok (.Read res.1 res.2 p :: rs, r, W)
  | .Close :: cs, r, W =>
    match reader.Close E r W with
    | (err, r, W) =>
      match reader.run E fuel cs r W with
      | .error e => .error e
      | .ok (rs, r, W) => .ok (.Close err :: rs, r, W)

end Runs

/-! ## Observations on traces and states -/

/-- The bytes a Read call delivered: `p[:n]`. -/
def ReaderReturn.delivered : ReaderReturn → List Byte
  | .Read n _ p => p.data.take n.toNat
  | .Close _ => []

/-- The error a call on a reader returned. -/
def ReaderReturn.err : ReaderReturn → Option GoError
  | .Read _ e _ => e
  | .Close e => e

/-- The output of the engine decode steps of a trace, in order. -/
def decoded : List Event → List Byte
  | [] => []
  | .decompressContinue _ _ res :: es => res.out ++ decoded es
  | _ :: es => decoded es

/-- The input bytes the engine compress steps of a trace consumed, in order. -/
def consumedInput : List Event → List Byte
  | [] => []
  | .compressStream2 _ _ src res :: es => src.take res.consumed ++ consumedInput es
  | _ :: es => consumedInput es

/-- The bytes handed to the sink in a trace, in order. -/
def sunk : List Event → List Byte
  | [] => []
  | .sinkWrite bytes :: es => bytes ++ sunk es
  | _ :: es => sunk es

/-- One call of the method Read of the underlying source: the length of the
slice it was given, the bytes it delivered and the error it returned. -/
structure SourceCall where
  len : Nat
  bytes : List Byte
  err : Option GoError
  deriving DecidableEq, Repr

/-- The event of a source call. -/
def SourceCall.event (c : SourceCall) : Event := .sourceRead c.len c.bytes c.err

/-- The bytes a sequence of source calls delivered, in order. -/
def SourceCall.delivered (cs : List SourceCall) : List Byte := (cs.map (fun c => c.bytes)).flatten

/-- The error the last call of a sequence of source calls returned (nil when
there was no call). -/
def SourceCall.lastErr (cs : List SourceCall) : Option GoError :=
  match cs.getLast? with
  | some c => c.err
  | none => none

/-- The decoded bytes a reader holds for later Read calls:
`decompressionBuffer[decompOff:decompSize]`. -/
def reader.staged {DS U : Type} (r : reader DS U) : List Byte :=
  (r.decompressionBuffer.arr.take r.decompSize.toNat).drop r.decompOff.toNat

/-- The bounds of the output staging of a reader:
`0 <= decompOff <= decompSize <= len(decompressionBuffer) <= cap`, where the
capacity, as that of every Go slice, is below `2^63`. -/
def reader.StagingOK {DS U : Type} (r : reader DS U) : Prop :=
  r.decompressionBuffer.WF ∧ r.decompressionBuffer.cap < 2 ^ 63 ∧ 0 ≤ r.decompOff ∧
    r.decompOff ≤ r.decompSize ∧ r.decompSize ≤ (r.decompressionBuffer.len : Int)

instance {DS U : Type} (r : reader DS U) : Decidable r.StagingOK := by
  unfold reader.StagingOK; infer_instance

/-! ## The decode steps behind the Read calls -/

section DecodeSteps

variable {CS DS K U : Type}

/-- A reader without its output cursor: `decompOff` and `decompSize` set to 0.
The decode loop of `reader.Read` assigns these two fields without reading them. -/
def reader.core (r : reader DS U) : reader DS U :=
  { r with decompOff := 0, decompSize := 0 }

/-- The part of one iteration of the decode loop of `reader.Read` that does not
depend on the destination `p` nor on `got`: the source calls, the decode step,
the carry-over and the resizing. It returns the error with which the iteration
makes Read return (`ret`) or goes on (`next`), with the reader without its
output cursor. A device of the proofs, not a function of the source. -/
def reader.decodeStep (E : Env CS DS K U) (fuel : Nat) (r : reader DS U) (W : World) :
    Except Fail (LoopStep (Option GoError × reader DS U × World) (reader DS U × World)) :=
  match r.compressionBuffer.sliceFrom r.compressionLeft with
  | .error f => .error f
  | .ok tail =>
    match TryReadFull E fuel r.underlyingReader tail W with
    | .error f => .error f
    | .ok t =>
      let cb := r.compressionBuffer.setFrom r.compressionLeft.toNat t.2.2.1
      if t.1.2 ≠ none ∧ t.1.2 ≠ some .errShortRead then
        .ok (.ret (t.1.2.map .failedToRead,
          { ctx := r.ctx, compressionBuffer := cb, compressionLeft := r.compressionLeft,
            decompressionBuffer := r.decompressionBuffer, decompOff := 0, decompSize := 0,
            dict := r.dict, firstError := r.firstError,
            recommendedSrcSize := r.recommendedSrcSize, underlyingReader := t.2.1 }, t.2.2.2))
      else if t.1.1 = 0 ∧ r.compressionLeft = 0 then
        .ok (.ret (some .EOF,
          { ctx := r.ctx, compressionBuffer := cb, compressionLeft := r.compressionLeft,
            decompressionBuffer := r.decompressionBuffer, decompOff := 0, decompSize := 0,
            dict := r.dict, firstError := r.firstError,
            recommendedSrcSize := r.recommendedSrcSize, underlyingReader := t.2.1 }, t.2.2.2))
      else
        match cb.sliceTo (r.compressionLeft + t.1.1) with
        | .error f => .error f
        | .ok src =>
          if r.decompressionBuffer.len = 0 ∨ src.len = 0 then .error .indexOutOfRange
          else
            let d := E.ZBUFF_decompressContinue r.ctx r.decompressionBuffer.len src.data
            let W := t.2.2.2.emit (.decompressContinue r.decompressionBuffer.len src.data d.1)
            if r.decompressionBuffer.len < d.1.out.length then .error .memoryFault
            else
              let db := r.decompressionBuffer.store d.1.out
              match getError (sizeToInt d.1.code) with
              | some err =>
                .ok (.ret (some (.failedToDecompress err),
                  { ctx := d.2, compressionBuffer := cb, compressionLeft := r.compressionLeft,
                    decompressionBuffer := db, decompOff := 0, decompSize := 0,
                    dict := r.dict, firstError := r.firstError,
                    recommendedSrcSize := r.recommendedSrcSize, underlyingReader := t.2.1 }, W))
              | none =>
                match (if sizeToInt d.1.consumed < (src.len : Int) then
                         (src.sliceFrom (sizeToInt d.1.consumed)).map (fun left => (copy cb left).1)
                       else .ok cb) with
                | .error f => .error f
                | .ok cb =>
                  match resize E.growslice cb
                      (reader.nextSize (sizeToInt d.1.code) r.recommendedSrcSize
                        ((src.len : Int) - sizeToInt d.1.consumed)) with
                  | .error f => .error f
                  | .ok cb =>
                    .ok (.next ({ ctx := d.2, compressionBuffer := cb,
                                  compressionLeft := (src.len : Int) - sizeToInt d.1.consumed,
                                  decompressionBuffer := db, decompOff := 0, decompSize := 0,
                                  dict := r.dict, firstError := r.firstError,
                                  recommendedSrcSize := r.recommendedSrcSize,
                                  underlyingReader := t.2.1 }, W))

/-- The states the decode loop goes through: from a reader (without its output
cursor) and a world, zero or more iterations that each make a decode step or
find the end of the stream, whatever the destination they are made for. -/
inductive reader.DecodeSteps (E : Env CS DS K U) :
    reader DS U → World → reader DS U → World → Prop where
  | done (r : reader DS U) (W : World) : reader.DecodeSteps E r W r W
  | next (fuel : Nat) (r : reader DS U) (W : World) (r1 : reader DS U) (W1 : World)
      (r2 : reader DS U) (W2 : World) :
      reader.decodeStep E fuel r W = .ok (.next (r1, W1)) →
      reader.DecodeSteps E r1 W1 r2 W2 → reader.DecodeSteps E r W r2 W2
  | eof (fuel : Nat) (r : reader DS U) (W : World) (r1 : reader DS U) (W1 : World)
      (r2 : reader DS U) (W2 : World) :
      reader.decodeStep E fuel r W = .ok (.ret (some .EOF, r1, W1)) →
      reader.DecodeSteps E r1 W1 r2 W2 → reader.DecodeSteps E r W r2 W2

end DecodeSteps

/-! ## Bounds, carry-over and pools -/

/-- The undecoded input a reader carries over to its next decode step:
`compressionBuffer[:compressionLeft]`. -/
def reader.carryover {DS U : Type} (r : reader DS U) : List Byte :=
  r.compressionBuffer.arr.take r.compressionLeft.toNat

/-- The bounds of the state of a reader: those of the output staging,
`0 <= compressionLeft <= len(compressionBuffer)`, both buffers not empty, the
compression buffer not nil, and lengths and a recommended size that are
positive values of an int. -/
def reader.BoundsOK {DS U : Type} (r : reader DS U) : Prop :=
  r.StagingOK ∧ 1 ≤ r.decompressionBuffer.len ∧
    r.compressionBuffer.WF ∧ 1 ≤ r.compressionBuffer.len ∧ r.compressionBuffer.len < 2 ^ 63 ∧
    r.compressionBuffer.isNil = false ∧
    0 ≤ r.compressionLeft ∧ r.compressionLeft ≤ (r.compressionBuffer.len : Int) ∧
    0 < r.recommendedSrcSize ∧ r.recommendedSrcSize < 2 ^ 63

instance {DS U : Type} (r : reader DS U) : Decidable r.BoundsOK := by
  unfold reader.BoundsOK; infer_instance

/-- The buffers in the two pools are well formed, not empty and of the size of
a Go slice. -/
def World.PoolsOK (W : World) : Prop :=
  (∀ b ∈ W.cPool, b.WF ∧ 1 ≤ b.len ∧ b.len < 2 ^ 63 ∧ b.isNil = false) ∧
    (∀ b ∈ W.dPool, b.WF ∧ b.cap < 2 ^ 63 ∧ 1 ≤ b.len)

instance (W : World) : Decidable W.PoolsOK := by
  unfold World.PoolsOK; infer_instance

/-- The input of the decode steps of a trace, checked against the source calls:
from the carry-over `carry` and the bytes `pending` (read from the source
since the last decode step), every decode step must be offered exactly the
carry-over followed by the pending bytes, and what it does not consume is the
next carry-over. The result is the carry-over at the end of the trace, when
every step passed the check and no byte read is left pending. -/
def carryChain : List Byte → List Byte → List Event → Option (List Byte)
  | carry, pending, [] => if pending = [] then some carry else none
  | carry, pending, .sourceRead _ bytes _ :: es => carryChain carry (pending ++ bytes) es
  | carry, pending, .decompressContinue _ src res :: es =>
    if src = carry ++ pending then carryChain (src.drop res.consumed) [] es else none
  | carry, pending, _ :: es => carryChain carry pending es

/-- An operation of a program on its readers; the readers are numbered in the
order in which they are made. -/
inductive ReaderOp (U : Type) where
  | NewReaderDict (r : U) (dict : Slice)
  | Read (i : Nat) (p : Slice)
  | Close (i : Nat)

/-- The operations of the list made one after the other, from the readers
`rs` made so far and the world `W` with its two pools: the readers and the
world at the end. An operation on a reader that was never made is skipped. -/
def readersRun {CS DS K U : Type} (E : Env CS DS K U) (fuel : Nat) :
    List (ReaderOp U) → List (reader DS U) → World → Except Fail (List (reader DS U) × World)
  | [], rs, W => .ok (rs, W)
  | .NewReaderDict u dict :: ops, rs, W =>
    match NewReaderDict E u dict W with
    | .error e => .error e
    | .ok (r, W) => readersRun E fuel ops (rs ++ [r]) W
  | .Read i p :: ops, rs, W =>
    match rs[i]? with
    | none => readersRun E fuel ops rs W
    | some r =>
      match reader.Read E fuel r p W with
      | .error e => .error e
      | .ok (_, r, _, W) => readersRun E fuel ops (rs.set i r) W
  | .Close i :: ops, rs, W =>
    match rs[i]? with
    | none => readersRun E fuel ops rs W
    | some r =>
      match reader.Close E r W with
      | (_, r, W) => readersRun E fuel ops (rs.set i r) W

/-- NewReaderDict called in the state a program reaches, from its start with
empty pools, with the operations `ops`. -/
def newReaderAfter {CS DS K U : Type} (E : Env CS DS K U) (fuel : Nat) (ops : List (ReaderOp U))
    (u : U) (dict : Slice) : Except Fail (reader DS U × World) :=
  match readersRun E fuel ops [] World.init with
  | .error e => .error e
  | .ok (_, W) => NewReaderDict E u dict W

/-- What holds of the buffers of a reader whatever the engine and the source
do, for the recommended sizes `c` and `d`: the compression buffer is a slice
that is not nil, of capacity at least `c` and of length at least 1, the
decompression buffer has length `d`, and the recommended size is `c`. -/
def reader.BuffersKept {DS U : Type} (c d : Int) (r : reader DS U) : Prop :=
  r.compressionBuffer.WF ∧ r.compressionBuffer.isNil = false ∧
    c ≤ (r.compressionBuffer.cap : Int) ∧ 1 ≤ r.compressionBuffer.len ∧
    (r.decompressionBuffer.len : Int) = d ∧ r.recommendedSrcSize = c

/-- What holds of the buffers in the two pools, for the recommended sizes `c`
and `d`. -/
def World.PoolsKept (c d : Int) (W : World) : Prop :=
  (∀ b ∈ W.cPool, b.WF ∧ b.isNil = false ∧ c ≤ (b.cap : Int) ∧ 1 ≤ b.len) ∧
    (∀ b ∈ W.dPool, (b.len : Int) = d)

/-! ## Concrete collaborators -/

instance {ε α : Type} [DecidableEq ε] [DecidableEq α] : DecidableEq (Except ε α) :=
  fun a b =>
    match a, b with
    | .ok x, .ok y => if h : x = y then isTrue (by rw [h]) else isFalse (fun c => h (Except.ok.inj c))
    | .error x, .error y =>
      if h : x = y then isTrue (by rw [h]) else isFalse (fun c => h (Except.error.inj c))
    | .ok _, .error _ => isFalse (fun c => Except.noConfusion c)
    | .error _, .ok _ => isFalse (fun c => Except.noConfusion c)

/-- An identity codec. A compress step with ZSTD_e_continue takes at most
`chunk` bytes of its input and emits them, one with ZSTD_e_end takes all the
input the destination can hold; a decode step emits the input the destination
can hold. Every step reports counts within the buffers it was given. The first
compress step of a session returns `firstCode` when that is an error status;
loading a dictionary returns `dictCode`. The sink stores what it is given. The
source holds bytes and an error: it delivers its bytes like a bytes.Reader and
then returns the error (io.EOF for a plain end). The state of a compression
session is the number of steps done. -/
def idEnv (chunk dictCode firstCode : Nat) : Env Nat Unit (List Byte) (List Byte × GoError) where
  ZSTD_createCStream := 0
  ZSTD_CCtx_loadDictionary := fun c _ => (dictCode, c)
  ZSTD_CCtx_setParameter := fun c _ => (0, c)
  ZSTD_compressStream2 := fun c dstLen src mode =>
    if c = 0 ∧ 2 ^ 63 ≤ firstCode then (⟨firstCode, 0, []⟩, c + 1)
    else
      match mode with
      | .e_continue => (⟨0, min chunk (min dstLen src.length), src.take (min chunk dstLen)⟩, c + 1)
      | .e_end => (⟨0, min dstLen src.length, src.take dstLen⟩, c + 1)
  ZSTD_freeCStream := fun _ => 0
  ZBUFF_createDCtx := ()
  ZBUFF_decompressInit := fun _ => (0, ())
  ZBUFF_decompressInitDictionary := fun _ _ => (dictCode, ())
  ZBUFF_decompressContinue := fun _ dstLen src => (⟨0, min dstLen src.length, src.take dstLen⟩, ())
  ZBUFF_freeDCtx := fun _ => 0
  ZBUFF_recommendedDInSize := 4
  ZBUFF_recommendedDOutSize := 4
  CompressBound := fun n => n + 8
  growslice := fun _ n => 2 * n
  sinkWrite := fun k bs => (((bs.length : Int), none), k ++ bs)
  sourceRead := fun u n =>
    if u.1 = [] then (([], some u.2), u) else ((u.1.take n, none), (u.1.drop n, u.2))

/-- The calls of the list made on a new Writer (level 3, no dictionary) over
an empty sink, in an empty world. -/
def newWriterRun {CS DS U : Type} (E : Env CS DS (List Byte) U) (fuel : Nat)
    (calls : List WriterCall) :
    Except Fail (List WriterReturn × Writer CS (List Byte) × World) :=
  match NewWriterLevelDict E [] 3 Slice.null World.init with
  | .error e => .error e
  | .ok (w, W) => Writer.run E fuel calls w W

/-- Compression of the chunks `chunks` through a new Writer, one Write a chunk
and Close at the end: the bytes that reached the sink. -/
def compressChunks {CS DS U : Type} (E : Env CS DS (List Byte) U) (fuel : Nat)
    (chunks : List (List Byte)) : Except Fail (List Byte) :=
  match newWriterRun E fuel (chunks.map (fun c => .Write (Slice.ofList c)) ++ [.Close]) with
  | .error e => .error e
  | .ok (_, w, _) => .ok w.underlyingWriter

/-- The calls of the list made on a new reader (no dictionary) over a source
that holds `bytes` and ends with io.EOF, in an empty world. -/
def newReaderRun {CS DS K : Type} (E : Env CS DS K (List Byte × GoError)) (fuel : Nat)
    (bytes : List Byte) (calls : List ReaderCall) :
    Except Fail (List ReaderReturn × reader DS (List Byte × GoError) × World) :=
  match NewReaderDict E (bytes, .EOF) Slice.null World.init with
  | .error e => .error e
  | .ok (r, W) => reader.run E fuel calls r W

/-- Decompression of the bytes `bytes` through a new reader, with Read calls on
destinations of the given sizes: the bytes delivered and the errors returned. -/
def decompressWith {CS DS K : Type} (E : Env CS DS K (List Byte × GoError)) (fuel : Nat)
    (bytes : List Byte) (sizes : List Nat) :
    Except Fail (List Byte × List (Option GoError)) :=
  match newReaderRun E fuel bytes (sizes.map (fun k => .Read (Slice.ofList (List.replicate k 0)))) with
  | .error e => .error e
  | .ok (rs, _, _) => .ok ((rs.map ReaderReturn.delivered).flatten, rs.map ReaderReturn.err)

/-- Compression of the chunks and decompression of what reached the sink, with
Read calls on destinations of the given sizes. -/
def roundTrip {CS DS : Type} (E : Env CS DS (List Byte) (List Byte × GoError)) (fuel : Nat)
    (chunks : List (List Byte)) (sizes : List Nat) :
    Except Fail (List Byte × List (Option GoError)) :=
  match compressChunks E fuel chunks with
  | .error e => .error e
  | .ok bytes => decompressWith E fuel bytes sizes

/-- What a Writer with the sticky error `e` returns to a call. -/
def WriterCall.rejected (e : GoError) : WriterCall → WriterReturn
  | .Write _ => .Write 0 (some e)
  | .Close => .Close (some e)

/-- What a reader with the sticky error `e` returns to a call. -/
def ReaderCall.rejected (e : GoError) : ReaderCall → ReaderReturn
  | .Read p => .Read 0 (some e) p
  | .Close => .Close (some e)

/-- The calls of the list made on a new reader (no dictionary) over the source
`u`, in an empty world. -/
def newReaderRunOn {CS DS K U : Type} (E : Env CS DS K U) (fuel : Nat) (u : U)
    (calls : List ReaderCall) : Except Fail (List ReaderReturn × reader DS U × World) :=
  match NewReaderDict E u Slice.null World.init with
  | .error e => .error e
  | .ok (r, W) => reader.run E fuel calls r W

/-- A codec over a sink that fails. A compress step with ZSTD_e_continue emits
the input the destination can hold; the step with ZSTD_e_end emits the end mark
255. Every Write of the sink returns the count 0 and an error, and stores
nothing. -/
def brokenSinkEnv : Env Nat Unit (List Byte) (List Byte × GoError) :=
  { idEnv 8 0 0 with
    ZSTD_compressStream2 := fun c dstLen src mode =>
      match mode with
      | .e_continue => (⟨0, min dstLen src.length, src.take dstLen⟩, c + 1)
      | .e_end => (⟨0, 0, [255].take dstLen⟩, c + 1)
    sinkWrite := fun k _ => ((0, some (.other 5)), k) }

/-- The identity codec whose decode step returns the hint 1: it asks for one
more byte of input. -/
def hintEnv : Env Nat Unit (List Byte) (List Byte × GoError) :=
  { idEnv 8 0 0 with
    ZBUFF_decompressContinue := fun _ dstLen src =>
      (⟨1, min dstLen src.length, src.take dstLen⟩, ()) }

/-- The identity codec whose decode step takes at most two bytes of its input
and emits them; what it does not take is carried over by the reader. -/
def carryEnv : Env Nat Unit (List Byte) (List Byte × GoError) :=
  { idEnv 8 0 0 with
    ZBUFF_decompressContinue := fun _ dstLen src =>
      (⟨0, min 2 (min dstLen src.length), src.take (min 2 dstLen)⟩, ()) }

/-- The reader NewReaderDict makes over the identity codec and a source that
holds the bytes 1, 2, 3: buffers of the recommended size 4 from the empty
pools. -/
def demoReader : reader Unit (List Byte × GoError) :=
  { ctx := (), compressionBuffer := ⟨[0, 0, 0, 0], 4, false⟩, compressionLeft := 0,
    decompressionBuffer := ⟨[0, 0, 0, 0], 4, false⟩, decompOff := 0, decompSize := 0,
    dict := Slice.null, firstError := none, recommendedSrcSize := 4,
    underlyingReader := ([1, 2, 3], .EOF) }

/-- The world after `demoReader` was made in an empty world. -/
def demoReaderWorld : World :=
  ⟨[], [], [.createDCtx, .decompressInit, .cPoolGet, .dPoolGet]⟩

/-- The reader `demoReader` after a Read on a destination of two bytes: the
byte 3 is staged. -/
def demoReaderStaged : reader Unit (List Byte × GoError) :=
  { ctx := (), compressionBuffer := ⟨[1, 2, 3, 0], 4, false⟩, compressionLeft := 0,
    decompressionBuffer := ⟨[1, 2, 3, 0], 4, false⟩, decompOff := 2, decompSize := 3,
    dict := Slice.null, firstError := none, recommendedSrcSize := 4,
    underlyingReader := ([], .EOF) }

/-- The world after the first Read on `demoReader`. -/
def demoReaderStagedWorld : World :=
  ⟨[], [], [.createDCtx, .decompressInit, .cPoolGet, .dPoolGet,
    .sourceRead 4 [1, 2, 3] none, .sourceRead 1 [] (some .EOF),
    .decompressContinue 4 [1, 2, 3] ⟨0, 3, [1, 2, 3]⟩]⟩

/-- The reader `demoReader` after a second Read on a destination of two
bytes. -/
def demoReaderDrained : reader Unit (List Byte × GoError) :=
  { ctx := (), compressionBuffer := ⟨[1, 2, 3, 0], 4, false⟩, compressionLeft := 0,
    decompressionBuffer := ⟨[1, 2, 3, 0], 4, false⟩, decompOff := 0, decompSize := 0,
    dict := Slice.null, firstError := none, recommendedSrcSize := 4,
    underlyingReader := ([], .EOF) }

/-- The world after the second Read on `demoReader`. -/
def demoReaderDrainedWorld : World :=
  ⟨[], [], [.createDCtx, .decompressInit, .cPoolGet, .dPoolGet,
    .sourceRead 4 [1, 2, 3] none, .sourceRead 1 [] (some .EOF),
    .decompressContinue 4 [1, 2, 3] ⟨0, 3, [1, 2, 3]⟩, .sourceRead 4 [] (some .EOF)]⟩

/-- The Writer NewWriterLevelDict makes over a codec that refuses the
dictionary with the status -30: firstError holds the decoded status. -/
def failedDictWriter : Writer Nat (List Byte) :=
  { CompressionLevel := 3, ctx := 0, dict := Slice.ofList [7], srcBuffer := Slice.null,
    dstBuffer := ⟨List.replicate 1032 0, 1032, false⟩, firstError := some (.ErrorCode (-30)),
    underlyingWriter := [], resultBuffer := ⟨0, 0, 0⟩ }

/-- The world after `failedDictWriter` was made in an empty world. -/
def failedDictWorld : World := ⟨[], [], [.createCStream, .loadDictionary [7]]⟩

/-- The Writer NewWriterLevelDict makes without dictionary over the identity
codec. -/
def demoWriter : Writer Nat (List Byte) :=
  { CompressionLevel := 3, ctx := 0, dict := Slice.null, srcBuffer := Slice.null,
    dstBuffer := ⟨List.replicate 1032 0, 1032, false⟩, firstError := none,
    underlyingWriter := [], resultBuffer := ⟨0, 0, 0⟩ }

/-- The world after `demoWriter` was made in an empty world. -/
def demoWriterWorld : World := ⟨[], [], [.createCStream, .setParameter 3]⟩

/-- The Writer `demoWriter` after a Write whose engine step returned the error
status -1. -/
def demoWriterFailed : Writer Nat (List Byte) :=
  { CompressionLevel := 3, ctx := 1, dict := Slice.null, srcBuffer := Slice.null,
    dstBuffer := ⟨List.replicate 1032 0, 1032, false⟩, firstError := none,
    underlyingWriter := [], resultBuffer := ⟨2 ^ 64 - 1, 0, 0⟩ }

/-- The world after the failed Write on `demoWriter`. -/
def demoWriterFailedWorld : World :=
  ⟨[], [], [.createCStream, .setParameter 3,
    .compressStream2 .e_continue 1032 [1, 2] ⟨2 ^ 64 - 1, 0, []⟩]⟩

/-- The reader `demoReader` over the codec `carryEnv` after two Read calls on
destinations of two bytes. -/
def carryReaderDone : reader Unit (List Byte × GoError) :=
  { ctx := (), compressionBuffer := ⟨[3, 2, 3, 0], 4, false⟩, compressionLeft := 0,
    decompressionBuffer := ⟨[3, 2, 0, 0], 4, false⟩, decompOff := 1, decompSize := 1,
    dict := Slice.null, firstError := none, recommendedSrcSize := 4,
    underlyingReader := ([], .EOF) }

/-- The world after the two Read calls over `carryEnv`. -/
def carryReaderDoneWorld : World :=
  ⟨[], [], [.createDCtx, .decompressInit, .cPoolGet, .dPoolGet,
    .sourceRead 4 [1, 2, 3] none, .sourceRead 1 [] (some .EOF),
    .decompressContinue 4 [1, 2, 3] ⟨0, 2, [1, 2]⟩,
    .sourceRead 3 [] (some .EOF),
    .decompressContinue 4 [3] ⟨0, 1, [3]⟩,
    .sourceRead 4 [] (some .EOF)]⟩

/-- The reader NewReaderDict makes over `hintEnv` after a first reader has read
the source 1, 2, 3 and was closed: its compression buffer comes from the pool
with the length 1 the first reader left it with. -/
def hintReader : reader Unit (List Byte × GoError) :=
  { ctx := (), compressionBuffer := ⟨[1, 2, 3, 0], 1, false⟩, compressionLeft := 0,
    decompressionBuffer := ⟨[1, 2, 3, 0], 4, false⟩, decompOff := 0, decompSize := 0,
    dict := Slice.null, firstError := none, recommendedSrcSize := 4,
    underlyingReader := ([], .EOF) }

/-- The world after `hintReader` was made. -/
def hintReaderWorld : World :=
  ⟨[], [], [.createDCtx, .decompressInit, .cPoolGet, .dPoolGet,
    .sourceRead 4 [1, 2, 3] none, .sourceRead 1 [] (some .EOF),
    .decompressContinue 4 [1, 2, 3] ⟨1, 3, [1, 2, 3]⟩,
    .cPoolPut ⟨[1, 2, 3, 0], 1, false⟩, .dPoolPut ⟨[1, 2, 3, 0], 4, false⟩, .freeDCtx,
    .createDCtx, .decompressInit, .cPoolGet, .dPoolGet]⟩

/-- The Writer `demoWriter`, over the identity codec whose continue step takes
one byte, after Write of the bytes 1, 2. -/
def demoWriterWritten : Writer Nat (List Byte) :=
  { CompressionLevel := 3, ctx := 1, dict := Slice.null, srcBuffer := Slice.null,
    dstBuffer := ⟨1 :: List.replicate 1031 0, 1032, false⟩, firstError := none,
    underlyingWriter := [1], resultBuffer := ⟨0, 1, 1⟩ }

/-- The world after that Write. -/
def demoWriterWrittenWorld : World :=
  ⟨[], [], [.createCStream, .setParameter 3,
    .compressStream2 .e_continue 1032 [1, 2] ⟨0, 1, [1]⟩, .sinkWrite [1]]⟩

/-! ## Sticky errors and closed streams -/

section Sticky

variable {CS DS K U : Type}

theorem Writer.Write_of_firstError (E : Env CS DS K U) (w : Writer CS K) (e : GoError)
    (h : w.firstError = some e) (p : Slice) (W : World) :
    Writer.Write E w p W = .ok ((0, some e), w, W) := by
  unfold Writer.Write
  rw [h]

theorem Writer.Close_of_firstError (E : Env CS DS K U) (fuel : Nat) (w : Writer CS K)
    (e : GoError) (h : w.firstError = some e) (W : World) :
    Writer.Close E fuel w W = .ok (some e, w, W) := by
  unfold Writer.Close
  rw [h]

theorem reader.Read_rejects (E : Env CS DS K U) (fuel : Nat) (r : reader DS U)
    (e : GoError) (h : r.firstError = some e) (p : Slice) (W : World) :
    reader.Read E fuel r p W = .ok ((0, some e), r, p, W) := by
  unfold reader.Read
  rw [h]

theorem reader.Close_rejects (E : Env CS DS K U) (r : reader DS U)
    (e : GoError) (h : r.firstError = some e) (W : World) :
    reader.Close E r W = (some e, r, W) := by
  unfold reader.Close
  rw [h]

theorem Writer.run_of_firstError (E : Env CS DS K U) (fuel : Nat) (w : Writer CS K)
    (e : GoError) (h : w.firstError = some e) (W : World) (calls : List WriterCall) :
    Writer.run E fuel calls w W = .ok (calls.map (WriterCall.rejected e), w, W) := by
  induction calls with
  | nil => rfl
  | cons c cs ih =>
    cases c with
    | Write p =>
      simp only [Writer.run, Writer.Write_of_firstError E w e h, ih, List.map_cons,
        WriterCall.rejected]
    | Close =>
      simp only [Writer.run, Writer.Close_of_firstError E fuel w e h, ih, List.map_cons,
        WriterCall.rejected]

theorem reader.run_rejects (E : Env CS DS K U) (fuel : Nat) (r : reader DS U)
    (e : GoError) (h : r.firstError = some e) (W : World) (calls : List ReaderCall) :
    reader.run E fuel calls r W = .ok (calls.map (ReaderCall.rejected e), r, W) := by
  induction calls with
  | nil => rfl
  | cons c cs ih =>
    cases c with
    | Read p =>
      simp only [reader.run, reader.Read_rejects E fuel r e h, ih, List.map_cons,
        ReaderCall.rejected]
    | Close =>
      simp only [reader.run, reader.Close_rejects E r e h, ih, List.map_cons,
        ReaderCall.rejected]

/-- C8: a Writer whose firstError is set (as NewWriterLevelDict sets it when
loading the dictionary or setting the level fails) answers every sequence of
Write and Close calls, for every p and the empty one too, with (0, firstError)
and firstError; the Writer, all its fields and so the state of the session and
of the sink, and the world with its trace of external calls are unchanged: no
engine step, no sink write, no release of the session. -/
theorem Writer.sticky_construction_error (E : Env CS DS K U) (fuel : Nat) (w : Writer CS K)
    (e : GoError) (h : w.firstError = some e) (W : World) (calls : List WriterCall) :
    Writer.run E fuel calls w W = .ok (calls.map (WriterCall.rejected e), w, W) ∧
    (∀ p, Writer.Write E w p W = .ok ((0, some e), w, W)) ∧
    Writer.Close E fuel w W = .ok (some e, w, W) :=
  ⟨Writer.run_of_firstError E fuel w e h W calls,
   fun p => Writer.Write_of_firstError E w e h p W,
   Writer.Close_of_firstError E fuel w e h W⟩

/-- C6: Close on a reader without sticky error leaves compressionBuffer and
decompressionBuffer nil, puts each of the two buffers to its pool once and
releases the session once; after it every sequence of Read and Close calls is
answered with (0, errReaderClosed) and errReaderClosed, and leaves the reader,
the destinations, the pools and the trace of external calls unchanged. -/
theorem reader.closed_rejects_calls (E : Env CS DS K U) (fuel : Nat) (r : reader DS U)
    (h : r.firstError = none) (W : World) (calls : List ReaderCall) :
    (reader.Close E r W).2.1.compressionBuffer = Slice.null ∧
    (reader.Close E r W).2.1.decompressionBuffer = Slice.null ∧
    (reader.Close E r W).2.2.trace =
      W.trace ++ [.cPoolPut r.compressionBuffer, .dPoolPut r.decompressionBuffer, .freeDCtx] ∧
    (reader.Close E r W).2.2.cPool = r.compressionBuffer :: W.cPool ∧
    (reader.Close E r W).2.2.dPool = r.decompressionBuffer :: W.dPool ∧
    reader.run E fuel calls (reader.Close E r W).2.1 (reader.Close E r W).2.2 =
      .ok (calls.map (ReaderCall.rejected .errReaderClosed), (reader.Close E r W).2.1,
        (reader.Close E r W).2.2) := by
  have hc : (reader.Close E r W).2.1.firstError = some .errReaderClosed := by
    simp [reader.Close, h]
  refine ⟨?_, ?_, ?_, ?_, ?_, reader.run_rejects E fuel _ _ hc _ calls⟩ <;>
    simp [reader.Close, h, cPoolPut, dPoolPut, World.emit]

end Sticky

/-! ## NewWriterLevelDict and an empty dictionary -/

/-- C10: with a dictionary that is not nil and has length 0 NewWriterLevelDict
does not complete: the expression `&dict[0]` panics with an index out of
range, for every sink, level and capacity of the dictionary. -/
theorem NewWriterLevelDict_empty_dict_panics {CS DS K U : Type} (E : Env CS DS K U) (w : K)
    (level : Int) (arr : List Byte) (W : World) :
    NewWriterLevelDict E w level ⟨arr, 0, false⟩ W = .error .indexOutOfRange := by
  simp [NewWriterLevelDict, bind, Except.bind]

/-! ## The Writer on concrete inputs -/

/-- C2: a new Writer over the identity codec whose continue step takes one
byte: Write of the two bytes 1, 2 returns (2, nil), the engine has consumed
the byte 1 only and srcBuffer is empty: the byte 2 is neither consumed nor
retained. -/
theorem Writer.Write_drops_unconsumed_tail :
    (newWriterRun (idEnv 1 0 0) 0 [.Write (Slice.ofList [1, 2])]).map
        (fun x => (x.1, consumedInput x.2.2.trace, x.2.1.srcBuffer.data)) =
      .ok ([.Write 2 none], [1], []) := by
  decide!

/-- C1: over the identity codec whose continue step takes one byte, the bytes
1, 2 written in one chunk and closed leave the byte 1 alone in the sink, and a
reader over the sink delivers the byte 1 and io.EOF: the round trip of the
sequence 1, 2 yields the sequence 1. -/
theorem roundTrip_loses_bytes :
    compressChunks (idEnv 1 0 0) 1 [[1, 2]] = .ok [1] ∧
    roundTrip (idEnv 1 0 0) 3 [[1, 2]] [4] = .ok ([1], [some .EOF]) := by
  decide!

/-- C7: on a new Writer over the identity codec Close returns nil; the Write
after it returns (1, nil) and runs an engine step on the released session, and
the second Close returns nil and releases the session a second time. -/
theorem Writer.calls_after_Close_reach_engine :
    (newWriterRun (idEnv 8 0 0) 1 [.Close, .Write (Slice.ofList [1]), .Close]).map
        (fun x => (x.1, x.2.2.trace)) =
      .ok ([.Close none, .Write 1 none, .Close none],
        [.createCStream, .setParameter 3,
         .compressStream2 .e_end 1032 [] ⟨0, 0, []⟩, .sinkWrite [], .freeCStream,
         .compressStream2 .e_continue 1032 [1] ⟨0, 1, [1]⟩, .sinkWrite [1],
         .compressStream2 .e_end 1032 [] ⟨0, 0, []⟩, .sinkWrite [], .freeCStream]) := by
  decide!

/-- C9 as stated fails: over a codec whose first compress step returns the
error status -1, the first Write returns (0, ErrorCode(-1)); the next Write
does not return that error: it runs a second engine step and returns (1, nil),
and Close runs the finish step and returns nil. -/
theorem Writer.engine_error_not_sticky :
    (newWriterRun (idEnv 8 0 (2 ^ 64 - 1)) 1
        [.Write (Slice.ofList [1, 2]), .Write (Slice.ofList [3]), .Close]).map
        (fun x => (x.1, x.2.1.firstError, x.2.2.trace)) =
      .ok ([.Write 0 (some (.ErrorCode (-1))), .Write 1 none, .Close none], none,
        [.createCStream, .setParameter 3,
         .compressStream2 .e_continue 1032 [1, 2] ⟨2 ^ 64 - 1, 0, []⟩,
         .compressStream2 .e_continue 1032 [3] ⟨0, 1, [3]⟩, .sinkWrite [3],
         .compressStream2 .e_end 1032 [] ⟨0, 0, []⟩, .sinkWrite [], .freeCStream]) := by
  decide!

section WriterFacts
variable {CS DS K U : Type}

theorem getError_eq_some (c : Int) (e : GoError) (h : getError c = some e) :
    e = .ErrorCode c ∧ c < 0 := by
  unfold getError at h
  split at h
  · rename_i hc
    simp only [Option.some.injEq] at h
    exact ⟨h.symm, hc⟩
  · simp at h

theorem Writer.Write_engine_error (E : Env CS DS K U) (w : Writer CS K) (p : Slice) (W : World)
    (n : Int) (e : GoError) (w2 : Writer CS K) (W2 : World)
    (hopen : w.firstError = none)
    (h : Writer.Write E w p W = .ok ((n, some e), w2, W2))
    (hengine : ∃ ev, W2.trace = W.trace ++ [ev]) :
    n = 0 ∧ w2.firstError = none ∧
    ∃ dl src res, W2.trace = W.trace ++ [.compressStream2 .e_continue dl src res] ∧
      e = .ErrorCode (sizeToInt res.code) ∧ sizeToInt res.code < 0 := by
  unfold Writer.Write at h
  rw [hopen] at h
  simp only at h
  repeat' split at h
  all_goals try (simp at h; done)
  all_goals
    simp only [Except.ok.injEq, Prod.mk.injEq, Option.some.injEq] at h
    obtain ⟨⟨hn, he⟩, hw, hW⟩ := h
    subst hn he hw hW
  all_goals first
    | (obtain ⟨ev, hev⟩ := hengine
       simp [World.emit] at hev
       done)
    | (rename_i herr
       exact ⟨rfl, rfl, _, _, _, rfl, getError_eq_some _ _ herr⟩)

theorem Writer.Write_invokes_engine (E : Env CS DS K U) (w : Writer CS K) (p : Slice)
    (W : World) (res : Int × Option GoError) (w2 : Writer CS K) (W2 : World)
    (hopen : w.firstError = none) (hp : p.len ≠ 0)
    (h : Writer.Write E w p W = .ok (res, w2, W2)) :
    ∃ dl src r rest, W2.trace = W.trace ++ .compressStream2 .e_continue dl src r :: rest := by
  unfold Writer.Write at h
  rw [hopen] at h
  simp only [if_neg hp] at h
  repeat' split at h
  all_goals try (simp at h; done)
  all_goals
    simp only [Except.ok.injEq, Prod.mk.injEq] at h
    obtain ⟨_, _, hW⟩ := h
    subst hW
    simp only [World.emit, List.append_assoc, List.singleton_append]
    exact ⟨_, _, _, _, rfl⟩

theorem Writer.closeStep_trace (E : Env CS DS K U) (srcArr : List Byte) (w : Writer CS K)
    (W : World) (s : LoopStep (Option GoError × Writer CS K × World) (Writer CS K × World))
    (h : Writer.closeStep E srcArr w W = .ok s) :
    ∃ dl src r rest,
      (match s with
        | .ret x => x.2.2.trace
        | .next x => x.2.trace) = W.trace ++ .compressStream2 .e_end dl src r :: rest := by
  simp only [Writer.closeStep] at h
  repeat' split at h
  all_goals try (simp at h; done)
  all_goals
    simp only [Except.ok.injEq] at h
    subst h
    simp only [World.emit, List.append_assoc, List.singleton_append]
    exact ⟨_, _, _, _, rfl⟩

theorem Writer.closeLoop_trace (E : Env CS DS K U) (srcArr : List Byte) :
    ∀ (fuel : Nat) (w : Writer CS K) (W : World) (res : Option GoError × Writer CS K × World),
      Writer.closeLoop E srcArr fuel w W = .ok res →
      ∃ rest, res.2.2.trace = W.trace ++ rest := by
  intro fuel
  induction fuel with
  | zero =>
    intro w W res h
    unfold Writer.closeLoop at h
    split at h
    · simp at h
    · simp only [Except.ok.injEq] at h
      subst h
      exact ⟨_, rfl⟩
  | succ fuel ih =>
    intro w W res h
    unfold Writer.closeLoop at h
    split at h
    · simp only at h
      split at h
      · simp at h
      · rename_i x hs
        simp only [Except.ok.injEq] at h
        subst h
        obtain ⟨dl, src, r, rest, ht⟩ := Writer.closeStep_trace E srcArr w W _ hs
        exact ⟨_, ht⟩
      · rename_i w1 W1 hs
        obtain ⟨dl, src, r, rest, ht⟩ := Writer.closeStep_trace E srcArr w W _ hs
        obtain ⟨rest2, ht2⟩ := ih w1 W1 res h
        simp only at ht
        rw [ht2, ht]
        exact ⟨_, List.append_assoc _ _ _⟩
    · simp only [Except.ok.injEq] at h
      subst h
      exact ⟨_, rfl⟩

theorem Writer.Close_invokes_engine (E : Env CS DS K U) (fuel : Nat) (w : Writer CS K)
    (W : World) (res : Option GoError × Writer CS K × World)
    (hopen : w.firstError = none) (h : Writer.Close E fuel w W = .ok res) :
    ∃ dl src r rest, res.2.2.trace = W.trace ++ .compressStream2 .e_end dl src r :: rest := by
  unfold Writer.Close at h
  rw [hopen] at h
  simp only at h
  unfold Writer.closeLoop at h
  rw [if_pos (by show 0 < 1 % 2 ^ 64; decide)] at h
  cases fuel with
  | zero => simp at h
  | succ fuel =>
    simp only at h
    split at h
    · simp at h
    · rename_i x hs
      simp only [Except.ok.injEq] at h
      subst h
      exact Writer.closeStep_trace E _ _ W _ hs
    · rename_i w1 W1 hs
      obtain ⟨dl, src, r, rest, ht⟩ := Writer.closeStep_trace E _ _ W _ hs
      obtain ⟨rest2, ht2⟩ := Writer.closeLoop_trace E _ fuel w1 W1 res h
      simp only at ht
      rw [ht2, ht]
      exact ⟨dl, src, r, rest ++ rest2, by simp⟩

end WriterFacts

/-- C9 (amended): when a Write on a Writer without sticky error fails at the
engine step (it returns an error and the engine step is the one external call
it made), it returns (0, e) where e is the decoded negative status, and
firstError stays nil: the error is not recorded. So a later Write of a p that
is not empty and a later Close are not answered with e at once: each one that
returns has first run the engine again, the continue step for Write and the
finish step for Close. -/
theorem Writer.engine_error_not_recorded {CS DS K U : Type} (E : Env CS DS K U)
    (w : Writer CS K) (p : Slice) (W : World) (n : Int) (e : GoError) (w2 : Writer CS K)
    (W2 : World) (hopen : w.firstError = none)
    (h : Writer.Write E w p W = .ok ((n, some e), w2, W2))
    (hengine : ∃ ev, W2.trace = W.trace ++ [ev]) :
    n = 0 ∧ w2.firstError = none ∧
    (∃ dl src res, W2.trace = W.trace ++ [.compressStream2 .e_continue dl src res] ∧
      e = .ErrorCode (sizeToInt res.code) ∧ sizeToInt res.code < 0) ∧
    (∀ q W3 res3 w3 W4, q.len ≠ 0 → Writer.Write E w2 q W3 = .ok (res3, w3, W4) →
      ∃ dl src r rest, W4.trace = W3.trace ++ .compressStream2 .e_continue dl src r :: rest) ∧
    (∀ fuel W3 res3, Writer.Close E fuel w2 W3 = .ok res3 →
      ∃ dl src r rest, res3.2.2.trace = W3.trace ++ .compressStream2 .e_end dl src r :: rest) := by
  obtain ⟨h1, h2, h3⟩ := Writer.Write_engine_error E w p W n e w2 W2 hopen h hengine
  exact ⟨h1, h2, h3,
    fun q W3 res3 w3 W4 hq hw => Writer.Write_invokes_engine E w2 q W3 res3 w3 W4 h2 hq hw,
    fun fuel W3 res3 hc => Writer.Close_invokes_engine E fuel w2 W3 res3 h2 hc⟩

/-! ## Lists and slices: basic facts -/

theorem take_append_append (l1 l2 l3 : List Byte) :
    (l1 ++ (l2 ++ l3)).take (l1.length + l2.length) = l1 ++ l2 := by
  rw [← List.append_assoc, ← List.length_append, List.take_left]

theorem drop_append_append (l1 l2 l3 : List Byte) (c : Nat) :
    (l1 ++ (l2 ++ l3)).drop (l1.length + l2.length + c) = l3.drop c := by
  rw [← List.append_assoc, ← List.length_append, List.drop_append]

theorem Slice.sliceFrom_natCast (s : Slice) (m : Nat) (h : m ≤ s.len) :
    s.sliceFrom (m : Int) = .ok ⟨s.arr.drop m, s.len - m, s.isNil⟩ := by
  unfold Slice.sliceFrom
  rw [if_pos ⟨Int.natCast_nonneg m, Int.ofNat_le.mpr h⟩]
  simp

theorem SourceCall.delivered_cons (c : SourceCall) (cs : List SourceCall) :
    SourceCall.delivered (c :: cs) = c.bytes ++ SourceCall.delivered cs := by
  simp [SourceCall.delivered]

theorem SourceCall.lastErr_cons (c : SourceCall) (cs : List SourceCall) :
    SourceCall.lastErr (c :: cs) = if cs = [] then c.err else SourceCall.lastErr cs := by
  cases cs with
  | nil => simp [SourceCall.lastErr]
  | cons d ds => simp [SourceCall.lastErr, List.getLast?_cons_cons]

section TryReadFullFacts

variable {CS DS K U : Type}

/-- The loop of TryReadFull, from a state `(m, err)` within the buffer, over a
source whose calls deliver no more bytes than the slice they are given. -/
theorem TryReadFull.loop_spec (E : Env CS DS K U)
    (hcount : ∀ u k, (E.sourceRead u k).1.1.length ≤ k) :
    ∀ (fuel : Nat) (r : U) (buf : Slice) (m : Nat) (err : Option GoError) (W : World)
      (res : (Int × Option GoError) × U × Slice × World),
      buf.WF → m ≤ buf.len → TryReadFull.loop E fuel r buf (m : Int) err W = .ok res →
      ∃ calls : List SourceCall,
        res.2.2.2 = ⟨W.cPool, W.dPool, W.trace ++ calls.map SourceCall.event⟩ ∧
        res.1.1 = ((m + (SourceCall.delivered calls).length : Nat) : Int) ∧
        m + (SourceCall.delivered calls).length ≤ buf.len ∧
        res.2.2.1.len = buf.len ∧ res.2.2.1.isNil = buf.isNil ∧
        res.2.2.1.arr = buf.arr.take m ++ (SourceCall.delivered calls ++
          buf.arr.drop (m + (SourceCall.delivered calls).length)) ∧
        res.1.2 = (if calls = [] then err else SourceCall.lastErr calls) ∧
        ¬ (m + (SourceCall.delivered calls).length < buf.len ∧ res.1.2 = none) ∧
        (∀ c ∈ calls.dropLast, c.err = none) ∧
        (calls ≠ [] → err = none ∧ m < buf.len) ∧
        (∀ c ∈ calls, c.bytes.length ≤ c.len ∧ 0 < c.len) := by
  intro fuel
  induction fuel with
  | zero =>
    intro r buf m err W res hwf hm h
    unfold TryReadFull.loop at h
    split at h
    · simp at h
    · rename_i hc
      injection h with h
      subst h
      refine ⟨[], ?_⟩
      simp only [SourceCall.delivered, List.map_nil, List.flatten_nil, List.length_nil,
        Nat.add_zero, List.append_nil, List.nil_append, List.take_append_drop, if_true,
        List.dropLast_nil, List.not_mem_nil, false_implies, implies_true, ne_eq,
        not_true_eq_false, and_true, true_and]
      refine ⟨hm, ?_⟩
      intro hh
      exact hc ⟨Int.ofNat_lt.mpr hh.1, hh.2⟩
  | succ fuel ih =>
    intro r buf m err W res hwf hm h
    by_cases hc : ((m : Int) < (buf.len : Int) ∧ err = none)
    · have hmlt : m < buf.len := Int.ofNat_lt.mp hc.1
      unfold TryReadFull.loop at h
      rw [if_pos hc] at h
      simp only [bind, Except.bind, Slice.sliceFrom_natCast _ _ hm, Int.toNat_ofNat] at h
      have hlen : (E.sourceRead r (buf.len - m)).1.1.length ≤ buf.len - m := hcount _ _
      rw [List.take_of_length_le hlen, ← Nat.cast_add] at h
      have hwf' : (buf.setFrom m ((⟨buf.arr.drop m, buf.len - m, buf.isNil⟩ : Slice).store
          (E.sourceRead r (buf.len - m)).1.1)).WF := by
        unfold Slice.WF at hwf ⊢
        simp only [Slice.setFrom, Slice.store, List.length_append, List.length_take,
          List.length_drop]
        omega
      obtain ⟨calls, h1, h2, h3, h4, h5, h6, h7, h8, h9, h10, h11⟩ :=
        ih _ _ _ _ _ res hwf' (by simp only [Slice.setFrom]; omega) h
      have htake : (buf.arr.take m).length = m := by
        rw [List.length_take]; unfold Slice.WF at hwf; omega
      refine ⟨⟨buf.len - m, (E.sourceRead r (buf.len - m)).1.1,
        (E.sourceRead r (buf.len - m)).1.2⟩ :: calls, ?_⟩
      simp only [SourceCall.delivered_cons, List.length_append]
      refine ⟨?_, ?_, ?_, ?_, ?_, ?_, ?_, ?_, ?_, ?_, ?_⟩
      · rw [h1]
        simp [World.emit, SourceCall.event]
      · rw [h2]; congr 1; omega
      · simp only [Slice.setFrom] at h3; omega
      · rw [h4]; rfl
      · rw [h5]; rfl
      · rw [h6]
        simp only [Slice.setFrom, Slice.store]
        have e1 := take_append_append (buf.arr.take m) (E.sourceRead r (buf.len - m)).1.1
          ((buf.arr.drop m).drop (E.sourceRead r (buf.len - m)).1.1.length)
        have e2 := drop_append_append (buf.arr.take m) (E.sourceRead r (buf.len - m)).1.1
          ((buf.arr.drop m).drop (E.sourceRead r (buf.len - m)).1.1.length)
          (SourceCall.delivered calls).length
        rw [htake] at e1 e2
        rw [e1, e2]
        simp only [List.drop_drop, List.append_assoc, Nat.add_assoc]
      · rw [h7]
        simp only [SourceCall.lastErr_cons]
        split <;> simp_all
      · intro hh
        apply h8
        refine ⟨?_, hh.2⟩
        simp only [Slice.setFrom]
        omega
      · intro c hcmem
        cases calls with
        | nil => simp at hcmem
        | cons d ds =>
          rw [List.dropLast_cons₂] at hcmem
          rcases List.mem_cons.mp hcmem with rfl | hcm
          · exact (h10 (List.cons_ne_nil _ _)).1
          · exact h9 c hcm
      · intro _; exact ⟨hc.2, hmlt⟩
      · intro c hcmem
        rcases List.mem_cons.mp hcmem with rfl | hcm
        · exact ⟨hlen, Nat.sub_pos_of_lt hmlt⟩
        · exact h11 c hcm
    · unfold TryReadFull.loop at h
      rw [if_neg hc] at h
      injection h with h
      subst h
      refine ⟨[], ?_⟩
      simp only [SourceCall.delivered, List.map_nil, List.flatten_nil, List.length_nil,
        Nat.add_zero, List.append_nil, List.nil_append, List.take_append_drop, if_true,
        List.dropLast_nil, List.not_mem_nil, false_implies, implies_true, ne_eq,
        not_true_eq_false, and_true, true_and]
      refine ⟨hm, ?_⟩
      intro hh
      exact hc ⟨Int.ofNat_lt.mpr hh.1, hh.2⟩

theorem TryReadFull.loop_of_err (E : Env CS DS K U) (fuel : Nat) (r : U) (buf : Slice)
    (n : Int) (e : GoError) (W : World) :
    TryReadFull.loop E fuel r buf n (some e) W = .ok ((n, some e), r, buf, W) := by
  unfold TryReadFull.loop
  rw [if_neg (by simp)]

/-- The loop of TryReadFull returns when every source call on a slice that is
not empty delivers a byte or returns an error, given fuel for one call a byte
of the buffer. -/
theorem TryReadFull.loop_returns (E : Env CS DS K U)
    (hcount : ∀ u k, (E.sourceRead u k).1.1.length ≤ k)
    (hprog : ∀ u k, 0 < k → 0 < (E.sourceRead u k).1.1.length ∨ (E.sourceRead u k).1.2 ≠ none) :
    ∀ (fuel : Nat) (r : U) (buf : Slice) (m : Nat) (err : Option GoError) (W : World),
      m ≤ buf.len → buf.len - m ≤ fuel →
      ∃ res, TryReadFull.loop E fuel r buf (m : Int) err W = .ok res := by
  intro fuel
  induction fuel with
  | zero =>
    intro r buf m err W hm hf
    unfold TryReadFull.loop
    rw [if_neg]
    · exact ⟨_, rfl⟩
    · intro hc
      have := Int.ofNat_lt.mp hc.1
      omega
  | succ fuel ih =>
    intro r buf m err W hm hf
    by_cases hc : ((m : Int) < (buf.len : Int) ∧ err = none)
    · have hmlt : m < buf.len := Int.ofNat_lt.mp hc.1
      unfold TryReadFull.loop
      rw [if_pos hc]
      simp only [bind, Except.bind, Slice.sliceFrom_natCast _ _ hm, Int.toNat_ofNat]
      have hlen : (E.sourceRead r (buf.len - m)).1.1.length ≤ buf.len - m := hcount _ _
      rw [← Nat.cast_add]
      rcases hprog r (buf.len - m) (Nat.sub_pos_of_lt hmlt) with hp | hp
      · apply ih
        · simp only [Slice.setFrom]; omega
        · simp only [Slice.setFrom]; omega
      · obtain ⟨e, he⟩ := Option.ne_none_iff_exists'.mp hp
        rw [he]
        exact ⟨_, TryReadFull.loop_of_err E fuel _ _ _ e _⟩
    · unfold TryReadFull.loop
      rw [if_neg hc]
      exact ⟨_, rfl⟩

end TryReadFullFacts

/-- C5 (amended): over a source whose calls deliver no more bytes than the
slice they are given, TryReadFull returns as soon as every call makes progress
(a byte or an error) and the fuel covers the buffer; and whenever it returns
`(n, err)`: the source calls it made are `calls`, nothing else happened;
`n` is the number of bytes they delivered, `n <= len(buf)` and `buf[:n]` is
those bytes in order, the rest of buf is untouched; for an empty buf there is
no call and the result is (0, nil); `err` is nil exactly when `n = len(buf)`
and the last call returned nil or io.EOF; `err` is errShortRead exactly when
the last call returned io.EOF with `n < len(buf)` or the last call itself
returned errShortRead; every other error of the last call is returned
unchanged; `err` is never io.EOF. -/
theorem TryReadFull_classifies {CS DS K U : Type} (E : Env CS DS K U)
    (hcount : ∀ u k, (E.sourceRead u k).1.1.length ≤ k)
    (fuel : Nat) (r : U) (buf : Slice) (W : World) (hwf : buf.WF) :
    ((∀ u k, 0 < k → 0 < (E.sourceRead u k).1.1.length ∨ (E.sourceRead u k).1.2 ≠ none) →
      buf.len ≤ fuel → ∃ res, TryReadFull E fuel r buf W = .ok res) ∧
    (∀ n err r2 buf2 W2, TryReadFull E fuel r buf W = .ok ((n, err), r2, buf2, W2) →
      ∃ calls : List SourceCall,
        W2 = ⟨W.cPool, W.dPool, W.trace ++ calls.map SourceCall.event⟩ ∧
        n = ((SourceCall.delivered calls).length : Int) ∧
        (SourceCall.delivered calls).length ≤ buf.len ∧
        buf2.len = buf.len ∧
        buf2.data.take (SourceCall.delivered calls).length = SourceCall.delivered calls ∧
        buf2.arr.drop (SourceCall.delivered calls).length =
          buf.arr.drop (SourceCall.delivered calls).length ∧
        (buf.len = 0 → calls = [] ∧ n = 0 ∧ err = none) ∧
        (err = none ↔ n = (buf.len : Int) ∧
          (SourceCall.lastErr calls = none ∨ SourceCall.lastErr calls = some .EOF)) ∧
        (err = some .errShortRead ↔
          (SourceCall.lastErr calls = some .EOF ∧ n < (buf.len : Int)) ∨
            SourceCall.lastErr calls = some .errShortRead) ∧
        (∀ e, SourceCall.lastErr calls = some e → e ≠ .EOF → err = some e) ∧
        err ≠ some .EOF) := by
  constructor
  · intro hprog hf
    obtain ⟨res, hres⟩ := TryReadFull.loop_returns E hcount hprog fuel r buf 0 none W
      (Nat.zero_le _) (by omega)
    unfold TryReadFull
    simp only [Nat.cast_zero] at hres
    simp only [bind, Except.bind, hres, pure, Except.pure]
    split
    · exact ⟨_, rfl⟩
    · split <;> exact ⟨_, rfl⟩
  · intro n err r2 buf2 W2 h
    unfold TryReadFull at h
    cases ht : TryReadFull.loop E fuel r buf 0 none W with
    | error e => simp [ht, bind, Except.bind] at h
    | ok t =>
      have ht' : TryReadFull.loop E fuel r buf ((0 : Nat) : Int) none W = .ok t := by
        simpa using ht
      obtain ⟨calls, h1, h2, h3, h4, h5, h6, h7, h8, h9, h10, h11⟩ :=
        TryReadFull.loop_spec E hcount fuel r buf 0 none W t hwf (Nat.zero_le _) ht'
      simp only [Nat.zero_add, List.take_zero, List.nil_append] at h2 h3 h6 h8
      obtain ⟨⟨tn, terr⟩, tr, tbuf, tW⟩ := t
      simp only at h1 h2 h3 h4 h5 h6 h7 h8
      have hterr : terr = SourceCall.lastErr calls := by
        rw [h7]
        split
        · rename_i hnil
          rw [hnil]
          rfl
        · rfl
      have hdata : tbuf.data.take (SourceCall.delivered calls).length =
          SourceCall.delivered calls := by
        unfold Slice.data
        rw [List.take_take, h4, Nat.min_eq_left h3, h6, List.take_left]
      have hrest : tbuf.arr.drop (SourceCall.delivered calls).length =
          buf.arr.drop (SourceCall.delivered calls).length := by
        rw [h6, List.drop_left]
      have hnil : buf.len = 0 → calls = [] := by
        intro h0
        by_contra hne
        have := (h10 hne).2
        omega
      have hlt : ¬ ((SourceCall.delivered calls).length < buf.len ∧
          SourceCall.lastErr calls = none) := by
        rw [← hterr]; exact h8
      simp only [ht, bind, Except.bind, pure, Except.pure] at h
      rw [hterr] at h
      refine ⟨calls, ?_⟩
      by_cases hA : tn = (buf.len : Int) ∧ SourceCall.lastErr calls = some GoError.EOF
      · rw [if_pos hA] at h
        simp only [Except.ok.injEq, Prod.mk.injEq] at h
        obtain ⟨⟨hn, he⟩, hr, hb, hW⟩ := h
        subst hn he hr hb hW
        refine ⟨h1, h2, h3, h4, hdata, hrest, ?_, ?_, ?_, ?_, ?_⟩
        · intro h0
          have hc := hnil h0
          subst hc
          simp [SourceCall.lastErr] at hA
        · simp [hA.1, hA.2]
        · simp [hA.1, hA.2]
        · intro e he hne
          rw [hA.2] at he
          simp only [Option.some.injEq] at he
          exact absurd he.symm hne
        · simp
      · rw [if_neg hA] at h
        by_cases hB : SourceCall.lastErr calls = some GoError.EOF
        · rw [if_pos hB] at h
          simp only [Except.ok.injEq, Prod.mk.injEq] at h
          obtain ⟨⟨hn, he⟩, hr, hb, hW⟩ := h
          subst hn he hr hb hW
          have hne : tn ≠ (buf.len : Int) := fun hh => hA ⟨hh, hB⟩
          have hlt2 : tn < (buf.len : Int) := by
            rw [h2] at hne ⊢
            have : (SourceCall.delivered calls).length ≠ buf.len := fun hh => hne (by rw [hh])
            exact Int.ofNat_lt.mpr (by omega)
          refine ⟨h1, h2, h3, h4, hdata, hrest, ?_, ?_, ?_, ?_, ?_⟩
          · intro h0
            have hc := hnil h0
            subst hc
            simp [SourceCall.lastErr] at hB
          · simp [hne]
          · simp [hB, hlt2]
          · intro e he hne
            rw [hB] at he
            simp only [Option.some.injEq] at he
            exact absurd he.symm hne
          · simp
        · rw [if_neg hB] at h
          simp only [Except.ok.injEq, Prod.mk.injEq] at h
          obtain ⟨⟨hn, he⟩, hr, hb, hW⟩ := h
          subst hn he hr hb hW
          refine ⟨h1, h2, h3, h4, hdata, hrest, ?_, ?_, ?_, ?_, ?_⟩
          · intro h0
            have hc := hnil h0
            subst hc
            simp [SourceCall.lastErr, SourceCall.delivered] at h2 ⊢
            exact h2
          · constructor
            · intro hnone
              refine ⟨?_, Or.inl hnone⟩
              rw [h2]
              have : ¬ (SourceCall.delivered calls).length < buf.len := fun hh => hlt ⟨hh, hnone⟩
              congr 1
              omega
            · rintro ⟨_, hn | hn⟩
              · exact hn
              · exact absurd hn hB
          · constructor
            · intro hs
              exact Or.inr hs
            · rintro (⟨hn, _⟩ | hn)
              · exact absurd hn hB
              · exact hn
          · intro e he _
            exact he
          · exact hB

/-! ## reader.Read: delivery of the decoded bytes -/

theorem sizeToInt_of_lt (v : Nat) (h : v < 2 ^ 63) : sizeToInt v = (v : Int) := by
  unfold sizeToInt
  have h1 : v % 2 ^ 64 = v := Nat.mod_eq_of_lt (by omega)
  rw [h1, if_pos h]

theorem decoded_append (a b : List Event) : decoded (a ++ b) = decoded a ++ decoded b := by
  induction a with
  | nil => rfl
  | cons e es ih => cases e <;> simp [decoded, ih]

theorem decoded_sourceCalls (calls : List SourceCall) :
    decoded (calls.map SourceCall.event) = [] := by
  induction calls with
  | nil => rfl
  | cons c cs ih => simp [SourceCall.event, decoded, ih]

theorem take_append_of_length (l1 l2 : List Byte) (n : Nat) (h : l1.length = n) :
    (l1 ++ l2).take n = l1 := by
  subst h
  exact List.take_left l1 l2

theorem Slice.sliceTo_natCast (s : Slice) (m : Nat) (h : m ≤ s.cap) :
    s.sliceTo (m : Int) = .ok ⟨s.arr, m, s.isNil⟩ := by
  unfold Slice.sliceTo
  rw [if_pos ⟨Int.natCast_nonneg m, Int.ofNat_le.mpr h⟩]
  simp

theorem Slice.cap_store (s : Slice) (xs : List Byte) (h : xs.length ≤ s.cap) :
    (s.store xs).cap = s.cap := by
  unfold Slice.cap at h ⊢
  simp only [Slice.store, List.length_append, List.length_drop]
  omega

section ReadFacts

variable {CS DS K U : Type}

/-- The loop of TryReadFull makes source calls and nothing else. -/
theorem TryReadFull.loop_world (E : Env CS DS K U) :
    ∀ (fuel : Nat) (r : U) (buf : Slice) (n : Int) (err : Option GoError) (W : World)
      (res : (Int × Option GoError) × U × Slice × World),
      TryReadFull.loop E fuel r buf n err W = .ok res →
      ∃ calls : List SourceCall,
        res.2.2.2 = ⟨W.cPool, W.dPool, W.trace ++ calls.map SourceCall.event⟩ := by
  intro fuel
  induction fuel with
  | zero =>
    intro r buf n err W res h
    unfold TryReadFull.loop at h
    split at h
    · simp at h
    · simp only [Except.ok.injEq] at h
      subst h
      exact ⟨[], by simp⟩
  | succ fuel ih =>
    intro r buf n err W res h
    unfold TryReadFull.loop at h
    split at h
    · simp only [bind, Except.bind] at h
      split at h
      · simp at h
      · obtain ⟨calls, hc⟩ := ih _ _ _ _ _ res h
        rename_i sub _
        refine ⟨⟨sub.len, (E.sourceRead r sub.len).1.1, (E.sourceRead r sub.len).1.2⟩ :: calls, ?_⟩
        rw [hc]
        simp [World.emit, SourceCall.event]
    · simp only [Except.ok.injEq] at h
      subst h
      exact ⟨[], by simp⟩

theorem TryReadFull_world (E : Env CS DS K U) (fuel : Nat) (r : U) (buf : Slice) (W : World)
    (res : (Int × Option GoError) × U × Slice × World)
    (h : TryReadFull E fuel r buf W = .ok res) :
    ∃ calls : List SourceCall,
      res.2.2.2 = ⟨W.cPool, W.dPool, W.trace ++ calls.map SourceCall.event⟩ := by
  unfold TryReadFull at h
  simp only [bind, Except.bind, pure, Except.pure] at h
  split at h
  · simp at h
  · rename_i t ht
    obtain ⟨calls, hc⟩ := TryReadFull.loop_world E fuel r buf 0 none W t ht
    refine ⟨calls, ?_⟩
    repeat' split at h
    all_goals
      simp only [Except.ok.injEq] at h
      subst h
      exact hc

/-- An iteration of the decode loop that returns nil or io.EOF returns io.EOF
and the count so far; it has made source calls only and has not touched the
destination nor the output staging. -/
theorem reader.readStep_ret (E : Env CS DS K U) (fuel : Nat) (r : reader DS U) (p : Slice)
    (got : Int) (W : World) (n : Int) (err : Option GoError) (r2 : reader DS U) (p2 : Slice)
    (W2 : World)
    (h : reader.readStep E fuel r p got W = .ok (.ret ((n, err), r2, p2, W2)))
    (herr : err = none ∨ err = some .EOF) :
    err = some .EOF ∧ n = got ∧ p2 = p ∧
    r2.decompressionBuffer = r.decompressionBuffer ∧ r2.decompOff = r.decompOff ∧
    r2.decompSize = r.decompSize ∧ r2.firstError = r.firstError ∧
    ∃ calls : List SourceCall,
      W2 = ⟨W.cPool, W.dPool, W.trace ++ calls.map SourceCall.event⟩ := by
  simp only [reader.readStep] at h
  repeat' split at h
  all_goals try (simp at h; done)
  all_goals
    simp only [Except.ok.injEq, LoopStep.ret.injEq, Prod.mk.injEq] at h
    obtain ⟨⟨hn, he⟩, hr, hp, hW⟩ := h
    subst hn he hr hp hW
  · rename_i hcond
    exfalso
    obtain ⟨e, he⟩ := Option.ne_none_iff_exists'.mp hcond.1
    rw [he] at herr
    simp at herr
  · rename_i ht _ _
    exact ⟨rfl, rfl, rfl, rfl, rfl, rfl, rfl, TryReadFull_world E _ _ _ _ _ ht⟩
  · simp at herr

/-- An iteration of the decode loop that goes on has made source calls and one
decode step; the output of the step is in the destination from `got` on as far
as it fits, and the rest of it is the output staging of the reader. -/
theorem reader.readStep_next (E : Env CS DS K U) (fuel : Nat) (r : reader DS U) (p : Slice)
    (got : Nat) (W : World) (r2 : reader DS U) (p2 : Slice) (got2 : Int) (W2 : World)
    (hp : p.WF) (hgot : got < p.len) (hdb : r.decompressionBuffer.WF)
    (hcap : r.decompressionBuffer.cap < 2 ^ 63)
    (h : reader.readStep E fuel r p (got : Int) W = .ok (.next (r2, p2, got2, W2))) :
    ∃ (calls : List SourceCall) (dl : Nat) (src : List Byte) (res : StepResult) (k : Nat),
      W2 = ⟨W.cPool, W.dPool,
        W.trace ++ (calls.map SourceCall.event ++ [.decompressContinue dl src res])⟩ ∧
      got2 = ((got + k : Nat) : Int) ∧ got + k ≤ p.len ∧ k ≤ res.out.length ∧
      (got + k < p.len → k = res.out.length) ∧
      p2.len = p.len ∧ p2.WF ∧
      p2.arr.take (got + k) = p.arr.take got ++ res.out.take k ∧
      r2.staged = res.out.drop k ∧ r2.StagingOK ∧ r2.firstError = r.firstError := by
  simp only [reader.readStep] at h
  repeat' split at h
  all_goals try (simp at h; done)
  rename_i x7 tail htail x6 t ht hc1 hc2 x5 src hsrc hidx hfault x4 hget x3 cb hcb x2 pt hpt x1 dh
    hdh x0 cb2 hres
  obtain ⟨calls, hcalls⟩ := TryReadFull_world E _ _ _ _ _ ht
  generalize E.ZBUFF_decompressContinue r.ctx r.decompressionBuffer.len src.data = d at *
  have hout : d.1.out.length ≤ r.decompressionBuffer.len := Nat.le_of_not_lt hfault
  have hlen : r.decompressionBuffer.len ≤ r.decompressionBuffer.arr.length := hdb
  have hcap2 : r.decompressionBuffer.arr.length < 2 ^ 63 := hcap
  have hsz : sizeToInt d.1.out.length = (d.1.out.length : Int) :=
    sizeToInt_of_lt _ (by omega)
  rw [hsz] at hdh h
  rw [Slice.sliceFrom_natCast p got (Nat.le_of_lt hgot)] at hpt
  have hcs : d.1.out.length ≤ (r.decompressionBuffer.store d.1.out).cap := by
    rw [Slice.cap_store _ _ (by unfold Slice.cap; omega)]
    unfold Slice.cap
    omega
  rw [Slice.sliceTo_natCast _ _ hcs] at hdh
  simp only [Except.ok.injEq] at hpt hdh
  subst hpt hdh
  simp only [Except.ok.injEq, LoopStep.next.injEq, Prod.mk.injEq] at h
  obtain ⟨hr, hp2, hg, hW⟩ := h
  subst hr hp2 hg hW
  have hdata : (r.decompressionBuffer.store d.1.out).arr.take d.1.out.length = d.1.out := by
    simp [Slice.store]
  have hplen : p.len ≤ p.arr.length := hp
  have htk : (p.arr.take got).length = got := by
    rw [List.length_take]; omega
  refine ⟨calls, r.decompressionBuffer.len, src.data, d.1,
    min (p.len - got) d.1.out.length, ?_, ?_, ?_, ?_, ?_, ?_, ?_, ?_, ?_, ?_, ?_⟩
  · rw [hcalls]
    simp [World.emit]
  · simp only [copy]
    push_cast
    rfl
  · omega
  · omega
  · omega
  · rfl
  · unfold Slice.WF
    simp only [Slice.setFrom, copy, Slice.store, Slice.data, Int.toNat_ofNat, List.length_append,
      List.length_take, List.length_drop]
    omega
  · simp only [Slice.store] at hdata
    simp only [Slice.setFrom, copy, Slice.data, Int.toNat_ofNat, Slice.store, hdata]
    have hk : (d.1.out.take (min (p.len - got) d.1.out.length)).length =
        min (p.len - got) d.1.out.length := by
      rw [List.length_take]; omega
    have e := take_append_append (p.arr.take got)
      (d.1.out.take (min (p.len - got) d.1.out.length))
      ((p.arr.drop got).drop (d.1.out.take (min (p.len - got) d.1.out.length)).length)
    rw [htk, hk] at e
    rw [hk]
    exact e
  · simp only [reader.staged, copy, Int.toNat_ofNat, hdata]
  · have hcs2 := Slice.cap_store r.decompressionBuffer d.1.out (by unfold Slice.cap; omega)
    unfold Slice.cap at hcs2
    unfold reader.StagingOK Slice.WF Slice.cap
    simp only [copy, hcs2]
    refine ⟨hlen, hcap2, ?_, ?_, ?_⟩
    · exact Int.natCast_nonneg _
    · exact Int.ofNat_le.mpr (Nat.min_le_right _ _)
    · exact Int.ofNat_le.mpr hout
  · rfl

theorem reader.staged_congr (r r2 : reader DS U)
    (h1 : r2.decompressionBuffer = r.decompressionBuffer) (h2 : r2.decompOff = r.decompOff)
    (h3 : r2.decompSize = r.decompSize) : r2.staged = r.staged := by
  unfold reader.staged
  rw [h1, h2, h3]

theorem reader.StagingOK_congr (r r2 : reader DS U)
    (h1 : r2.decompressionBuffer = r.decompressionBuffer) (h2 : r2.decompOff = r.decompOff)
    (h3 : r2.decompSize = r.decompSize) (h : r.StagingOK) : r2.StagingOK := by
  unfold reader.StagingOK at h ⊢
  rw [h1, h2, h3]
  exact h

/-- The decode loop of reader.Read, entered with `got` bytes in the
destination: when it returns nil or io.EOF, the first `m` bytes of the
destination (`m` the count returned) followed by the output staging are the
`got` bytes, what was staged, and the output of the decode steps made. -/
theorem reader.readLoop_spec (E : Env CS DS K U) :
    ∀ (fuel : Nat) (r : reader DS U) (p : Slice) (got : Nat) (W : World) (n : Int)
      (err : Option GoError) (r2 : reader DS U) (p2 : Slice) (W2 : World),
      p.WF → got ≤ p.len → r.StagingOK → (got < p.len → r.staged = []) →
      reader.readLoop E fuel r p (got : Int) W = .ok ((n, err), r2, p2, W2) →
      (err = none ∨ err = some .EOF) →
      ∃ (evs : List Event) (m : Nat),
        W2 = ⟨W.cPool, W.dPool, W.trace ++ evs⟩ ∧ n = (m : Int) ∧ got ≤ m ∧ m ≤ p.len ∧
        p2.len = p.len ∧ p2.WF ∧
        p2.arr.take m ++ r2.staged = p.arr.take got ++ r.staged ++ decoded evs ∧
        r2.StagingOK ∧ r2.firstError = r.firstError ∧
        (err = some .EOF → m < p.len ∧ r2.staged = []) := by
  intro fuel
  induction fuel with
  | zero =>
    intro r p got W n err r2 p2 W2 hp hgot hok hst h herr
    unfold reader.readLoop at h
    split at h
    · simp at h
    · rename_i hc
      simp only [Except.ok.injEq, Prod.mk.injEq] at h
      obtain ⟨⟨hn, he⟩, hr, hp2, hW⟩ := h
      subst hn he hr hp2 hW
      refine ⟨[], got, by simp, rfl, Nat.le_refl _, hgot, rfl, hp, by simp [decoded], hok, rfl, ?_⟩
      intro hh
      simp at hh
  | succ fuel ih =>
    intro r p got W n err r2 p2 W2 hp hgot hok hst h herr
    unfold reader.readLoop at h
    split at h
    · rename_i hc
      have hlt : got < p.len := Int.ofNat_lt.mp hc
      simp only at h
      split at h
      · simp at h
      · rename_i res hs
        simp only [Except.ok.injEq] at h
        subst h
        obtain ⟨he, hn, hp2, hdb, hoff, hsz, hfe, calls, hW⟩ :=
          reader.readStep_ret E fuel r p got W n err r2 p2 W2 hs herr
        subst hp2
        have hst2 : r2.staged = r.staged := reader.staged_congr r r2 hdb hoff hsz
        refine ⟨calls.map SourceCall.event, got, hW, hn, Nat.le_refl _, hgot, rfl, hp, ?_,
          reader.StagingOK_congr r r2 hdb hoff hsz hok, hfe, ?_⟩
        · rw [hst2, decoded_sourceCalls, List.append_nil]
        · intro _
          rw [hst2]
          exact ⟨hlt, hst hlt⟩
      · rename_i r1 p1 got1 W1 hs
        obtain ⟨calls, dl, src, res, k, hW1, hg1, hk1, hk2, hk3, hpl, hpw, hpa, hst1, hok1, hfe1⟩ :=
          reader.readStep_next E fuel r p got W r1 p1 got1 W1 hp hlt hok.1 hok.2.1 hs
        subst hg1
        obtain ⟨evs, m, hW2, hn, hm1, hm2, hpl2, hpw2, heq, hok2, hfe2, heof⟩ :=
          ih r1 p1 (got + k) W1 n err r2 p2 W2 hpw (by omega)
            hok1 (by
              intro hh
              rw [hst1, hk3 (by omega)]
              simp) h herr
        refine ⟨calls.map SourceCall.event ++ [.decompressContinue dl src res] ++ evs, m, ?_, hn,
          by omega, by omega, by omega, hpw2, ?_, hok2, by rw [hfe2, hfe1], ?_⟩
        · rw [hW2, hW1]
          simp
        · rw [heq, hpa, hst1, hst hlt]
          simp [decoded_append, decoded_sourceCalls, decoded]
        · intro hh
          obtain ⟨h1, h2⟩ := heof hh
          exact ⟨by omega, h2⟩
    · rename_i hc
      simp only [Except.ok.injEq, Prod.mk.injEq] at h
      obtain ⟨⟨hn, he⟩, hr, hp2, hW⟩ := h
      subst hn he hr hp2 hW
      refine ⟨[], got, by simp, rfl, Nat.le_refl _, hgot, rfl, hp, by simp [decoded], hok, rfl, ?_⟩
      intro hh
      simp at hh

theorem Slice.slice_natCast (s : Slice) (lo hi : Nat) (h1 : lo ≤ hi) (h2 : hi ≤ s.cap) :
    s.slice (lo : Int) (hi : Int) = .ok ⟨s.arr.drop lo, hi - lo, s.isNil⟩ := by
  unfold Slice.slice
  rw [if_pos ⟨Int.natCast_nonneg lo, Int.ofNat_le.mpr h1, Int.ofNat_le.mpr h2⟩]
  simp

/-- One Read call that returns nil or io.EOF: the bytes delivered, `p[:m]` for
the count `m` returned, followed by the output staging after the call are the
output staging before the call followed by the output of the decode steps of
the call. -/
theorem reader.Read_spec (E : Env CS DS K U) (fuel : Nat) (r : reader DS U) (p : Slice)
    (W : World) (n : Int) (err : Option GoError) (r2 : reader DS U) (p2 : Slice) (W2 : World)
    (hopen : r.firstError = none) (hok : r.StagingOK) (hp : p.WF)
    (h : reader.Read E fuel r p W = .ok ((n, err), r2, p2, W2))
    (herr : err = none ∨ err = some .EOF) :
    ∃ (evs : List Event) (m : Nat),
      W2 = ⟨W.cPool, W.dPool, W.trace ++ evs⟩ ∧ n = (m : Int) ∧ m ≤ p.len ∧
      p2.len = p.len ∧ p2.WF ∧
      p2.arr.take m ++ r2.staged = r.staged ++ decoded evs ∧
      r2.StagingOK ∧ r2.firstError = none ∧
      (err = some .EOF → m < p.len ∧ r2.staged = [] ∧ r.staged.length ≤ m) := by
  obtain ⟨hwf, hcap, h0, h1, h2⟩ := hok
  obtain ⟨off, hoff⟩ := Int.eq_ofNat_of_zero_le h0
  obtain ⟨size, hsize⟩ := Int.eq_ofNat_of_zero_le (le_trans h0 h1)
  have hos : off ≤ size := by rw [hoff, hsize] at h1; exact Int.ofNat_le.mp h1
  have hsl : size ≤ r.decompressionBuffer.len := by rw [hsize] at h2; exact Int.ofNat_le.mp h2
  have hla : r.decompressionBuffer.len ≤ r.decompressionBuffer.arr.length := hwf
  have hpl : p.len ≤ p.arr.length := hp
  have hstaged : r.staged = (r.decompressionBuffer.arr.drop off).take (size - off) := by
    unfold reader.staged
    rw [hoff, hsize]
    simp only [Int.toNat_ofNat]
    rw [List.drop_take]
  have hstl : r.staged.length = size - off := by
    rw [hstaged, List.length_take, List.length_drop]
    omega
  unfold reader.Read at h
  rw [hopen] at h
  simp only at h
  split at h
  · rename_i hc
    rw [hoff, hsize] at hc
    have hc2 : p.len ≤ size - off := by omega
    rw [hoff, Slice.sliceFrom_natCast _ _ (by omega)] at h
    simp only [bind, Except.bind, Except.ok.injEq, Prod.mk.injEq] at h
    obtain ⟨⟨hn, he⟩, hr, hp2, hW⟩ := h
    subst hn he hr hp2 hW
    refine ⟨[], p.len, by simp, rfl, Nat.le_refl _, rfl, ?_, ?_, ?_, rfl, ?_⟩
    · unfold Slice.WF
      simp only [copy, Slice.store, Slice.data, List.length_append, List.length_take,
        List.length_drop]
      omega
    · have hx : ((r.decompressionBuffer.arr.drop off).take
          (r.decompressionBuffer.len - off)).take (min p.len (r.decompressionBuffer.len - off)) =
          r.staged.take p.len := by
        rw [hstaged, List.take_take, List.take_take]
        congr 1
        omega
      have hxl : (r.staged.take p.len).length = p.len := by
        rw [List.length_take, hstl]; omega
      have hy : ∀ fe, reader.staged
          { r with decompOff := (off : Int) + (p.len : Int), firstError := fe } =
          r.staged.drop p.len := by
        intro fe
        rw [hstaged]
        unfold reader.staged
        simp only [hsize, Int.toNat_ofNat]
        rw [show ((off : Int) + (p.len : Int)).toNat = off + p.len by omega]
        rw [List.drop_take, List.drop_take, List.drop_drop]
        congr 1
        omega
      rw [hy none]
      simp only [copy, Slice.store, Slice.data, hx, decoded, List.append_nil]
      rw [take_append_of_length _ _ _ hxl]
      exact List.take_append_drop _ _
    · unfold reader.StagingOK
      simp only
      refine ⟨hwf, hcap, ?_, ?_, h2⟩
      · omega
      · rw [hsize]; omega
    · intro hh
      simp at hh
  · rename_i hc
    rw [hoff, hsize] at hc
    have hc2 : size - off < p.len := by omega
    rw [hoff, hsize, Slice.slice_natCast _ _ _ hos (by unfold Slice.cap; omega)] at h
    simp only [bind, Except.bind] at h
    have hgot : ((size : Int) - (off : Int)) = ((size - off : Nat) : Int) := by omega
    rw [hgot] at h
    have hx : ((r.decompressionBuffer.arr.drop off).take (size - off)).take
        (min p.len (size - off)) = r.staged := by
      rw [hstaged, List.take_take]
      congr 1
      omega
    have hp1 : (copy p ⟨r.decompressionBuffer.arr.drop off, size - off,
        r.decompressionBuffer.isNil⟩).1.arr = r.staged ++ p.arr.drop r.staged.length := by
      simp only [copy, Slice.store, Slice.data, hx]
    obtain ⟨evs, m, hW2, hn, hm1, hm2, hpl2, hpw2, heq, hok2, hfe2, heof⟩ :=
      reader.readLoop_spec E fuel _ _ (size - off) W n err r2 p2 W2
        (by
          unfold Slice.WF
          rw [hp1]
          simp only [copy, Slice.store, List.length_append, List.length_drop, hstl]
          omega)
        (by simp only [copy, Slice.store]; omega)
        (by
          unfold reader.StagingOK
          exact ⟨hwf, hcap, le_refl _, le_refl _, Int.natCast_nonneg _⟩)
        (by intro _; simp [reader.staged]) h herr
    refine ⟨evs, m, hW2, hn, by simpa [copy, Slice.store] using hm2,
      by simpa [copy, Slice.store] using hpl2, hpw2, ?_, hok2, by rw [hfe2], ?_⟩
    · rw [heq, hp1, take_append_of_length _ _ _ hstl]
      simp [reader.staged]
    · intro hh
      obtain ⟨e1, e2⟩ := heof hh
      exact ⟨by simpa [copy, Slice.store] using e1, e2, by omega⟩

end ReadFacts

theorem sizeToInt_lt (v : Nat) : sizeToInt v < 2 ^ 63 := by
  unfold sizeToInt
  have : v % 2 ^ 64 < 2 ^ 64 := Nat.mod_lt _ (by decide)
  split <;> omega

/-- NewReaderDict makes a reader whose output staging is empty and within its
bounds, when the buffers in the decompression pool are well formed. -/
theorem NewReaderDict_staging {CS DS K U : Type} (E : Env CS DS K U) (u : U) (dict : Slice)
    (W : World) (r : reader DS U) (W2 : World)
    (hpool : ∀ b ∈ W.dPool, b.WF ∧ b.cap < 2 ^ 63)
    (h : NewReaderDict E u dict W = .ok (r, W2)) :
    r.StagingOK ∧ r.staged = [] := by
  have hdb : ∀ (W1 : World) (b : Slice) (W3 : World), W1.dPool = W.dPool →
      dPoolGet E W1 = .ok (b, W3) → b.WF ∧ b.cap < 2 ^ 63 := by
    intro W1 b W3 hW1 hget
    unfold dPoolGet at hget
    split at hget
    · rename_i b0 rest hb
      simp only [Except.ok.injEq, Prod.mk.injEq] at hget
      rw [← hget.1]
      exact hpool b0 (by rw [← hW1, hb]; exact List.mem_cons_self _ _)
    · simp only [bind, Except.bind] at hget
      split at hget
      · simp at hget
      · rename_i n hn
        split at hget
        · simp at hget
        · rename_i buff hb
          simp only [Except.ok.injEq, Prod.mk.injEq] at hget
          rw [← hget.1]
          have hlt : n < 2 ^ 63 := by
            unfold dSize at hn
            simp only at hn
            split at hn
            · simp at hn
            · simp only [Except.ok.injEq] at hn
              rw [← hn]
              exact sizeToInt_lt _
          unfold make at hb
          split at hb
          · simp only [Except.ok.injEq] at hb
            rw [← hb]
            unfold Slice.WF Slice.cap
            simp only [List.length_replicate]
            omega
          · simp at hb
  have hc : ∀ (W1 : World) (b : Slice) (W3 : World),
      cPoolGet E W1 = .ok (b, W3) → W3.dPool = W1.dPool := by
    intro W1 b W3 hget
    unfold cPoolGet at hget
    split at hget
    · simp only [Except.ok.injEq, Prod.mk.injEq] at hget
      rw [← hget.2]
      rfl
    · simp only [bind, Except.bind] at hget
      repeat' split at hget
      all_goals try (simp at hget; done)
      simp only [Except.ok.injEq, Prod.mk.injEq] at hget
      rw [← hget.2]
      rfl
  unfold NewReaderDict at h
  simp only [bind, Except.bind, pure, Except.pure] at h
  repeat' split at h
  all_goals try (simp at h; done)
  all_goals
    rename_i x2 v2 hcget x1 v1 hdget x0 v0 hcs hd
    simp only [Except.ok.injEq, Prod.mk.injEq] at h
    obtain ⟨hr, _⟩ := h
    subst hr
    have hW := hc _ v2.1 v2.2 hcget
    have hW1 : v2.2.dPool = W.dPool := by
      rw [hW]
      split <;> rfl
    obtain ⟨h1, h2⟩ := hdb v2.2 v1.1 v1.2 hW1 hdget
    exact ⟨⟨h1, h2, le_refl _, le_refl _, Int.natCast_nonneg _⟩, by simp [reader.staged]⟩

theorem ReaderReturn.delivered_Read (n : Int) (err : Option GoError) (p : Slice) (m : Nat)
    (hn : n = (m : Int)) (hm : m ≤ p.len) :
    ReaderReturn.delivered (.Read n err p) = p.arr.take m := by
  subst hn
  simp only [ReaderReturn.delivered, Slice.data, Int.toNat_ofNat, List.take_take]
  congr 1
  omega

/-- A sequence of Read calls that all return nil or io.EOF: the bytes
delivered followed by the output staging after the last call are what was
staged before the first call followed by the output of the decode steps the
calls made. -/
theorem reader.run_Read_spec {CS DS K U : Type} (E : Env CS DS K U) (fuel : Nat)
    (ps : List Slice) :
    ∀ (r : reader DS U) (W : World) (rs : List ReaderReturn) (r2 : reader DS U) (W2 : World),
      r.firstError = none → r.StagingOK → (∀ p ∈ ps, p.WF) →
      reader.run E fuel (ps.map .Read) r W = .ok (rs, r2, W2) →
      (∀ x ∈ rs, x.err = none ∨ x.err = some .EOF) →
      ∃ evs : List Event,
        W2.trace = W.trace ++ evs ∧
        (rs.map ReaderReturn.delivered).flatten ++ r2.staged = r.staged ++ decoded evs ∧
        (rs.map ReaderReturn.delivered).flatten <+: r.staged ++ decoded evs ∧
        rs.length = ps.length ∧ r2.StagingOK ∧ r2.firstError = none := by
  induction ps with
  | nil =>
    intro r W rs r2 W2 hopen hok _ h _
    simp only [List.map_nil, reader.run, Except.ok.injEq, Prod.mk.injEq] at h
    obtain ⟨hrs, hr, hW⟩ := h
    subst hrs hr hW
    exact ⟨[], by simp, by simp [decoded], ⟨r.staged, by simp [decoded]⟩, rfl, hok, hopen⟩
  | cons p ps ih =>
    intro r W rs r2 W2 hopen hok hps h herr
    simp only [List.map_cons, reader.run] at h
    split at h
    · simp at h
    · rename_i res r1 p1 W1 hread
      split at h
      · simp at h
      · rename_i rs1 r3 W3 hrun
        simp only [Except.ok.injEq, Prod.mk.injEq] at h
        obtain ⟨hrs, hr, hW⟩ := h
        subst hrs hr hW
        have herr1 : res.2 = none ∨ res.2 = some .EOF :=
          herr (.Read res.1 res.2 p1) (List.mem_cons_self _ _)
        obtain ⟨evs1, m, hW1, hn, hm, hpl, hpw, heq1, hok1, hfe1, _⟩ :=
          reader.Read_spec E fuel r p W res.1 res.2 r1 p1 W1 hopen hok
            (hps p (List.mem_cons_self _ _)) hread herr1
        obtain ⟨evs2, hW2, heq2, _, hlen, hok2, hfe2⟩ :=
          ih r1 W1 rs1 r3 W3 hfe1 hok1 (fun q hq => hps q (List.mem_cons_of_mem _ hq)) hrun
            (fun x hx => herr x (List.mem_cons_of_mem _ hx))
        have hd : ReaderReturn.delivered (.Read res.1 res.2 p1) = p1.arr.take m :=
          ReaderReturn.delivered_Read _ _ _ m hn (by omega)
        have hall : ((ReaderReturn.Read res.1 res.2 p1 :: rs1).map
            ReaderReturn.delivered).flatten ++ r3.staged = r.staged ++ decoded (evs1 ++ evs2) := by
          rw [List.map_cons, List.flatten_cons, hd, List.append_assoc, heq2,
            ← List.append_assoc, heq1, decoded_append, List.append_assoc]
        refine ⟨evs1 ++ evs2, ?_, hall, ⟨r3.staged, hall⟩, by simp [hlen], hok2, hfe2⟩
        rw [hW2, hW1]
        simp


/-! ## reader.Read: the bytes delivered do not depend on the destinations -/

section Independence

variable {CS DS K U : Type}

theorem reader.decodeStep_core (E : Env CS DS K U) (fuel : Nat) (r : reader DS U) (W : World) :
    reader.decodeStep E fuel r.core W = reader.decodeStep E fuel r W := rfl

theorem reader.core_core (r : reader DS U) : r.core.core = r.core := rfl

/-- What TryReadFull returns does not depend on the fuel. -/
theorem TryReadFull.loop_fuel (E : Env CS DS K U) :
    ∀ (f1 f2 : Nat) (r : U) (buf : Slice) (n : Int) (err : Option GoError) (W : World)
      (a b : (Int × Option GoError) × U × Slice × World),
      TryReadFull.loop E f1 r buf n err W = .ok a →
      TryReadFull.loop E f2 r buf n err W = .ok b → a = b := by
  intro f1
  induction f1 with
  | zero =>
    intro f2 r buf n err W a b ha hb
    unfold TryReadFull.loop at ha
    split at ha
    · simp at ha
    · rename_i hc
      unfold TryReadFull.loop at hb
      rw [if_neg hc] at hb
      rw [ha] at hb
      exact Except.ok.inj hb
  | succ f1 ih =>
    intro f2 r buf n err W a b ha hb
    unfold TryReadFull.loop at ha
    split at ha
    · rename_i hc
      unfold TryReadFull.loop at hb
      rw [if_pos hc] at hb
      cases f2 with
      | zero => simp at hb
      | succ f2 =>
        simp only [bind, Except.bind] at ha hb
        split at ha
        · simp at ha
        · rename_i sub hsub
          rw [hsub] at hb
          exact ih f2 _ _ _ _ _ a b ha hb
    · rename_i hc
      unfold TryReadFull.loop at hb
      rw [if_neg hc] at hb
      rw [ha] at hb
      exact Except.ok.inj hb

theorem TryReadFull_fuel (E : Env CS DS K U) (f1 f2 : Nat) (r : U) (buf : Slice) (W : World)
    (a b : (Int × Option GoError) × U × Slice × World)
    (ha : TryReadFull E f1 r buf W = .ok a) (hb : TryReadFull E f2 r buf W = .ok b) : a = b := by
  unfold TryReadFull at ha hb
  simp only [bind, Except.bind] at ha hb
  split at ha
  · simp at ha
  · rename_i t1 h1
    split at hb
    · simp at hb
    · rename_i t2 h2
      have := TryReadFull.loop_fuel E f1 f2 r buf 0 none W t1 t2 h1 h2
      subst this
      rw [ha] at hb
      exact Except.ok.inj hb

/-- What an iteration of the decode loop does, does not depend on the fuel. -/
theorem reader.decodeStep_fuel (E : Env CS DS K U) (f1 f2 : Nat) (r : reader DS U) (W : World)
    (a b : LoopStep (Option GoError × reader DS U × World) (reader DS U × World))
    (ha : reader.decodeStep E f1 r W = .ok a) (hb : reader.decodeStep E f2 r W = .ok b) :
    a = b := by
  unfold reader.decodeStep at ha hb
  split at ha
  · simp at ha
  · rename_i tail htail
    rw [htail] at hb
    simp only at ha hb
    split at ha
    · simp at ha
    · rename_i t1 h1
      split at hb
      · simp at hb
      · rename_i t2 h2
        have := TryReadFull_fuel E f1 f2 _ _ _ t1 t2 h1 h2
        subst this
        rw [ha] at hb
        exact Except.ok.inj hb

/-- An iteration of the decode loop made for a destination is the iteration
`decodeStep` without destination, apart from the output cursor. -/
theorem reader.readStep_decodeStep (E : Env CS DS K U) (fuel : Nat) (r : reader DS U)
    (p : Slice) (got : Int) (W : World)
    (s : LoopStep ((Int × Option GoError) × reader DS U × Slice × World)
      (reader DS U × Slice × Int × World))
    (h : reader.readStep E fuel r p got W = .ok s) :
    match s with
    | .ret x => reader.decodeStep E fuel r W = .ok (.ret (x.1.2, x.2.1.core, x.2.2.2))
    | .next x => reader.decodeStep E fuel r W = .ok (.next (x.1.core, x.2.2.2)) := by
  simp only [reader.readStep] at h
  repeat' split at h
  all_goals try (simp at h; done)
  · rename_i x1 tail htail x0 t ht hc1
    simp only [Except.ok.injEq] at h
    subst h
    simp only [reader.decodeStep, reader.core, htail, ht, if_pos hc1]
  · rename_i x1 tail htail x0 t ht hc1 hc2
    simp only [Except.ok.injEq] at h
    subst h
    simp only [reader.decodeStep, reader.core, htail, ht, if_neg hc1, if_pos hc2]
  · rename_i x3 tail htail x2 t ht hc1 hc2 x1 src hsrc hidx hfault x0 err hget
    simp only [Except.ok.injEq] at h
    subst h
    simp only [reader.decodeStep, reader.core, htail, ht, if_neg hc1, if_neg hc2, hsrc,
      if_neg hidx, if_neg hfault, hget]
  · rename_i x7 tail htail x6 t ht hc1 hc2 x5 src hsrc hidx hfault x4 hget x3 cb hcb x2 pt hpt x1
      dh hdh x0 cb2 hres
    simp only [Except.ok.injEq] at h
    subst h
    simp only [reader.decodeStep, reader.core, htail, ht, if_neg hc1, if_neg hc2, hsrc,
      if_neg hidx, if_neg hfault, hget, hcb, hres]

theorem reader.DecodeSteps_trans (E : Env CS DS K U) (r1 : reader DS U) (W1 : World)
    (r2 : reader DS U) (W2 : World) (r3 : reader DS U) (W3 : World)
    (h1 : reader.DecodeSteps E r1 W1 r2 W2) (h2 : reader.DecodeSteps E r2 W2 r3 W3) :
    reader.DecodeSteps E r1 W1 r3 W3 := by
  induction h1 with
  | done r W => exact h2
  | next fuel r W ra Wa rb Wb hs _ ih => exact .next fuel r W ra Wa _ _ hs (ih h2)
  | eof fuel r W ra Wa rb Wb hs _ ih => exact .eof fuel r W ra Wa _ _ hs (ih h2)

/-- An iteration of the decode loop only adds to the trace. -/
theorem reader.decodeStep_trace (E : Env CS DS K U) (fuel : Nat) (r : reader DS U) (W : World)
    (s : LoopStep (Option GoError × reader DS U × World) (reader DS U × World))
    (h : reader.decodeStep E fuel r W = .ok s) :
    ∃ evs, (match s with
      | .ret x => x.2.2.trace
      | .next x => x.2.trace) = W.trace ++ evs := by
  simp only [reader.decodeStep] at h
  split at h
  · simp at h
  · split at h
    · simp at h
    · rename_i t ht
      obtain ⟨calls, hc⟩ := TryReadFull_world E _ _ _ _ _ ht
      repeat' split at h
      all_goals try (simp at h; done)
      all_goals
        simp only [Except.ok.injEq] at h
        subst h
        simp only [hc, World.emit, List.append_assoc]
        exact ⟨_, rfl⟩

theorem reader.DecodeSteps_trace (E : Env CS DS K U) (r1 : reader DS U) (W1 : World)
    (r2 : reader DS U) (W2 : World) (h : reader.DecodeSteps E r1 W1 r2 W2) :
    ∃ evs, W2.trace = W1.trace ++ evs := by
  induction h with
  | done r W => exact ⟨[], by simp⟩
  | next fuel r W ra Wa rb Wb hs _ ih =>
    obtain ⟨e1, h1⟩ := reader.decodeStep_trace E fuel r W _ hs
    obtain ⟨e2, h2⟩ := ih
    simp only at h1
    exact ⟨e1 ++ e2, by rw [h2, h1, List.append_assoc]⟩
  | eof fuel r W ra Wa rb Wb hs _ ih =>
    obtain ⟨e1, h1⟩ := reader.decodeStep_trace E fuel r W _ hs
    obtain ⟨e2, h2⟩ := ih
    simp only at h1
    exact ⟨e1 ++ e2, by rw [h2, h1, List.append_assoc]⟩

/-- Two runs of decode iterations from the same state: one goes on to the
other. -/
theorem reader.DecodeSteps_comparable (E : Env CS DS K U) (r : reader DS U) (W : World)
    (r1 : reader DS U) (W1 : World) (h1 : reader.DecodeSteps E r W r1 W1) :
    ∀ (r2 : reader DS U) (W2 : World), reader.DecodeSteps E r W r2 W2 →
      reader.DecodeSteps E r1 W1 r2 W2 ∨ reader.DecodeSteps E r2 W2 r1 W1 := by
  induction h1 with
  | done r W =>
    intro r2 W2 h2
    exact Or.inl h2
  | next fuel r W ra Wa rb Wb hs hrest ih =>
    intro r2 W2 h2
    cases h2 with
    | done => exact Or.inr (.next fuel r W ra Wa rb Wb hs hrest)
    | next fuel2 _ _ rc Wc _ _ hs2 hrest2 =>
      have := reader.decodeStep_fuel E fuel fuel2 r W _ _ hs hs2
      simp only [LoopStep.next.injEq, Prod.mk.injEq] at this
      obtain ⟨e1, e2⟩ := this
      subst e1 e2
      exact ih r2 W2 hrest2
    | eof fuel2 _ _ rc Wc _ _ hs2 hrest2 =>
      have := reader.decodeStep_fuel E fuel fuel2 r W _ _ hs hs2
      simp at this
  | eof fuel r W ra Wa rb Wb hs hrest ih =>
    intro r2 W2 h2
    cases h2 with
    | done => exact Or.inr (.eof fuel r W ra Wa rb Wb hs hrest)
    | next fuel2 _ _ rc Wc _ _ hs2 hrest2 =>
      have := reader.decodeStep_fuel E fuel fuel2 r W _ _ hs hs2
      simp at this
    | eof fuel2 _ _ rc Wc _ _ hs2 hrest2 =>
      have := reader.decodeStep_fuel E fuel fuel2 r W _ _ hs hs2
      simp only [LoopStep.ret.injEq, Prod.mk.injEq, true_and] at this
      obtain ⟨e1, e2⟩ := this
      subst e1 e2
      exact ih r2 W2 hrest2

/-- The decode loop of reader.Read, when it returns nil or io.EOF, has gone
through decode iterations. -/
theorem reader.readLoop_steps (E : Env CS DS K U) :
    ∀ (fuel : Nat) (r : reader DS U) (p : Slice) (got : Int) (W : World) (n : Int)
      (err : Option GoError) (r2 : reader DS U) (p2 : Slice) (W2 : World),
      reader.readLoop E fuel r p got W = .ok ((n, err), r2, p2, W2) →
      (err = none ∨ err = some .EOF) →
      reader.DecodeSteps E r.core W r2.core W2 := by
  intro fuel
  induction fuel with
  | zero =>
    intro r p got W n err r2 p2 W2 h herr
    unfold reader.readLoop at h
    split at h
    · simp at h
    · simp only [Except.ok.injEq, Prod.mk.injEq] at h
      obtain ⟨_, hr, _, hW⟩ := h
      subst hr hW
      exact .done _ _
  | succ fuel ih =>
    intro r p got W n err r2 p2 W2 h herr
    unfold reader.readLoop at h
    split at h
    · simp only at h
      split at h
      · simp at h
      · rename_i res hs
        simp only [Except.ok.injEq] at h
        subst h
        have hd := reader.readStep_decodeStep E fuel r p got W _ hs
        obtain ⟨he, _⟩ := reader.readStep_ret E fuel r p got W n err r2 p2 W2 hs herr
        subst he
        simp only at hd
        rw [← reader.decodeStep_core] at hd
        exact .eof fuel _ _ _ _ _ _ hd (.done _ _)
      · rename_i r1 p1 got1 W1 hs
        have hd := reader.readStep_decodeStep E fuel r p got W _ hs
        simp only at hd
        rw [← reader.decodeStep_core] at hd
        exact .next fuel _ _ _ _ _ _ hd (ih r1 p1 got1 W1 n err r2 p2 W2 h herr)
    · simp only [Except.ok.injEq, Prod.mk.injEq] at h
      obtain ⟨_, hr, _, hW⟩ := h
      subst hr hW
      exact .done _ _

theorem reader.Read_steps (E : Env CS DS K U) (fuel : Nat) (r : reader DS U) (p : Slice)
    (W : World) (n : Int) (err : Option GoError) (r2 : reader DS U) (p2 : Slice) (W2 : World)
    (h : reader.Read E fuel r p W = .ok ((n, err), r2, p2, W2))
    (herr : err = none ∨ err = some .EOF) :
    reader.DecodeSteps E r.core W r2.core W2 := by
  unfold reader.Read at h
  split at h
  · simp only [Except.ok.injEq, Prod.mk.injEq] at h
    obtain ⟨_, hr, _, hW⟩ := h
    subst hr hW
    exact .done _ _
  · split at h
    · simp only [bind, Except.bind] at h
      split at h
      · simp at h
      · simp only [Except.ok.injEq, Prod.mk.injEq] at h
        obtain ⟨_, hr, _, hW⟩ := h
        subst hr hW
        exact .done _ _
    · simp only [bind, Except.bind] at h
      split at h
      · simp at h
      · exact reader.readLoop_steps E fuel r.core _ _ W n err r2 p2 W2 h herr

theorem reader.run_steps (E : Env CS DS K U) (fuel : Nat) (ps : List Slice) :
    ∀ (r : reader DS U) (W : World) (rs : List ReaderReturn) (r2 : reader DS U) (W2 : World),
      reader.run E fuel (ps.map .Read) r W = .ok (rs, r2, W2) →
      (∀ x ∈ rs, x.err = none ∨ x.err = some .EOF) →
      reader.DecodeSteps E r.core W r2.core W2 := by
  induction ps with
  | nil =>
    intro r W rs r2 W2 h _
    simp only [List.map_nil, reader.run, Except.ok.injEq, Prod.mk.injEq] at h
    obtain ⟨_, hr, hW⟩ := h
    subst hr hW
    exact .done _ _
  | cons p ps ih =>
    intro r W rs r2 W2 h herr
    simp only [List.map_cons, reader.run] at h
    split at h
    · simp at h
    · rename_i res r1 p1 W1 hread
      split at h
      · simp at h
      · rename_i rs1 r3 W3 hrun
        simp only [Except.ok.injEq, Prod.mk.injEq] at h
        obtain ⟨hrs, hr, hW⟩ := h
        subst hrs hr hW
        exact reader.DecodeSteps_trans E _ _ _ _ _ _
          (reader.Read_steps E fuel r p W res.1 res.2 r1 p1 W1 hread
            (herr (.Read res.1 res.2 p1) (List.mem_cons_self _ _)))
          (ih r1 W1 rs1 r3 W3 hrun (fun x hx => herr x (List.mem_cons_of_mem _ hx)))

end Independence

theorem prefix_comparable (a b c : List Byte) (ha : a <+: c) (hb : b <+: c) :
    a <+: b ∨ b <+: a := by
  obtain ⟨ta, hta⟩ := ha
  obtain ⟨tb, htb⟩ := hb
  rcases List.append_eq_append_iff.mp (hta.trans htb.symm) with ⟨x, hx, _⟩ | ⟨x, hx, _⟩
  · exact Or.inl ⟨x, hx.symm⟩
  · exact Or.inr ⟨x, hx.symm⟩

theorem prefix_append_right (a b c : List Byte) (h : a <+: b) : a <+: b ++ c := by
  obtain ⟨t, ht⟩ := h
  exact ⟨t ++ c, by rw [← List.append_assoc, ht]⟩

/-- Two sequences of Read calls from the same reader, with destinations of any
sizes, all returning nil or io.EOF: the bytes one delivers are a prefix of the
bytes the other delivers. -/
theorem reader.run_Read_comparable {CS DS K U : Type} (E : Env CS DS K U) (f1 f2 : Nat)
    (ps qs : List Slice) (r : reader DS U) (W : World)
    (rs1 : List ReaderReturn) (r1 : reader DS U) (W1 : World)
    (rs2 : List ReaderReturn) (r2 : reader DS U) (W2 : World)
    (hopen : r.firstError = none) (hok : r.StagingOK)
    (hps : ∀ p ∈ ps, p.WF) (hqs : ∀ q ∈ qs, q.WF)
    (h1 : reader.run E f1 (ps.map .Read) r W = .ok (rs1, r1, W1))
    (h2 : reader.run E f2 (qs.map .Read) r W = .ok (rs2, r2, W2))
    (he1 : ∀ x ∈ rs1, x.err = none ∨ x.err = some .EOF)
    (he2 : ∀ x ∈ rs2, x.err = none ∨ x.err = some .EOF) :
    (rs1.map ReaderReturn.delivered).flatten <+: (rs2.map ReaderReturn.delivered).flatten ∨
    (rs2.map ReaderReturn.delivered).flatten <+: (rs1.map ReaderReturn.delivered).flatten := by
  obtain ⟨e1, ht1, _, hp1, _⟩ := reader.run_Read_spec E f1 ps r W rs1 r1 W1 hopen hok hps h1 he1
  obtain ⟨e2, ht2, _, hp2, _⟩ := reader.run_Read_spec E f2 qs r W rs2 r2 W2 hopen hok hqs h2 he2
  have s1 := reader.run_steps E f1 ps r W rs1 r1 W1 h1 he1
  have s2 := reader.run_steps E f2 qs r W rs2 r2 W2 h2 he2
  rcases reader.DecodeSteps_comparable E _ _ _ _ s1 _ _ s2 with hc | hc
  · obtain ⟨e, he⟩ := reader.DecodeSteps_trace E _ _ _ _ hc
    rw [ht1, ht2, List.append_assoc] at he
    have hev : e2 = e1 ++ e := List.append_cancel_left he
    rw [hev, decoded_append, ← List.append_assoc] at hp2
    exact prefix_comparable _ _ _ (prefix_append_right _ _ _ hp1) hp2
  · obtain ⟨e, he⟩ := reader.DecodeSteps_trace E _ _ _ _ hc
    rw [ht1, ht2, List.append_assoc] at he
    have hev : e1 = e2 ++ e := List.append_cancel_left he
    rw [hev, decoded_append, ← List.append_assoc] at hp1
    exact prefix_comparable _ _ _ hp1 (prefix_append_right _ _ _ hp2)

/-- C3: for every sequence of Read calls, on destinations of any sizes, made on
an open reader whose output staging is within its bounds, all returning nil or
io.EOF: the bytes delivered by the calls, `p[:n]` of each in order, followed by
the output staging `decompressionBuffer[decompOff:decompSize]` after the last
call, are what was staged before the first call followed by the output of
all the decode steps the calls made, in order (from a new reader: the output
of all the decode steps so far); the calls leave the staging within its bounds
and the reader open. And the bytes delivered do not depend on the sizes of the
destinations: any other such sequence of Read calls from the same reader, on
destinations of other sizes, delivers a prefix or an extension of the same
bytes. -/
theorem reader.Read_delivers_decoded {CS DS K U : Type} (E : Env CS DS K U) (fuel : Nat)
    (ps : List Slice) (r : reader DS U) (W : World) (rs : List ReaderReturn)
    (r2 : reader DS U) (W2 : World)
    (hopen : r.firstError = none) (hok : r.StagingOK) (hps : ∀ p ∈ ps, p.WF)
    (h : reader.run E fuel (ps.map .Read) r W = .ok (rs, r2, W2))
    (herr : ∀ x ∈ rs, x.err = none ∨ x.err = some .EOF) :
    (∃ evs : List Event,
      W2.trace = W.trace ++ evs ∧
      (rs.map ReaderReturn.delivered).flatten ++ r2.staged = r.staged ++ decoded evs ∧
      (rs.map ReaderReturn.delivered).flatten <+: r.staged ++ decoded evs ∧
      rs.length = ps.length ∧ r2.StagingOK ∧ r2.firstError = none) ∧
    (∀ (fuel2 : Nat) (qs : List Slice) (rs3 : List ReaderReturn) (r3 : reader DS U)
      (W3 : World), (∀ q ∈ qs, q.WF) →
      reader.run E fuel2 (qs.map .Read) r W = .ok (rs3, r3, W3) →
      (∀ x ∈ rs3, x.err = none ∨ x.err = some .EOF) →
      (rs.map ReaderReturn.delivered).flatten <+: (rs3.map ReaderReturn.delivered).flatten ∨
      (rs3.map ReaderReturn.delivered).flatten <+: (rs.map ReaderReturn.delivered).flatten) :=
  ⟨reader.run_Read_spec E fuel ps r W rs r2 W2 hopen hok hps h herr,
    fun fuel2 qs rs3 r3 W3 hqs h3 he3 =>
      reader.run_Read_comparable E fuel fuel2 ps qs r W rs r2 W2 rs3 r3 W3 hopen hok hps hqs h h3
        herr he3⟩

/-- C4 (amended): when Read on an open reader returns io.EOF, the count it
returns is the number of bytes the call copied into p: the bytes that were
staged followed by the output of the decode steps of the call; they are
`p[:n]`, their number is below `len(p)`, and nothing stays staged. The count
is 0 exactly when nothing was staged and the decode steps of the call produced
nothing. -/
theorem reader.Read_EOF_count {CS DS K U : Type} (E : Env CS DS K U) (fuel : Nat)
    (r : reader DS U) (p : Slice) (W : World) (n : Int) (r2 : reader DS U) (p2 : Slice)
    (W2 : World) (hopen : r.firstError = none) (hok : r.StagingOK) (hp : p.WF)
    (h : reader.Read E fuel r p W = .ok ((n, some .EOF), r2, p2, W2)) :
    ∃ evs : List Event,
      W2.trace = W.trace ++ evs ∧
      n = ((r.staged.length + (decoded evs).length : Nat) : Int) ∧
      n < (p.len : Int) ∧
      p2.data.take n.toNat = r.staged ++ decoded evs ∧
      r2.staged = [] ∧
      (n = 0 ↔ r.staged = [] ∧ decoded evs = []) := by
  obtain ⟨evs, m, hW, hn, hm, hpl, hpw, heq, hok2, hfe, heof⟩ :=
    reader.Read_spec E fuel r p W n (some .EOF) r2 p2 W2 hopen hok hp h (Or.inr rfl)
  obtain ⟨hlt, hst, _⟩ := heof rfl
  rw [hst, List.append_nil] at heq
  have hpl2 : p2.len ≤ p2.arr.length := hpw
  have hlen : m = r.staged.length + (decoded evs).length := by
    have := congrArg List.length heq
    rw [List.length_take, List.length_append] at this
    omega
  refine ⟨evs, by rw [hW], by rw [hn, hlen], by rw [hn]; exact Int.ofNat_lt.mpr hlt, ?_, hst, ?_⟩
  · have hd := ReaderReturn.delivered_Read n (some .EOF) p2 m hn (by omega)
    simp only [ReaderReturn.delivered] at hd
    rw [hd, heq]
  · rw [hn, hlen]
    constructor
    · intro h0
      have h1 : r.staged.length + (decoded evs).length = 0 := by exact_mod_cast h0
      exact ⟨List.length_eq_zero.mp (by omega), List.length_eq_zero.mp (by omega)⟩
    · rintro ⟨e1, e2⟩
      rw [e1, e2]
      rfl

/-! ## The theorems at concrete streams -/

theorem idEnv_sourceRead_length (chunk dictCode firstCode : Nat) (u : List Byte × GoError)
    (k : Nat) : ((idEnv chunk dictCode firstCode).sourceRead u k).1.1.length ≤ k := by
  simp only [idEnv]
  split
  · simp
  · simp only [List.length_take]
    omega

theorem idEnv_sourceRead_progress (chunk dictCode firstCode : Nat) (u : List Byte × GoError)
    (k : Nat) (hk : 0 < k) :
    0 < ((idEnv chunk dictCode firstCode).sourceRead u k).1.1.length ∨
      ((idEnv chunk dictCode firstCode).sourceRead u k).1.2 ≠ none := by
  simp only [idEnv]
  split
  · right
    simp
  · left
    rename_i hne
    simp only [List.length_take]
    have : 0 < u.1.length := List.length_pos.mpr hne
    omega

/-- C3, at a concrete reader: NewReaderDict over the source 1, 2, 3 and two
Read calls on destinations of two bytes, the second of which returns io.EOF;
compared with a single Read on a destination of four bytes. -/
theorem reader.Read_delivers_decoded_witness :
    NewReaderDict (idEnv 8 0 0) ([1, 2, 3], .EOF) Slice.null World.init =
      .ok (demoReader, demoReaderWorld) ∧
    demoReader.firstError = none ∧ demoReader.StagingOK ∧
    (∀ p ∈ [Slice.ofList [0, 0], Slice.ofList [0, 0]], p.WF) ∧
    reader.run (idEnv 8 0 0) 3 ([Slice.ofList [0, 0], Slice.ofList [0, 0]].map .Read)
        demoReader demoReaderWorld =
      .ok ([.Read 2 none ⟨[1, 2], 2, false⟩, .Read 1 (some .EOF) ⟨[3, 0], 2, false⟩],
        demoReaderDrained, demoReaderDrainedWorld) ∧
    (∀ x ∈ [ReaderReturn.Read 2 none ⟨[1, 2], 2, false⟩,
        ReaderReturn.Read 1 (some .EOF) ⟨[3, 0], 2, false⟩],
      x.err = none ∨ x.err = some .EOF) ∧
    ((∃ evs : List Event,
      demoReaderDrainedWorld.trace = demoReaderWorld.trace ++ evs ∧
      ([ReaderReturn.Read 2 none ⟨[1, 2], 2, false⟩,
          ReaderReturn.Read 1 (some .EOF) ⟨[3, 0], 2, false⟩].map
        ReaderReturn.delivered).flatten ++ demoReaderDrained.staged =
        demoReader.staged ++ decoded evs ∧
      ([ReaderReturn.Read 2 none ⟨[1, 2], 2, false⟩,
          ReaderReturn.Read 1 (some .EOF) ⟨[3, 0], 2, false⟩].map
        ReaderReturn.delivered).flatten <+: demoReader.staged ++ decoded evs ∧
      [ReaderReturn.Read 2 none ⟨[1, 2], 2, false⟩,
          ReaderReturn.Read 1 (some .EOF) ⟨[3, 0], 2, false⟩].length =
        [Slice.ofList [0, 0], Slice.ofList [0, 0]].length ∧
      demoReaderDrained.StagingOK ∧ demoReaderDrained.firstError = none) ∧
    (∀ (fuel2 : Nat) (qs : List Slice) (rs3 : List ReaderReturn)
      (r3 : reader Unit (List Byte × GoError)) (W3 : World), (∀ q ∈ qs, q.WF) →
      reader.run (idEnv 8 0 0) fuel2 (qs.map .Read) demoReader demoReaderWorld =
        .ok (rs3, r3, W3) →
      (∀ x ∈ rs3, x.err = none ∨ x.err = some .EOF) →
      ([ReaderReturn.Read 2 none ⟨[1, 2], 2, false⟩,
          ReaderReturn.Read 1 (some .EOF) ⟨[3, 0], 2, false⟩].map
        ReaderReturn.delivered).flatten <+: (rs3.map ReaderReturn.delivered).flatten ∨
      (rs3.map ReaderReturn.delivered).flatten <+:
        ([ReaderReturn.Read 2 none ⟨[1, 2], 2, false⟩,
          ReaderReturn.Read 1 (some .EOF) ⟨[3, 0], 2, false⟩].map
        ReaderReturn.delivered).flatten)) ∧
    (reader.run (idEnv 8 0 0) 3 ([Slice.ofList [0, 0, 0, 0]].map .Read)
        demoReader demoReaderWorld).map (fun x => x.1) =
      .ok [.Read 3 (some .EOF) ⟨[1, 2, 3, 0], 4, false⟩] :=
  ⟨by decide!, rfl, by decide, by decide, by decide!, by decide,
    reader.Read_delivers_decoded (idEnv 8 0 0) 3 [Slice.ofList [0, 0], Slice.ofList [0, 0]]
      demoReader demoReaderWorld _ demoReaderDrained demoReaderDrainedWorld rfl (by decide)
      (by decide) (by decide!) (by decide),
    by decide!⟩

/-- C4 as stated fails: on the reader made over the source 1, 2, 3, after a
first Read of two bytes the byte 3 is staged; the next Read on a destination of
two bytes copies that byte, finds the source exhausted and returns the count 1
together with io.EOF. -/
theorem reader.Read_EOF_with_positive_count :
    newReaderRun (idEnv 8 0 0) 3 [1, 2, 3] [.Read (Slice.ofList [0, 0])] =
      .ok ([.Read 2 none ⟨[1, 2], 2, false⟩], demoReaderStaged, demoReaderStagedWorld) ∧
    reader.Read (idEnv 8 0 0) 3 demoReaderStaged (Slice.ofList [0, 0]) demoReaderStagedWorld =
      .ok ((1, some .EOF), demoReaderDrained, ⟨[3, 0], 2, false⟩, demoReaderDrainedWorld) := by
  constructor <;> decide!

/-- C4 (amended), at the concrete reader with the byte 3 staged. -/
theorem reader.Read_EOF_count_witness :
    demoReaderStaged.firstError = none ∧ demoReaderStaged.StagingOK ∧
    (Slice.ofList [0, 0]).WF ∧
    reader.Read (idEnv 8 0 0) 3 demoReaderStaged (Slice.ofList [0, 0]) demoReaderStagedWorld =
      .ok ((1, some .EOF), demoReaderDrained, ⟨[3, 0], 2, false⟩, demoReaderDrainedWorld) ∧
    ∃ evs : List Event,
      demoReaderDrainedWorld.trace = demoReaderStagedWorld.trace ++ evs ∧
      (1 : Int) = ((demoReaderStaged.staged.length + (decoded evs).length : Nat) : Int) ∧
      (1 : Int) < ((Slice.ofList [0, 0]).len : Int) ∧
      (⟨[3, 0], 2, false⟩ : Slice).data.take (1 : Int).toNat =
        demoReaderStaged.staged ++ decoded evs ∧
      demoReaderDrained.staged = [] ∧
      ((1 : Int) = 0 ↔ demoReaderStaged.staged = [] ∧ decoded evs = []) :=
  ⟨rfl, by decide, by decide, by decide!,
    reader.Read_EOF_count (idEnv 8 0 0) 3 demoReaderStaged (Slice.ofList [0, 0])
      demoReaderStagedWorld 1 demoReaderDrained ⟨[3, 0], 2, false⟩ demoReaderDrainedWorld rfl
      (by decide) (by decide) (by decide!)⟩

/-- C5 as stated fails: over a source whose call returns (0, errShortRead),
TryReadFull on a buffer of one byte returns errShortRead although no source
call returned io.EOF: the one call it made returned errShortRead. -/
theorem TryReadFull_short_read_without_EOF :
    TryReadFull (idEnv 8 0 0) 1 ([], .errShortRead) (Slice.ofList [0]) World.init =
      .ok ((0, some .errShortRead), ([], .errShortRead), Slice.ofList [0],
        ⟨[], [], [.sourceRead 1 [] (some .errShortRead)]⟩) := by
  decide!

/-- C5 (amended), at a concrete source: the byte 5 and then io.EOF, read into
a buffer of two bytes. -/
theorem TryReadFull_classifies_witness :
    (∀ u k, ((idEnv 8 0 0).sourceRead u k).1.1.length ≤ k) ∧ (Slice.ofList [0, 0]).WF ∧
    ((∀ u k, 0 < k → 0 < ((idEnv 8 0 0).sourceRead u k).1.1.length ∨
        ((idEnv 8 0 0).sourceRead u k).1.2 ≠ none) →
      (Slice.ofList [0, 0]).len ≤ 3 →
      ∃ res, TryReadFull (idEnv 8 0 0) 3 ([5], .EOF) (Slice.ofList [0, 0]) World.init =
        .ok res) ∧
    (∀ n err r2 buf2 W2,
      TryReadFull (idEnv 8 0 0) 3 ([5], .EOF) (Slice.ofList [0, 0]) World.init =
        .ok ((n, err), r2, buf2, W2) →
      ∃ calls : List SourceCall,
        W2 = ⟨World.init.cPool, World.init.dPool,
          World.init.trace ++ calls.map SourceCall.event⟩ ∧
        n = ((SourceCall.delivered calls).length : Int) ∧
        (SourceCall.delivered calls).length ≤ (Slice.ofList [0, 0]).len ∧
        buf2.len = (Slice.ofList [0, 0]).len ∧
        buf2.data.take (SourceCall.delivered calls).length = SourceCall.delivered calls ∧
        buf2.arr.drop (SourceCall.delivered calls).length =
          (Slice.ofList [0, 0]).arr.drop (SourceCall.delivered calls).length ∧
        ((Slice.ofList [0, 0]).len = 0 → calls = [] ∧ n = 0 ∧ err = none) ∧
        (err = none ↔ n = ((Slice.ofList [0, 0]).len : Int) ∧
          (SourceCall.lastErr calls = none ∨ SourceCall.lastErr calls = some .EOF)) ∧
        (err = some .errShortRead ↔
          (SourceCall.lastErr calls = some .EOF ∧ n < ((Slice.ofList [0, 0]).len : Int)) ∨
            SourceCall.lastErr calls = some .errShortRead) ∧
        (∀ e, SourceCall.lastErr calls = some e → e ≠ .EOF → err = some e) ∧
        err ≠ some .EOF) ∧
    TryReadFull (idEnv 8 0 0) 3 ([5], .EOF) (Slice.ofList [0, 0]) World.init =
      .ok ((1, some .errShortRead), ([], .EOF), ⟨[5, 0], 2, false⟩,
        ⟨[], [], [.sourceRead 2 [5] none, .sourceRead 1 [] (some .EOF)]⟩) :=
  ⟨idEnv_sourceRead_length 8 0 0, by decide,
    (TryReadFull_classifies (idEnv 8 0 0) (idEnv_sourceRead_length 8 0 0) 3 ([5], .EOF)
      (Slice.ofList [0, 0]) World.init (by decide)).1,
    (TryReadFull_classifies (idEnv 8 0 0) (idEnv_sourceRead_length 8 0 0) 3 ([5], .EOF)
      (Slice.ofList [0, 0]) World.init (by decide)).2,
    by decide!⟩

/-- C6, at the concrete reader: Close on `demoReader` and then a Read and a
Close. -/
theorem reader.closed_rejects_calls_witness :
    demoReader.firstError = none ∧
    (reader.Close (idEnv 8 0 0) demoReader demoReaderWorld).2.1.compressionBuffer = Slice.null ∧
    (reader.Close (idEnv 8 0 0) demoReader demoReaderWorld).2.1.decompressionBuffer =
      Slice.null ∧
    (reader.Close (idEnv 8 0 0) demoReader demoReaderWorld).2.2.trace =
      demoReaderWorld.trace ++ [.cPoolPut demoReader.compressionBuffer,
        .dPoolPut demoReader.decompressionBuffer, .freeDCtx] ∧
    (reader.Close (idEnv 8 0 0) demoReader demoReaderWorld).2.2.cPool =
      demoReader.compressionBuffer :: demoReaderWorld.cPool ∧
    (reader.Close (idEnv 8 0 0) demoReader demoReaderWorld).2.2.dPool =
      demoReader.decompressionBuffer :: demoReaderWorld.dPool ∧
    reader.run (idEnv 8 0 0) 0 [.Read (Slice.ofList [0]), .Close]
        (reader.Close (idEnv 8 0 0) demoReader demoReaderWorld).2.1
        (reader.Close (idEnv 8 0 0) demoReader demoReaderWorld).2.2 =
      .ok ([.Read (Slice.ofList [0]), .Close].map (ReaderCall.rejected .errReaderClosed),
        (reader.Close (idEnv 8 0 0) demoReader demoReaderWorld).2.1,
        (reader.Close (idEnv 8 0 0) demoReader demoReaderWorld).2.2) :=
  ⟨rfl, reader.closed_rejects_calls (idEnv 8 0 0) 0 demoReader rfl demoReaderWorld
    [.Read (Slice.ofList [0]), .Close]⟩

/-- C8, at a concrete Writer: NewWriterLevelDict over a codec that refuses the
dictionary, then Write of a byte, Write of nothing and Close. -/
theorem Writer.sticky_construction_error_witness :
    NewWriterLevelDict (idEnv 8 (2 ^ 64 - 30) 0) [] 3 (Slice.ofList [7]) World.init =
      .ok (failedDictWriter, failedDictWorld) ∧
    failedDictWriter.firstError = some (.ErrorCode (-30)) ∧
    Writer.run (idEnv 8 (2 ^ 64 - 30) 0) 0
        [.Write (Slice.ofList [1]), .Write (Slice.ofList []), .Close]
        failedDictWriter failedDictWorld =
      .ok ([.Write (Slice.ofList [1]), .Write (Slice.ofList []), .Close].map
        (WriterCall.rejected (.ErrorCode (-30))), failedDictWriter, failedDictWorld) ∧
    (∀ p, Writer.Write (idEnv 8 (2 ^ 64 - 30) 0) failedDictWriter p failedDictWorld =
      .ok ((0, some (.ErrorCode (-30))), failedDictWriter, failedDictWorld)) ∧
    Writer.Close (idEnv 8 (2 ^ 64 - 30) 0) 0 failedDictWriter failedDictWorld =
      .ok (some (.ErrorCode (-30)), failedDictWriter, failedDictWorld) :=
  ⟨by decide!, rfl,
    Writer.sticky_construction_error (idEnv 8 (2 ^ 64 - 30) 0) 0 failedDictWriter
      (.ErrorCode (-30)) rfl failedDictWorld
      [.Write (Slice.ofList [1]), .Write (Slice.ofList []), .Close]⟩

/-- C9 (amended), at a concrete Writer: the first engine step of the session
returns the error status -1. -/
theorem Writer.engine_error_not_recorded_witness :
    NewWriterLevelDict (idEnv 8 0 (2 ^ 64 - 1)) [] 3 Slice.null World.init =
      .ok (demoWriter, demoWriterWorld) ∧
    demoWriter.firstError = none ∧
    Writer.Write (idEnv 8 0 (2 ^ 64 - 1)) demoWriter (Slice.ofList [1, 2]) demoWriterWorld =
      .ok ((0, some (.ErrorCode (-1))), demoWriterFailed, demoWriterFailedWorld) ∧
    (∃ ev, demoWriterFailedWorld.trace = demoWriterWorld.trace ++ [ev]) ∧
    ((0 : Int) = 0 ∧ demoWriterFailed.firstError = none ∧
    (∃ dl src res,
      demoWriterFailedWorld.trace =
        demoWriterWorld.trace ++ [.compressStream2 .e_continue dl src res] ∧
      GoError.ErrorCode (-1) = .ErrorCode (sizeToInt res.code) ∧ sizeToInt res.code < 0) ∧
    (∀ q W3 res3 w3 W4, q.len ≠ 0 →
      Writer.Write (idEnv 8 0 (2 ^ 64 - 1)) demoWriterFailed q W3 = .ok (res3, w3, W4) →
      ∃ dl src r rest, W4.trace = W3.trace ++ .compressStream2 .e_continue dl src r :: rest) ∧
    (∀ fuel W3 res3,
      Writer.Close (idEnv 8 0 (2 ^ 64 - 1)) fuel demoWriterFailed W3 = .ok res3 →
      ∃ dl src r rest,
        res3.2.2.trace = W3.trace ++ .compressStream2 .e_end dl src r :: rest)) ∧
    (Writer.run (idEnv 8 0 (2 ^ 64 - 1)) 1 [.Write (Slice.ofList [3]), .Close]
        demoWriterFailed demoWriterFailedWorld).map (fun x => (x.1, x.2.2.trace)) =
      .ok ([.Write 1 none, .Close none],
        demoWriterFailedWorld.trace ++
          [.compressStream2 .e_continue 1032 [3] ⟨0, 1, [3]⟩, .sinkWrite [3],
           .compressStream2 .e_end 1032 [] ⟨0, 0, []⟩, .sinkWrite [], .freeCStream]) :=
  ⟨by decide!, rfl, by decide!, ⟨_, rfl⟩,
    Writer.engine_error_not_recorded (idEnv 8 0 (2 ^ 64 - 1)) demoWriter (Slice.ofList [1, 2])
      demoWriterWorld 0 (.ErrorCode (-1)) demoWriterFailed demoWriterFailedWorld rfl
      (by decide!) ⟨_, rfl⟩,
    by decide!⟩

/-! ## resize -/

theorem make_natCast (n : Nat) : make (n : Int) = .ok ⟨List.replicate n 0, n, false⟩ := by
  unfold make
  rw [if_pos (Int.natCast_nonneg n)]
  simp

/-- C20: for every byte slice `s` (nil or not; a Go slice: its length is at most
its capacity and the nil slice has length 0), every capacity the run time may
choose when append reallocates, and every `newSize >= 0`: resize returns a
slice, of length exactly `newSize`, whose first `min(len(s), newSize)` bytes
are the first `min(len(s), newSize)` bytes of `s`. -/
theorem resize_keeps_length_and_head (grow : Nat → Nat → Nat) (s : Slice) (newSize : Int)
    (hwf : s.WF) (hnil : s.isNil = true → s.len = 0) (hn : 0 ≤ newSize) :
    ∃ t, resize grow s newSize = .ok t ∧ (t.len : Int) = newSize ∧ t.WF ∧
      t.data.take (min s.len t.len) = s.data.take (min s.len t.len) := by
  obtain ⟨n, rfl⟩ := Int.eq_ofNat_of_zero_le hn
  have hlen : s.len ≤ s.arr.length := hwf
  unfold resize
  split
  · rename_i h
    rw [make_natCast]
    refine ⟨_, rfl, rfl, ?_, ?_⟩
    · simp [Slice.WF]
    · simp [hnil h]
  · split
    · rename_i _ hc
      have hc2 : n ≤ s.cap := Int.ofNat_le.mp hc
      rw [Slice.sliceTo_natCast _ _ hc2]
      refine ⟨_, rfl, rfl, hc2, ?_⟩
      simp only [Slice.data, List.take_take]
      congr 1
      omega
    · rename_i _ hc
      have hc2 : s.arr.length < n := by
        have : ¬ n ≤ s.cap := fun hh => hc (Int.ofNat_le.mpr hh)
        unfold Slice.cap at this
        omega
      have hadd : ((n : Int) - (s.len : Int)).toNat = n - s.len := by omega
      simp only [hadd]
      have hdl : s.data.length = s.len := by
        simp only [Slice.data, List.length_take]; omega
      refine ⟨_, rfl, ?_, ?_, ?_⟩
      · simp only [append, List.length_replicate]
        rw [if_neg (by omega), if_neg (by unfold Slice.cap; omega)]
        simp only
        push_cast
        omega
      · simp only [append, List.length_replicate]
        rw [if_neg (by omega), if_neg (by unfold Slice.cap; omega)]
        simp only [Slice.WF, List.length_append, List.length_replicate, hdl]
        omega
      · simp only [append, List.length_replicate]
        rw [if_neg (by omega), if_neg (by unfold Slice.cap; omega)]
        simp only [Slice.data]
        rw [show s.len + (n - s.len) = n by omega, Nat.min_eq_left (by omega : s.len ≤ n),
          List.take_take, List.take_take, Nat.min_self, List.append_assoc]
        rw [List.take_append_of_le_length (by rw [List.length_take]; omega)]
        rw [List.take_take]
        congr 1
        omega

/-! ## The fast path of Read, and Write -/

section W2
variable {CS DS K U : Type}

/-- C13: Read on an open reader whose output staging is within its bounds and
holds at least `len(p)` bytes (`decompSize - decompOff >= len(p)`) returns
`(len(p), nil)`; `p` holds `decompressionBuffer[decompOff : decompOff+len(p)]`,
the first `len(p)` staged bytes, and the rest of its array is untouched;
`decompOff` has grown by exactly `len(p)` and every other field of the reader
is unchanged; the world is unchanged: no source call and no engine call. -/
theorem reader.Read_fast_path (E : Env CS DS K U) (fuel : Nat) (r : reader DS U) (p : Slice)
    (W : World) (hopen : r.firstError = none) (hok : r.StagingOK) (hp : p.WF)
    (hfast : r.decompSize - r.decompOff ≥ (p.len : Int)) :
    ∃ p2, reader.Read E fuel r p W =
        .ok (((p.len : Int), none), { r with decompOff := r.decompOff + (p.len : Int) }, p2, W) ∧
      p2.len = p.len ∧ p2.isNil = p.isNil ∧
      p2.data = (r.decompressionBuffer.arr.drop r.decompOff.toNat).take p.len ∧
      p2.data = r.staged.take p.len ∧
      p2.arr.drop p.len = p.arr.drop p.len := by
  obtain ⟨hwf, hcap, h0, h1, h2⟩ := hok
  obtain ⟨off, hoff⟩ := Int.eq_ofNat_of_zero_le h0
  obtain ⟨size, hsize⟩ := Int.eq_ofNat_of_zero_le (le_trans h0 h1)
  have hos : off ≤ size := by rw [hoff, hsize] at h1; exact Int.ofNat_le.mp h1
  have hsl : size ≤ r.decompressionBuffer.len := by rw [hsize] at h2; exact Int.ofNat_le.mp h2
  have hla : r.decompressionBuffer.len ≤ r.decompressionBuffer.arr.length := hwf
  have hpl : p.len ≤ p.arr.length := hp
  have hc2 : p.len ≤ size - off := by rw [hoff, hsize] at hfast; omega
  unfold reader.Read
  rw [hopen]
  simp only
  rw [if_pos hfast, hoff, Slice.sliceFrom_natCast _ _ (by omega)]
  simp only [bind, Except.bind, Int.toNat_ofNat]
  have hx : ((r.decompressionBuffer.arr.drop off).take (r.decompressionBuffer.len - off)).take
      (min p.len (r.decompressionBuffer.len - off)) =
      (r.decompressionBuffer.arr.drop off).take p.len := by
    rw [List.take_take]
    congr 1
    omega
  have hxl : ((r.decompressionBuffer.arr.drop off).take p.len).length = p.len := by
    rw [List.length_take, List.length_drop]; omega
  refine ⟨_, rfl, rfl, rfl, ?_, ?_, ?_⟩
  · simp only [copy, Slice.store, Slice.data, hx, hoff, Int.toNat_ofNat]
    exact take_append_of_length _ _ _ hxl
  · simp only [copy, Slice.store, Slice.data, hx, reader.staged, hsize, hoff, Int.toNat_ofNat]
    rw [take_append_of_length _ _ _ hxl, List.drop_take, List.take_take]
    congr 1
    omega
  · simp only [copy, Slice.store, Slice.data, hx, hxl]
    rw [List.drop_append_of_le_length (by rw [hxl]), ← hxl]
    simp

/-- The buffer `Writer.sizedDst` computes. -/
theorem Writer.sizedDst_spec (E : Env CS DS K U) (dstBuffer : Slice) (n : Nat) :
    ∃ dst, Writer.sizedDst E dstBuffer n = .ok dst ∧ E.CompressBound n ≤ dst.len ∧
      dstBuffer.cap ≤ dst.len ∧ dst.len = dst.cap ∧ dstBuffer.cap ≤ dst.cap ∧
      dst.len = max dstBuffer.cap (E.CompressBound n) := by
  unfold Writer.sizedDst
  have h : dstBuffer.slice 0 (dstBuffer.cap : Int) =
      .ok ⟨dstBuffer.arr, dstBuffer.cap, dstBuffer.isNil⟩ := by
    have := Slice.slice_natCast dstBuffer 0 dstBuffer.cap (Nat.zero_le _) (Nat.le_refl _)
    simpa using this
  simp only [h, bind, Except.bind]
  split
  · rename_i hlt
    rw [make_natCast]
    have hlt2 : dstBuffer.arr.length < E.CompressBound n := hlt
    refine ⟨_, rfl, ?_, ?_, ?_, ?_, ?_⟩ <;> simp [Slice.cap] <;> omega
  · rename_i hlt
    simp only [not_lt] at hlt
    refine ⟨_, rfl, hlt, ?_, ?_, ?_, ?_⟩
    · exact Nat.le_refl _
    · rfl
    · exact Nat.le_refl _
    · show dstBuffer.cap = max dstBuffer.cap (E.CompressBound n)
      omega

theorem Slice.sliceTo_ok (s : Slice) (hi : Int) (v : Slice) (h : s.sliceTo hi = .ok v) :
    v = ⟨s.arr, hi.toNat, s.isNil⟩ ∧ 0 ≤ hi ∧ hi ≤ (s.cap : Int) := by
  unfold Slice.sliceTo at h
  split at h
  · rename_i hc
    simp only [Except.ok.injEq] at h
    exact ⟨h.symm, hc.1, hc.2⟩
  · simp at h

theorem Slice.sliceFrom_ok (s : Slice) (lo : Int) (v : Slice) (h : s.sliceFrom lo = .ok v) :
    v = ⟨s.arr.drop lo.toNat, s.len - lo.toNat, s.isNil⟩ ∧ 0 ≤ lo ∧ lo ≤ (s.len : Int) := by
  unfold Slice.sliceFrom at h
  split at h
  · rename_i hc
    simp only [Except.ok.injEq] at h
    exact ⟨h.symm, hc.1, hc.2⟩
  · simp at h

/-- What a Write that returns has done. -/
theorem Writer.Write_ok (E : Env CS DS K U) (w : Writer CS K) (p : Slice) (W : World)
    (res : Int × Option GoError) (w2 : Writer CS K) (W2 : World)
    (hopen : w.firstError = none) (hp : p.len ≠ 0)
    (h : Writer.Write E w p W = .ok (res, w2, W2)) :
    ∃ dst src r, Writer.sizedDst E w.dstBuffer p.len = .ok dst ∧ dst.len ≠ 0 ∧
      src = (if w.srcBuffer.len = 0 then p else append E.growslice w.srcBuffer p.data).data ∧
      r = E.ZSTD_compressStream2 w.ctx dst.len src .e_continue ∧
      r.1.out.length ≤ dst.len ∧ w2.dstBuffer = dst.store r.1.out ∧
      w2.resultBuffer = ⟨r.1.code, r.1.consumed, r.1.out.length⟩ ∧
      (w.srcBuffer.len = 0 → w2.srcBuffer = w.srcBuffer) ∧
      ((∃ err, getError (sizeToInt r.1.code) = some err ∧ res = (0, some err) ∧
          W2.trace = W.trace ++ [.compressStream2 .e_continue dst.len src r.1]) ∨
       (getError (sizeToInt r.1.code) = none ∧
        ∃ view, (dst.store r.1.out).sliceTo (sizeToInt r.1.out.length) = .ok view ∧
          W2.trace = W.trace ++
            [.compressStream2 .e_continue dst.len src r.1, .sinkWrite view.data] ∧
          w2.underlyingWriter = (E.sinkWrite w.underlyingWriter view.data).2 ∧
          (∀ e, (E.sinkWrite w.underlyingWriter view.data).1.2 = some e → res = (0, some e)) ∧
          ((E.sinkWrite w.underlyingWriter view.data).1.2 = none →
            res = ((p.len : Int), none)))) := by
  cases hdst : Writer.sizedDst E w.dstBuffer p.len with
  | error f => simp [Writer.Write, hopen, hp, hdst] at h
  | ok dst =>
    by_cases hfast : w.srcBuffer.len = 0
    · refine ⟨dst, p.data, E.ZSTD_compressStream2 w.ctx dst.len p.data .e_continue, rfl, ?_,
        by simp [hfast], rfl, ?_⟩
      all_goals
        simp only [Writer.Write, hopen, if_neg hp, hdst, hfast, beq_self_eq_true, if_true] at h
      all_goals generalize E.ZSTD_compressStream2 w.ctx dst.len p.data .e_continue = r at h ⊢
      · intro h0
        simp [h0] at h
      · by_cases h0 : dst.len = 0
        · simp [h0] at h
        · rw [if_neg h0] at h
          by_cases hf : dst.len < r.1.out.length
          · simp [hf] at h
          · rw [if_neg hf] at h
            refine ⟨Nat.le_of_not_lt hf, ?_⟩
            cases hg : getError (sizeToInt r.1.code) with
            | some err =>
              simp only [hg, Except.ok.injEq, Prod.mk.injEq] at h
              obtain ⟨hr, hw, hW⟩ := h
              subst hr hw hW
              exact ⟨rfl, rfl, fun _ => rfl, Or.inl ⟨err, rfl, rfl, rfl⟩⟩
            | none =>
              simp only [hg] at h
              cases hv : (dst.store r.1.out).sliceTo (sizeToInt r.1.out.length) with
              | error f => simp [hv] at h
              | ok view =>
                simp only [hv] at h
                cases hs : (E.sinkWrite w.underlyingWriter view.data).1.2 with
                | some e =>
                  simp only [hs, Except.ok.injEq, Prod.mk.injEq] at h
                  obtain ⟨hr, hw, hW⟩ := h
                  subst hr hw hW
                  refine ⟨rfl, rfl, fun _ => rfl, Or.inr ⟨rfl, view, rfl, ?_, rfl, ?_, ?_⟩⟩
                  · simp [World.emit]
                  · intro e2 he2
                    rw [hs] at he2
                    simp only [Option.some.injEq] at he2
                    rw [he2]
                  · intro hn
                    rw [hs] at hn
                    simp at hn
                | none =>
                  simp only [hs, Except.ok.injEq, Prod.mk.injEq] at h
                  obtain ⟨hr, hw, hW⟩ := h
                  subst hr hw hW
                  refine ⟨rfl, rfl, fun _ => rfl, Or.inr ⟨rfl, view, rfl, ?_, rfl, ?_, ?_⟩⟩
                  · simp [World.emit]
                  · intro e2 he2
                    rw [hs] at he2
                    simp at he2
                  · intro _
                    rfl
    · have hb : (w.srcBuffer.len == 0) = false := by simpa using hfast
      refine ⟨dst, (append E.growslice w.srcBuffer p.data).data,
        E.ZSTD_compressStream2 w.ctx dst.len (append E.growslice w.srcBuffer p.data).data
          .e_continue, rfl, ?_, by simp [hfast], rfl, ?_⟩
      all_goals
        simp only [Writer.Write, hopen, if_neg hp, hdst, hb, Bool.false_eq_true, if_false] at h
      all_goals
        generalize E.ZSTD_compressStream2 w.ctx dst.len
          (append E.growslice w.srcBuffer p.data).data .e_continue = r at h ⊢
      · intro h0
        simp [h0] at h
      · by_cases h0 : dst.len = 0
        · simp [h0] at h
        · rw [if_neg h0] at h
          by_cases hf : dst.len < r.1.out.length
          · simp [hf] at h
          · rw [if_neg hf] at h
            refine ⟨Nat.le_of_not_lt hf, ?_⟩
            cases hg : getError (sizeToInt r.1.code) with
            | some err =>
              simp only [hg, Except.ok.injEq, Prod.mk.injEq] at h
              obtain ⟨hr, hw, hW⟩ := h
              subst hr hw hW
              exact ⟨rfl, rfl, fun hh => absurd hh hfast, Or.inl ⟨err, rfl, rfl, rfl⟩⟩
            | none =>
              simp only [hg] at h
              cases hsf : (append E.growslice w.srcBuffer p.data).sliceFrom
                  (sizeToInt r.1.consumed) with
              | error f => simp [hsf] at h
              | ok sb =>
                simp only [hsf] at h
                cases hv : (dst.store r.1.out).sliceTo (sizeToInt r.1.out.length) with
                | error f => simp [hv] at h
                | ok view =>
                  simp only [hv] at h
                  cases hs : (E.sinkWrite w.underlyingWriter view.data).1.2 with
                  | some e =>
                    simp only [hs, Except.ok.injEq, Prod.mk.injEq] at h
                    obtain ⟨hr, hw, hW⟩ := h
                    subst hr hw hW
                    refine ⟨rfl, rfl, fun hh => absurd hh hfast,
                      Or.inr ⟨rfl, view, rfl, ?_, rfl, ?_, ?_⟩⟩
                    · simp [World.emit]
                    · intro e2 he2
                      rw [hs] at he2
                      simp only [Option.some.injEq] at he2
                      rw [he2]
                    · intro hn
                      rw [hs] at hn
                      simp at hn
                  | none =>
                    simp only [hs, Except.ok.injEq, Prod.mk.injEq] at h
                    obtain ⟨hr, hw, hW⟩ := h
                    subst hr hw hW
                    refine ⟨rfl, rfl, fun hh => absurd hh hfast,
                      Or.inr ⟨rfl, view, rfl, ?_, rfl, ?_, ?_⟩⟩
                    · simp [World.emit]
                    · intro e2 he2
                      rw [hs] at he2
                      simp at he2
                    · intro _
                      rfl

/-- A Write on an open Writer returns when the engine step reports counts
within the buffers it was given and the sizes are those of Go slices. -/
theorem Writer.Write_returns (E : Env CS DS K U) (w : Writer CS K) (p : Slice) (W : World)
    (hopen : w.firstError = none) (hp : p.len ≠ 0)
    (hpos : 0 < E.CompressBound p.len ∨ 0 < w.dstBuffer.cap)
    (hcap : w.dstBuffer.cap < 2 ^ 63) (hbound : E.CompressBound p.len < 2 ^ 63)
    (hsrc : w.srcBuffer.len + p.len < 2 ^ 63)
    (hengine : ∀ c dl src m, (E.ZSTD_compressStream2 c dl src m).1.out.length ≤ dl ∧
      (E.ZSTD_compressStream2 c dl src m).1.consumed ≤ src.length) :
    ∃ res, Writer.Write E w p W = .ok res := by
  obtain ⟨dst, hdst, h1, h2, h3, h4, h5⟩ := Writer.sizedDst_spec E w.dstBuffer p.len
  have hd0 : dst.len ≠ 0 := by omega
  have hdlt : dst.len < 2 ^ 63 := by omega
  have hview : ∀ out : List Byte, out.length ≤ dst.len →
      ∃ view, (dst.store out).sliceTo (sizeToInt out.length) = .ok view := by
    intro out ho
    rw [sizeToInt_of_lt _ (by omega), Slice.sliceTo_natCast _ _ (by
      rw [Slice.cap_store _ _ (by omega)]; omega)]
    exact ⟨_, rfl⟩
  by_cases hfast : w.srcBuffer.len = 0
  · simp only [Writer.Write, hopen, if_neg hp, hdst, hfast, beq_self_eq_true, if_true, if_neg hd0]
    have he := hengine w.ctx dst.len p.data .e_continue
    generalize E.ZSTD_compressStream2 w.ctx dst.len p.data .e_continue = r at he ⊢
    rw [if_neg (by omega)]
    obtain ⟨view, hv⟩ := hview r.1.out he.1
    cases hg : getError (sizeToInt r.1.code) with
    | some err => exact ⟨_, rfl⟩
    | none =>
      simp only [hv]
      cases hs : (E.sinkWrite w.underlyingWriter view.data).1.2 <;> exact ⟨_, rfl⟩
  · have hb : (w.srcBuffer.len == 0) = false := by simpa using hfast
    simp only [Writer.Write, hopen, if_neg hp, hdst, hb, Bool.false_eq_true, if_false, if_neg hd0]
    have he := hengine w.ctx dst.len (append E.growslice w.srcBuffer p.data).data .e_continue
    generalize E.ZSTD_compressStream2 w.ctx dst.len
      (append E.growslice w.srcBuffer p.data).data .e_continue = r at he ⊢
    rw [if_neg (by omega)]
    obtain ⟨view, hv⟩ := hview r.1.out he.1
    have hal : (append E.growslice w.srcBuffer p.data).len ≤ w.srcBuffer.len + p.len := by
      have hpd : p.data.length ≤ p.len := by
        simp only [Slice.data, List.length_take]; omega
      unfold append
      split
      · omega
      · split
        · show w.srcBuffer.len + p.data.length ≤ _
          omega
        · show w.srcBuffer.len + p.data.length ≤ _
          omega
    have hdl : (append E.growslice w.srcBuffer p.data).data.length ≤
        (append E.growslice w.srcBuffer p.data).len := by
      simp only [Slice.data, List.length_take]; omega
    have hsf : ∃ sb, (append E.growslice w.srcBuffer p.data).sliceFrom
        (sizeToInt r.1.consumed) = .ok sb := by
      rw [sizeToInt_of_lt _ (by omega), Slice.sliceFrom_natCast _ _ (by omega)]
      exact ⟨_, rfl⟩
    obtain ⟨sb, hsb⟩ := hsf
    cases hg : getError (sizeToInt r.1.code) with
    | some err => exact ⟨_, rfl⟩
    | none =>
      simp only [hsb, hv]
      cases hs : (E.sinkWrite w.underlyingWriter view.data).1.2 <;> exact ⟨_, rfl⟩

theorem Writer.closeStep_srcBuffer (E : Env CS DS K U) (srcArr : List Byte) (w : Writer CS K)
    (W : World) (s : LoopStep (Option GoError × Writer CS K × World) (Writer CS K × World))
    (h : Writer.closeStep E srcArr w W = .ok s) (h0 : w.srcBuffer.len = 0) :
    (match s with
      | .ret x => x.2.1.srcBuffer.len
      | .next x => x.1.srcBuffer.len) = 0 := by
  simp only [Writer.closeStep] at h
  repeat' split at h
  all_goals try (simp at h; done)
  all_goals
    simp only [Except.ok.injEq] at h
    subst h
    simp only
  · exact h0
  · rename_i sb hsb _ _ _ _ _ _
    obtain ⟨hv, _, _⟩ := Slice.sliceFrom_ok _ _ _ hsb
    rw [hv]
    simp only
    omega

theorem Writer.closeLoop_srcBuffer (E : Env CS DS K U) (srcArr : List Byte) :
    ∀ (fuel : Nat) (w : Writer CS K) (W : World) (res : Option GoError × Writer CS K × World),
      Writer.closeLoop E srcArr fuel w W = .ok res → w.srcBuffer.len = 0 →
      res.2.1.srcBuffer.len = 0 := by
  intro fuel
  induction fuel with
  | zero =>
    intro w W res h h0
    unfold Writer.closeLoop at h
    split at h
    · simp at h
    · simp only [Except.ok.injEq] at h
      subst h
      exact h0
  | succ fuel ih =>
    intro w W res h h0
    unfold Writer.closeLoop at h
    split at h
    · simp only at h
      split at h
      · simp at h
      · rename_i x hs
        simp only [Except.ok.injEq] at h
        subst h
        exact Writer.closeStep_srcBuffer E srcArr w W _ hs h0
      · rename_i w1 W1 hs
        exact ih w1 W1 res h (Writer.closeStep_srcBuffer E srcArr w W _ hs h0)
    · simp only [Except.ok.injEq] at h
      subst h
      exact h0

theorem Writer.Close_srcBuffer (E : Env CS DS K U) (fuel : Nat) (w : Writer CS K) (W : World)
    (res : Option GoError × Writer CS K × World)
    (h : Writer.Close E fuel w W = .ok res) (h0 : w.srcBuffer.len = 0) :
    res.2.1.srcBuffer.len = 0 := by
  unfold Writer.Close at h
  split at h
  · simp only [Except.ok.injEq] at h
    subst h
    exact h0
  · exact Writer.closeLoop_srcBuffer E _ fuel _ W res h h0

theorem Writer.Write_srcBuffer (E : Env CS DS K U) (w : Writer CS K) (p : Slice) (W : World)
    (res : Int × Option GoError) (w2 : Writer CS K) (W2 : World)
    (h : Writer.Write E w p W = .ok (res, w2, W2)) (h0 : w.srcBuffer.len = 0) :
    w2.srcBuffer.len = 0 := by
  cases hopen : w.firstError with
  | some e =>
    rw [Writer.Write_of_firstError E w e hopen] at h
    simp only [Except.ok.injEq, Prod.mk.injEq] at h
    rw [← h.2.1]
    exact h0
  | none =>
    by_cases hp : p.len = 0
    · simp only [Writer.Write, hopen, hp, if_true, Except.ok.injEq, Prod.mk.injEq] at h
      rw [← h.2.1]
      exact h0
    · obtain ⟨dst, src, r, _, _, _, _, _, _, _, hsb, _⟩ :=
        Writer.Write_ok E w p W res w2 W2 hopen hp h
      rw [hsb h0]
      exact h0

theorem Writer.run_srcBuffer (E : Env CS DS K U) (fuel : Nat) (calls : List WriterCall) :
    ∀ (w : Writer CS K) (W : World) (rs : List WriterReturn) (w2 : Writer CS K) (W2 : World),
      Writer.run E fuel calls w W = .ok (rs, w2, W2) → w.srcBuffer.len = 0 →
      w2.srcBuffer.len = 0 := by
  induction calls with
  | nil =>
    intro w W rs w2 W2 h h0
    simp only [Writer.run, Except.ok.injEq, Prod.mk.injEq] at h
    rw [← h.2.1]
    exact h0
  | cons c cs ih =>
    intro w W rs w2 W2 h h0
    cases c with
    | Write p =>
      simp only [Writer.run] at h
      split at h
      · simp at h
      · rename_i res w1 W1 hw
        split at h
        · simp at h
        · rename_i rs1 w3 W3 hrun
          simp only [Except.ok.injEq, Prod.mk.injEq] at h
          rw [← h.2.1]
          exact ih w1 W1 rs1 w3 W3 hrun (Writer.Write_srcBuffer E w p W res w1 W1 hw h0)
    | Close =>
      simp only [Writer.run] at h
      split at h
      · simp at h
      · rename_i err w1 W1 hc
        split at h
        · simp at h
        · rename_i rs1 w3 W3 hrun
          simp only [Except.ok.injEq, Prod.mk.injEq] at h
          rw [← h.2.1]
          exact ih w1 W1 rs1 w3 W3 hrun (Writer.Close_srcBuffer E fuel w W _ hc h0)

theorem NewWriterLevelDict_srcBuffer (E : Env CS DS K U) (k : K) (level : Int) (dict : Slice)
    (W : World) (w : Writer CS K) (W2 : World)
    (h : NewWriterLevelDict E k level dict W = .ok (w, W2)) : w.srcBuffer = Slice.null := by
  unfold NewWriterLevelDict at h
  simp only [bind, Except.bind, pure, Except.pure] at h
  repeat' split at h
  all_goals try (simp at h; done)
  all_goals
    simp only [Except.ok.injEq, Prod.mk.injEq] at h
    rw [← h.1]

end W2

/-- C19: in every state reached from NewWriterLevelDict through any sequence of
Write and Close calls, whatever the engine reports, `len(srcBuffer) = 0`; so a
Write of a `p` that is not empty on such a Writer takes the fast path: the
input view of its engine step is the caller's `p`, nothing is appended to
srcBuffer and srcBuffer is still empty after it. -/
theorem Writer.srcBuffer_never_populated {CS DS K U : Type} (E : Env CS DS K U) (k : K)
    (level : Int) (dict : Slice) (W0 : World) (fuel : Nat) (calls : List WriterCall)
    (w : Writer CS K) (W : World) (rs : List WriterReturn) (w2 : Writer CS K) (W2 : World)
    (hnew : NewWriterLevelDict E k level dict W0 = .ok (w, W))
    (hrun : Writer.run E fuel calls w W = .ok (rs, w2, W2)) :
    w2.srcBuffer.len = 0 ∧
    (∀ p W3 res w3 W4, w2.firstError = none → p.len ≠ 0 →
      Writer.Write E w2 p W3 = .ok (res, w3, W4) →
      w3.srcBuffer.len = 0 ∧
      ∃ dl r rest, W4.trace = W3.trace ++ .compressStream2 .e_continue dl p.data r :: rest) := by
  have h0 : w.srcBuffer.len = 0 := by
    rw [NewWriterLevelDict_srcBuffer E k level dict W0 w W hnew]
    rfl
  have h2 := Writer.run_srcBuffer E fuel calls w W rs w2 W2 hrun h0
  refine ⟨h2, ?_⟩
  intro p W3 res w3 W4 hopen hp hw
  refine ⟨Writer.Write_srcBuffer E w2 p W3 res w3 W4 hw h2, ?_⟩
  obtain ⟨dst, src, r, _, _, hsrc, _, _, _, _, _, hcase⟩ :=
    Writer.Write_ok E w2 p W3 res w3 W4 hopen hp hw
  rw [if_pos h2] at hsrc
  subst hsrc
  rcases hcase with ⟨err, _, _, ht⟩ | ⟨_, view, _, ht, _⟩
  · exact ⟨_, _, [], ht⟩
  · exact ⟨_, _, _, ht⟩

/-- C18: for a Writer without sticky error and a `p` that is not empty, the
first statements of Write compute a dstBuffer of length at least
`CompressBound(len(p))` and at least the capacity dstBuffer had before the
call; whenever Write returns, its engine step was handed a destination of that
length, dstBuffer has that length afterwards and its capacity has not shrunk.
And Write does return when the engine step reports counts within the buffers
it was given and the sizes are those of Go slices. -/
theorem Writer.Write_sizes_dstBuffer {CS DS K U : Type} (E : Env CS DS K U) (w : Writer CS K)
    (p : Slice) (W : World) (hopen : w.firstError = none) (hp : p.len ≠ 0) :
    ∃ dst, Writer.sizedDst E w.dstBuffer p.len = .ok dst ∧
      E.CompressBound p.len ≤ dst.len ∧ w.dstBuffer.cap ≤ dst.len ∧
      (∀ res w2 W2, Writer.Write E w p W = .ok (res, w2, W2) →
        w2.dstBuffer.len = dst.len ∧ w.dstBuffer.cap ≤ w2.dstBuffer.cap ∧
        ∃ src r rest, W2.trace = W.trace ++ .compressStream2 .e_continue dst.len src r :: rest) ∧
      ((0 < E.CompressBound p.len ∨ 0 < w.dstBuffer.cap) → w.dstBuffer.cap < 2 ^ 63 →
        E.CompressBound p.len < 2 ^ 63 → w.srcBuffer.len + p.len < 2 ^ 63 →
        (∀ c dl src m, (E.ZSTD_compressStream2 c dl src m).1.out.length ≤ dl ∧
          (E.ZSTD_compressStream2 c dl src m).1.consumed ≤ src.length) →
        ∃ res, Writer.Write E w p W = .ok res) := by
  obtain ⟨dst, hdst, h1, h2, h3, h4, h5⟩ := Writer.sizedDst_spec E w.dstBuffer p.len
  refine ⟨dst, hdst, h1, h2, ?_, ?_⟩
  · intro res w2 W2 hw
    obtain ⟨dst2, src, r, hdst2, _, _, _, hout, hdb, _, _, hcase⟩ :=
      Writer.Write_ok E w p W res w2 W2 hopen hp hw
    rw [hdst] at hdst2
    simp only [Except.ok.injEq] at hdst2
    subst hdst2
    refine ⟨by rw [hdb]; rfl, ?_, ?_⟩
    · rw [hdb, Slice.cap_store _ _ (by omega)]
      exact h4
    · rcases hcase with ⟨err, _, _, ht⟩ | ⟨_, view, _, ht, _⟩
      · exact ⟨_, _, [], ht⟩
      · exact ⟨_, _, _, ht⟩
  · intro hpos hcap hbound hsrc hengine
    exact Writer.Write_returns E w p W hopen hp hpos hcap hbound hsrc hengine

/-- C12: Write on a Writer without sticky error, whose buffer sizes are those of
Go slices. For an empty `p` it returns `(0, nil)` at once. For a `p` that is
not empty, whenever it returns it has first run one continue step; when the
status of that step is not an error it has then made exactly one sink Write,
of the first `bytes_written` bytes of dstBuffer, which are the bytes the step
produced, and it returns `(len(p), nil)` when the sink returns no error and
`(0, e)` when the sink returns the error `e`. And it does return when the
engine step reports counts within the buffers it was given. -/
theorem Writer.Write_accepts_whole_input {CS DS K U : Type} (E : Env CS DS K U)
    (w : Writer CS K) (p : Slice) (W : World) (hopen : w.firstError = none)
    (hcap : w.dstBuffer.cap < 2 ^ 63) (hbound : E.CompressBound p.len < 2 ^ 63) :
    (p.len = 0 → Writer.Write E w p W = .ok ((0, none), w, W)) ∧
    (p.len ≠ 0 → ∀ res w2 W2, Writer.Write E w p W = .ok (res, w2, W2) →
      ∃ dl src r rest,
        W2.trace = W.trace ++ .compressStream2 .e_continue dl src r :: rest ∧
        r = (E.ZSTD_compressStream2 w.ctx dl src .e_continue).1 ∧
        (getError (sizeToInt r.code) = none →
          rest = [.sinkWrite (w2.dstBuffer.arr.take w2.resultBuffer.bytes_written)] ∧
          w2.resultBuffer.bytes_written = r.out.length ∧
          w2.dstBuffer.arr.take w2.resultBuffer.bytes_written = r.out ∧
          w2.underlyingWriter = (E.sinkWrite w.underlyingWriter r.out).2 ∧
          ((E.sinkWrite w.underlyingWriter r.out).1.2 = none → res = ((p.len : Int), none)) ∧
          (∀ e, (E.sinkWrite w.underlyingWriter r.out).1.2 = some e → res = (0, some e)))) ∧
    (p.len ≠ 0 → (0 < E.CompressBound p.len ∨ 0 < w.dstBuffer.cap) →
      w.srcBuffer.len + p.len < 2 ^ 63 →
      (∀ c dl src m, (E.ZSTD_compressStream2 c dl src m).1.out.length ≤ dl ∧
        (E.ZSTD_compressStream2 c dl src m).1.consumed ≤ src.length) →
      ∃ res, Writer.Write E w p W = .ok res) := by
  refine ⟨?_, ?_, ?_⟩
  · intro hp
    simp only [Writer.Write, hopen, hp, if_true]
  · intro hp res w2 W2 hw
    obtain ⟨dst, src, r, hdst, _, _, hr, hout, hdb, hrb, _, hcase⟩ :=
      Writer.Write_ok E w p W res w2 W2 hopen hp hw
    obtain ⟨dst2, hdst2, _, _, h3, _, h5⟩ := Writer.sizedDst_spec E w.dstBuffer p.len
    rw [hdst] at hdst2
    simp only [Except.ok.injEq] at hdst2
    subst hdst2
    have hdlt : dst.len < 2 ^ 63 := by omega
    have htake : (dst.store r.1.out).arr.take r.1.out.length = r.1.out := by
      simp [Slice.store]
    rcases hcase with ⟨err, hg, _, ht⟩ | ⟨hg, view, hv, ht, hk, hse, hsn⟩
    · refine ⟨dst.len, src, r.1, [], ht, by rw [hr], ?_⟩
      intro hn
      rw [hg] at hn
      simp at hn
    · obtain ⟨hvv, _, _⟩ := Slice.sliceTo_ok _ _ _ hv
      rw [sizeToInt_of_lt _ (by omega), Int.toNat_ofNat] at hvv
      have hvd : view.data = r.1.out := by
        rw [hvv]
        simp only [Slice.data]
        exact htake
      rw [hvd] at ht hk hse hsn
      refine ⟨dst.len, src, r.1, _, ht, by rw [hr], ?_⟩
      intro _
      rw [hdb, hrb]
      exact ⟨by rw [htake], rfl, htake, hk, hsn, hse⟩
  · intro hp hpos hsrc hengine
    exact Writer.Write_returns E w p W hopen hp hpos hcap hbound hsrc hengine

/-! ## The bounds of the state of a reader and its carry-over -/

section Bounds

variable {CS DS K U : Type}

/-- The loop of TryReadFull does not panic: it returns or runs out of fuel. -/
theorem TryReadFull.loop_error (E : Env CS DS K U)
    (hcount : ∀ u k, (E.sourceRead u k).1.1.length ≤ k) :
    ∀ (fuel : Nat) (r : U) (buf : Slice) (m : Nat) (err : Option GoError) (W : World) (f : Fail),
      m ≤ buf.len → TryReadFull.loop E fuel r buf (m : Int) err W = .error f →
      f = .outOfFuel := by
  intro fuel
  induction fuel with
  | zero =>
    intro r buf m err W f hm h
    unfold TryReadFull.loop at h
    split at h
    · simp only [Except.error.injEq] at h
      exact h.symm
    · simp at h
  | succ fuel ih =>
    intro r buf m err W f hm h
    unfold TryReadFull.loop at h
    split at h
    · rename_i hc
      have hmlt : m < buf.len := Int.ofNat_lt.mp hc.1
      simp only [bind, Except.bind, Slice.sliceFrom_natCast _ _ hm, Int.toNat_ofNat] at h
      have hlen : (E.sourceRead r (buf.len - m)).1.1.length ≤ buf.len - m := hcount _ _
      rw [← Nat.cast_add] at h
      exact ih _ _ _ _ _ f (by simp only [Slice.setFrom]; omega) h
    · simp at h

theorem TryReadFull_error (E : Env CS DS K U)
    (hcount : ∀ u k, (E.sourceRead u k).1.1.length ≤ k)
    (fuel : Nat) (r : U) (buf : Slice) (W : World) (f : Fail)
    (h : TryReadFull E fuel r buf W = .error f) : f = .outOfFuel := by
  unfold TryReadFull at h
  simp only [bind, Except.bind, pure, Except.pure] at h
  split at h
  · rename_i f2 hl
    simp only [Except.error.injEq] at h
    subst h
    exact TryReadFull.loop_error E hcount fuel r buf 0 none W _ (Nat.zero_le _) (by simpa using hl)
  · repeat' split at h
    all_goals simp at h

/-- What TryReadFull has done when it returns, over a source whose calls
deliver no more bytes than the slice they are given. -/
theorem TryReadFull_spec (E : Env CS DS K U)
    (hcount : ∀ u k, (E.sourceRead u k).1.1.length ≤ k)
    (fuel : Nat) (r : U) (buf : Slice) (W : World) (n : Int) (err : Option GoError) (r2 : U)
    (buf2 : Slice) (W2 : World) (hwf : buf.WF)
    (h : TryReadFull E fuel r buf W = .ok ((n, err), r2, buf2, W2)) :
    ∃ calls : List SourceCall,
      W2 = ⟨W.cPool, W.dPool, W.trace ++ calls.map SourceCall.event⟩ ∧
      n = ((SourceCall.delivered calls).length : Int) ∧
      (SourceCall.delivered calls).length ≤ buf.len ∧
      buf2.len = buf.len ∧ buf2.isNil = buf.isNil ∧
      buf2.arr = SourceCall.delivered calls ++ buf.arr.drop (SourceCall.delivered calls).length := by
  unfold TryReadFull at h
  cases ht : TryReadFull.loop E fuel r buf 0 none W with
  | error e => simp [ht, bind, Except.bind] at h
  | ok t =>
    have ht2 : TryReadFull.loop E fuel r buf ((0 : Nat) : Int) none W = .ok t := by
      simpa using ht
    obtain ⟨calls, h1, h2, h3, h4, h5, h6, _⟩ :=
      TryReadFull.loop_spec E hcount fuel r buf 0 none W t hwf (Nat.zero_le _) ht2
    simp only [Nat.zero_add, List.take_zero, List.nil_append] at h2 h3 h6
    obtain ⟨⟨tn, terr⟩, tr, tbuf, tW⟩ := t
    simp only at h1 h2 h3 h4 h5 h6
    simp only [ht, bind, Except.bind, pure, Except.pure] at h
    refine ⟨calls, ?_⟩
    repeat' split at h
    all_goals
      simp only [Except.ok.injEq, Prod.mk.injEq] at h
      obtain ⟨⟨hn, _⟩, _, hb, hW⟩ := h
      subst hn hb hW
      exact ⟨h1, h2, h3, h4, h5, h6⟩

theorem reader.nextSize_spec (retCode rec cl : Int) (hrec : 0 < rec) :
    0 < reader.nextSize retCode rec cl ∧ cl ≤ reader.nextSize retCode rec cl ∧
    (retCode < 2 ^ 63 → rec < 2 ^ 63 → cl < 2 ^ 63 → reader.nextSize retCode rec cl < 2 ^ 63) := by
  unfold reader.nextSize
  simp only
  split <;> split <;> omega

/-- What resize returns, for a slice that is not nil. -/
theorem resize_shape (grow : Nat → Nat → Nat) (s : Slice) (n : Nat) (hwf : s.WF)
    (hnil : s.isNil = false) :
    ∃ t, resize grow s (n : Int) = .ok t ∧ t.len = n ∧ t.WF ∧ t.isNil = false ∧ s.cap ≤ t.cap ∧
      t.arr.take (min s.len n) = s.arr.take (min s.len n) := by
  have hlen : s.len ≤ s.arr.length := hwf
  unfold resize
  rw [hnil]
  simp only [Bool.false_eq_true, if_false]
  split
  · rename_i hc
    have hc2 : n ≤ s.cap := Int.ofNat_le.mp hc
    rw [Slice.sliceTo_natCast _ _ hc2]
    exact ⟨_, rfl, rfl, hc2, hnil, Nat.le_refl _, rfl⟩
  · rename_i hc
    have hc2 : s.arr.length < n := by
      have : ¬ n ≤ s.cap := fun hh => hc (Int.ofNat_le.mpr hh)
      unfold Slice.cap at this
      omega
    have hadd : ((n : Int) - (s.len : Int)).toNat = n - s.len := by omega
    have hdl : s.data.length = s.len := by
      simp only [Slice.data, List.length_take]; omega
    simp only [hadd, append, List.length_replicate]
    rw [if_neg (by omega), if_neg (by unfold Slice.cap; omega)]
    refine ⟨_, rfl, by show s.len + (n - s.len) = n; omega, ?_, rfl, ?_, ?_⟩
    · simp only [Slice.WF, List.length_append, List.length_replicate, hdl]
      omega
    · simp only [Slice.cap, List.length_append, List.length_replicate, hdl]
      omega
    · simp only [Slice.data, List.append_assoc]
      rw [List.take_append_of_le_length (by rw [List.length_take]; omega), List.take_take]
      congr 1
      omega

theorem reader.readStep_bounds (E : Env CS DS K U)
    (hdecode : ∀ ds dl src, (E.ZBUFF_decompressContinue ds dl src).1.consumed ≤ src.length)
    (hcount : ∀ u k, (E.sourceRead u k).1.1.length ≤ k)
    (fuel : Nat) (r : reader DS U) (p : Slice) (got : Nat) (W : World)
    (hr : r.BoundsOK) (hp : p.WF) (hgot : got < p.len) :
    ∀ res, reader.readStep E fuel r p (got : Int) W = res →
    match res with
    | .error f => f = .outOfFuel ∨ (f = .memoryFault ∧
        ∃ ds dl src, dl < (E.ZBUFF_decompressContinue ds dl src).1.out.length)
    | .ok (.ret x) => x.2.1.BoundsOK ∧ x.2.1.firstError = r.firstError ∧
        x.2.2.2.cPool = W.cPool ∧ x.2.2.2.dPool = W.dPool ∧
        (x.1.2 = some .EOF → ∃ calls : List SourceCall,
          x.2.2.2.trace = W.trace ++ calls.map SourceCall.event ∧
          SourceCall.delivered calls = [] ∧ x.2.1.carryover = r.carryover ∧
          x.2.1.compressionLeft = r.compressionLeft)
    | .ok (.next x) => x.1.BoundsOK ∧ x.1.firstError = r.firstError ∧
        x.2.2.2.cPool = W.cPool ∧ x.2.2.2.dPool = W.dPool ∧
        x.2.1.WF ∧ x.2.1.len = p.len ∧
        (∃ k : Nat, x.2.2.1 = ((got + k : Nat) : Int) ∧ got + k ≤ p.len) ∧
        ∃ (calls : List SourceCall) (dl : Nat) (src : List Byte) (d : StepResult),
          x.2.2.2.trace = W.trace ++ (calls.map SourceCall.event ++
            [.decompressContinue dl src d]) ∧
          src = r.carryover ++ SourceCall.delivered calls ∧ d.consumed ≤ src.length ∧
          x.1.carryover = src.drop d.consumed ∧
          x.1.compressionLeft = ((src.length - d.consumed : Nat) : Int) := by
  intro res hs
  have hs0 := hs
  obtain ⟨hst, hdb1, hcwf, hc1, hc63, hcnil, hcl0, hcl1, hrec0, hrec63⟩ := hr
  obtain ⟨cl, hcl⟩ := Int.eq_ofNat_of_zero_le hcl0
  have hcl2 : cl ≤ r.compressionBuffer.len := by rw [hcl] at hcl1; exact Int.ofNat_le.mp hcl1
  have hca : r.compressionBuffer.len ≤ r.compressionBuffer.arr.length := hcwf
  simp only [reader.readStep] at hs
  rw [hcl, Slice.sliceFrom_natCast _ _ hcl2] at hs
  simp only [Int.toNat_ofNat] at hs
  cases ht : TryReadFull E fuel r.underlyingReader
      ⟨r.compressionBuffer.arr.drop cl, r.compressionBuffer.len - cl, r.compressionBuffer.isNil⟩
      W with
  | error f =>
    rw [ht] at hs
    subst hs
    exact Or.inl (TryReadFull_error E hcount _ _ _ _ _ ht)
  | ok t =>
    obtain ⟨⟨n, err⟩, u2, buf2, W1⟩ := t
    rw [ht] at hs
    simp only at hs
    obtain ⟨calls, hW1, hn, hnl, hb2l, hb2n, hb2a⟩ :=
      TryReadFull_spec E hcount _ _ _ _ _ _ _ _ _ (by
        unfold Slice.WF
        simp only [List.length_drop]
        omega) ht
    simp only [List.length_drop, List.drop_drop] at hnl hb2l hb2n hb2a
    generalize hdel : SourceCall.delivered calls = del at hn hnl hb2a
    have htk : (r.compressionBuffer.arr.take cl).length = cl := by
      rw [List.length_take]; omega
    -- the compression buffer with the bytes read
    have hcb1 : ∃ cb1, r.compressionBuffer.setFrom cl buf2 = cb1 ∧ cb1.len = r.compressionBuffer.len ∧
        cb1.isNil = false ∧ cb1.arr.length = r.compressionBuffer.arr.length ∧
        cb1.arr.take cl = r.compressionBuffer.arr.take cl ∧
        cb1.arr.take (cl + del.length) = r.compressionBuffer.arr.take cl ++ del := by
      refine ⟨_, rfl, rfl, hcnil, ?_, ?_, ?_⟩
      · simp only [Slice.setFrom, hb2a, List.length_append, List.length_take, List.length_drop]
        omega
      · simp only [Slice.setFrom]
        exact take_append_of_length _ _ _ htk
      · simp only [Slice.setFrom, hb2a]
        have e := take_append_append (r.compressionBuffer.arr.take cl) del
          (r.compressionBuffer.arr.drop (cl + del.length))
        rw [htk] at e
        exact e
    obtain ⟨cb1, hcb1, hl1, hnil1, hal1, htk1, htk2⟩ := hcb1
    rw [hcb1] at hs
    have hW1c : W1.cPool = W.cPool := by rw [hW1]
    have hW1d : W1.dPool = W.dPool := by rw [hW1]
    have hW1t : W1.trace = W.trace ++ calls.map SourceCall.event := by rw [hW1]
    by_cases hc1 : err ≠ none ∧ err ≠ some GoError.errShortRead
    · rw [if_pos hc1] at hs
      subst hs
      dsimp only
      refine ⟨?_, rfl, hW1c, hW1d, ?_⟩
      · unfold reader.BoundsOK
        dsimp only
        refine ⟨hst, hdb1, ?_, by omega, by omega, hnil1, by omega, by omega, hrec0, hrec63⟩
        unfold Slice.WF; omega
      · intro he
        exfalso
        obtain ⟨e, hee⟩ := Option.ne_none_iff_exists'.mp hc1.1
        rw [hee] at he
        simp at he
    · rw [if_neg hc1] at hs
      by_cases hc2 : n = 0 ∧ (cl : Int) = 0
      · rw [if_pos hc2] at hs
        subst hs
        dsimp only
        refine ⟨?_, rfl, hW1c, hW1d, ?_⟩
        · unfold reader.BoundsOK
          dsimp only
          refine ⟨hst, hdb1, ?_, by omega, by omega, hnil1, by omega, by omega, hrec0, hrec63⟩
          unfold Slice.WF; omega
        · intro _
          refine ⟨calls, hW1t, ?_, ?_, ?_⟩
          · rw [hdel]
            exact List.length_eq_zero.mp (by omega)
          · simp only [reader.carryover, Int.toNat_ofNat, hcl]
            exact htk1
          · exact hcl.symm
      · rw [if_neg hc2] at hs
        rw [hn, ← Nat.cast_add, Slice.sliceTo_natCast _ _ (by unfold Slice.cap; omega)] at hs
        simp only at hs
        have hsrc : (⟨cb1.arr, cl + del.length, cb1.isNil⟩ : Slice).data =
            r.carryover ++ del := by
          simp only [Slice.data, reader.carryover, hcl, Int.toNat_ofNat]
          exact htk2
        rw [hsrc] at hs
        have hlen1 : 1 ≤ cl + del.length := by
          by_contra hh
          exact hc2 ⟨by omega, by omega⟩
        rw [if_neg (by omega)] at hs
        by_cases hmf : r.decompressionBuffer.len <
            (E.ZBUFF_decompressContinue r.ctx r.decompressionBuffer.len
              (r.carryover ++ del)).1.out.length
        · rw [if_pos hmf] at hs
          subst hs
          exact Or.inr ⟨rfl, _, _, _, hmf⟩
        rw [if_neg hmf] at hs
        have hd := hdecode r.ctx r.decompressionBuffer.len (r.carryover ++ del)
        generalize E.ZBUFF_decompressContinue r.ctx r.decompressionBuffer.len
          (r.carryover ++ del) = d at hd hmf hs
        have hd2 : d.1.out.length ≤ r.decompressionBuffer.len := Nat.le_of_not_lt hmf
        have hsl : (r.carryover ++ del).length = cl + del.length := by
          rw [← hsrc]
          simp only [Slice.data, List.length_take]
          omega
        have hdbl : r.decompressionBuffer.len ≤ r.decompressionBuffer.arr.length := hst.1
        have hdcap : r.decompressionBuffer.arr.length < 2 ^ 63 := hst.2.1
        have hcon : sizeToInt d.1.consumed = (d.1.consumed : Int) :=
          sizeToInt_of_lt _ (by omega)
        have hout : sizeToInt d.1.out.length = (d.1.out.length : Int) :=
          sizeToInt_of_lt _ (by omega)
        have hscap : (r.decompressionBuffer.store d.1.out).cap = r.decompressionBuffer.cap :=
          Slice.cap_store _ _ (by unfold Slice.cap; omega)
        rw [hcon, hout] at hs
        cases hg : getError (sizeToInt d.1.code) with
        | some e =>
          rw [hg] at hs
          subst hs
          dsimp only
          refine ⟨?_, rfl, by simp only [World.emit, hW1c], by simp only [World.emit, hW1d], ?_⟩
          · unfold reader.BoundsOK
            dsimp only
            refine ⟨?_, hdb1, ?_, by omega, by omega, hnil1, by omega, by omega, hrec0, hrec63⟩
            · obtain ⟨_, _, s3, s4, s5⟩ := hst
              refine ⟨?_, ?_, s3, s4, s5⟩
              · unfold Slice.WF
                unfold Slice.cap at hscap
                rw [hscap]
                exact hdbl
              · rw [hscap]
                exact hdcap
            · unfold Slice.WF; omega
          · intro he
            simp at he
        | none =>
          rw [hg] at hs
          dsimp only at hs
          have hcb2 : ∃ cb2, (if (d.1.consumed : Int) < ((cl + del.length : Nat) : Int) then
                Except.map (fun left => (copy cb1 left).1)
                  ((⟨cb1.arr, cl + del.length, cb1.isNil⟩ : Slice).sliceFrom (d.1.consumed : Int))
              else Except.ok cb1) = .ok cb2 ∧ cb2.WF ∧ cb2.isNil = false ∧ cb2.len = cb1.len ∧
              cb2.arr.take (cl + del.length - d.1.consumed) =
                (r.carryover ++ del).drop d.1.consumed := by
            by_cases hlt : (d.1.consumed : Int) < ((cl + del.length : Nat) : Int)
            · have hlt2 : d.1.consumed < cl + del.length := Int.ofNat_lt.mp hlt
              rw [if_pos hlt, Slice.sliceFrom_natCast _ _ (by show d.1.consumed ≤ cl + del.length; omega)]
              have hx : ((cb1.arr.drop d.1.consumed).take (cl + del.length - d.1.consumed)).take
                  (min cb1.len (cl + del.length - d.1.consumed)) =
                  (r.carryover ++ del).drop d.1.consumed := by
                rw [List.take_take, ← hsrc]
                simp only [Slice.data]
                rw [List.drop_take]
                congr 1
                omega
              have hxl : ((r.carryover ++ del).drop d.1.consumed).length =
                  cl + del.length - d.1.consumed := by
                rw [List.length_drop, hsl]
              refine ⟨_, rfl, ?_, ?_, ?_, ?_⟩
              · simp only [copy, Slice.store, Slice.data, hx, Slice.WF, List.length_append,
                  List.length_drop, hxl]
                omega
              · simp only [copy, Slice.store]
                exact hnil1
              · simp only [copy, Slice.store]
              · simp only [copy, Slice.store, Slice.data, hx]
                exact take_append_of_length _ _ _ hxl
            · rw [if_neg hlt]
              have hge : ¬ d.1.consumed < cl + del.length := fun hh => hlt (Int.ofNat_lt.mpr hh)
              refine ⟨_, rfl, ?_, hnil1, rfl, ?_⟩
              · unfold Slice.WF; omega
              · rw [show cl + del.length - d.1.consumed = 0 by omega, List.take_zero]
                symm
                apply List.drop_eq_nil_of_le
                omega
          obtain ⟨cb2, hcb2e, hwf2, hnil2, hl2, htk3⟩ := hcb2
          rw [hcb2e] at hs
          dsimp only at hs
          rw [Slice.sliceFrom_natCast p got (Nat.le_of_lt hgot),
            Slice.sliceTo_natCast _ _ (by rw [hscap]; unfold Slice.cap; omega)] at hs
          dsimp only at hs
          have hcl3 : ((cl + del.length : Nat) : Int) - (d.1.consumed : Int) =
              ((cl + del.length - d.1.consumed : Nat) : Int) := by omega
          rw [hcl3] at hs
          obtain ⟨hns0, hns1, hns2⟩ := reader.nextSize_spec (sizeToInt d.1.code)
            r.recommendedSrcSize ((cl + del.length - d.1.consumed : Nat) : Int) hrec0
          have hns3 := hns2 (sizeToInt_lt _) hrec63 (by omega)
          obtain ⟨ns, hns⟩ := Int.eq_ofNat_of_zero_le (le_of_lt hns0)
          rw [hns] at hs hns0 hns1 hns3
          obtain ⟨cb3, hr3, hl3, hwf3, hnil3, _, htk4⟩ := resize_shape E.growslice cb2 ns hwf2 hnil2
          rw [hr3] at hs
          dsimp only at hs
          subst hs
          obtain ⟨calls2, dl2, src2, res2, k, _, hk1, hk2, _, _, hpl, hpw, _, _, hst2, _⟩ :=
            reader.readStep_next E fuel r p got W _ _ _ _ hp hgot hst.1 hst.2.1 hs0
          dsimp only
          refine ⟨?_, rfl, by simp only [World.emit, hW1c], by simp only [World.emit, hW1d],
            hpw, hpl, ⟨k, hk1, hk2⟩, calls, r.decompressionBuffer.len, r.carryover ++ del, d.1,
            ?_, by rw [hdel], hd, ?_, by rw [hsl]⟩
          · unfold reader.BoundsOK
            dsimp only
            refine ⟨hst2, hdb1, hwf3, by omega, by omega, hnil3, by omega, by omega, hrec0,
              hrec63⟩
          · simp only [World.emit, hW1t, List.append_assoc]
          · show cb3.arr.take ((cl + del.length - d.1.consumed : Nat) : Int).toNat = _
            rw [Int.toNat_ofNat]
            have e := congrArg (List.take (cl + del.length - d.1.consumed)) htk4
            rw [List.take_take, List.take_take] at e
            rw [show min (cl + del.length - d.1.consumed) (min cb2.len ns) =
              cl + del.length - d.1.consumed by omega] at e
            rw [e, htk3]

end Bounds

theorem carryChain_sourceCalls (calls : List SourceCall) :
    ∀ (carry pending : List Byte) (es : List Event),
      carryChain carry pending (calls.map SourceCall.event ++ es) =
        carryChain carry (pending ++ SourceCall.delivered calls) es := by
  induction calls with
  | nil =>
    intro carry pending es
    simp [SourceCall.delivered]
  | cons c cs ih =>
    intro carry pending es
    show carryChain carry (pending ++ c.bytes) (cs.map SourceCall.event ++ es) = _
    rw [ih, SourceCall.delivered_cons, List.append_assoc]

theorem carryChain_append (evs1 : List Event) :
    ∀ (carry pending c2 : List Byte) (evs2 : List Event),
      carryChain carry pending evs1 = some c2 →
      carryChain carry pending (evs1 ++ evs2) = carryChain c2 [] evs2 := by
  induction evs1 with
  | nil =>
    intro carry pending c2 evs2 h
    simp only [carryChain] at h
    split at h
    · rename_i hp
      simp only [Option.some.injEq] at h
      subst h hp
      rfl
    · simp at h
  | cons e es ih =>
    intro carry pending c2 evs2 h
    cases e
    case sourceRead l b er =>
      simp only [carryChain, List.cons_append] at h ⊢
      exact ih _ _ _ _ h
    case decompressContinue dl src res =>
      simp only [carryChain, List.cons_append] at h ⊢
      split at h
      · rename_i hc
        rw [if_pos hc]
        exact ih _ _ _ _ h
      · simp at h
    all_goals
      simp only [carryChain, List.cons_append] at h ⊢
      exact ih _ _ _ _ h

section Bounds2

variable {CS DS K U : Type}

theorem reader.readLoop_bounds (E : Env CS DS K U)
    (hdecode : ∀ ds dl src, (E.ZBUFF_decompressContinue ds dl src).1.consumed ≤ src.length)
    (hcount : ∀ u k, (E.sourceRead u k).1.1.length ≤ k) :
    ∀ (fuel : Nat) (r : reader DS U) (p : Slice) (got : Nat) (W : World),
      r.BoundsOK → p.WF → got ≤ p.len →
      ∀ res, reader.readLoop E fuel r p (got : Int) W = res →
      match res with
      | .error f => f = .outOfFuel ∨ (f = .memoryFault ∧
          ∃ ds dl src, dl < (E.ZBUFF_decompressContinue ds dl src).1.out.length)
      | .ok x => x.2.1.BoundsOK ∧ x.2.1.firstError = r.firstError ∧
          x.2.2.2.cPool = W.cPool ∧ x.2.2.2.dPool = W.dPool ∧
          ((x.1.2 = none ∨ x.1.2 = some .EOF) → ∃ evs : List Event,
            x.2.2.2.trace = W.trace ++ evs ∧
            carryChain r.carryover [] evs = some x.2.1.carryover) := by
  intro fuel
  induction fuel with
  | zero =>
    intro r p got W hr hp hgot res h
    unfold reader.readLoop at h
    split at h
    · subst h
      exact Or.inl rfl
    · subst h
      exact ⟨hr, rfl, rfl, rfl, fun _ => ⟨[], by simp, by simp [carryChain]⟩⟩
  | succ fuel ih =>
    intro r p got W hr hp hgot res h
    unfold reader.readLoop at h
    split at h
    · rename_i hc
      have hlt : got < p.len := Int.ofNat_lt.mp hc
      have hstep := reader.readStep_bounds E hdecode hcount fuel r p got W hr hp hlt _ rfl
      dsimp only at h
      split at h
      · rename_i e he
        rw [he] at hstep
        subst h
        exact hstep
      · rename_i x hx
        rw [hx] at hstep
        subst h
        obtain ⟨h1, h2, h3, h4, h5⟩ := hstep
        refine ⟨h1, h2, h3, h4, ?_⟩
        intro herr
        obtain ⟨⟨n, err⟩, r2, p2, W2⟩ := x
        rcases herr with herr | herr
        · exfalso
          obtain ⟨he, _⟩ := reader.readStep_ret E fuel r p got W n err r2 p2 W2 hx (Or.inl herr)
          dsimp only at herr
          rw [herr] at he
          simp at he
        · obtain ⟨calls, ht, hdel, hcar, _⟩ := h5 herr
          refine ⟨calls.map SourceCall.event, ht, ?_⟩
          have := carryChain_sourceCalls calls r.carryover [] []
          rw [List.append_nil] at this
          rw [this, hdel, hcar]
          simp [carryChain]
      · rename_i r1 p1 got1 W1 hx
        rw [hx] at hstep
        obtain ⟨h1, h2, h3, h4, hpw, hpl, ⟨k, hk1, hk2⟩, calls, dl, src, d, ht, hsrc, hcon, hcar,
          hcl⟩ := hstep
        dsimp only at h1 h2 h3 h4 hpw hpl hk1 ht hcar hcl
        subst hk1
        have hrec := ih r1 p1 (got + k) W1 h1 hpw (by omega) res h
        cases res with
        | error f => exact hrec
        | ok x =>
          obtain ⟨g1, g2, g3, g4, g5⟩ := hrec
          refine ⟨g1, by rw [g2, h2], by rw [g3, h3], by rw [g4, h4], ?_⟩
          intro herr
          obtain ⟨evs, ht2, hch⟩ := g5 herr
          refine ⟨calls.map SourceCall.event ++ [.decompressContinue dl src d] ++ evs, ?_, ?_⟩
          · rw [ht2, ht]
            simp
          · have e1 : carryChain r.carryover []
                (calls.map SourceCall.event ++ [.decompressContinue dl src d]) =
                some r1.carryover := by
              rw [carryChain_sourceCalls, List.nil_append]
              simp only [carryChain]
              rw [if_pos hsrc, hcar]
              rfl
            rw [carryChain_append _ _ _ _ _ e1]
            exact hch
    · subst h
      exact ⟨hr, rfl, rfl, rfl, fun _ => ⟨[], by simp, by simp [carryChain]⟩⟩

theorem reader.Read_bounds (E : Env CS DS K U)
    (hdecode : ∀ ds dl src, (E.ZBUFF_decompressContinue ds dl src).1.consumed ≤ src.length)
    (hcount : ∀ u k, (E.sourceRead u k).1.1.length ≤ k)
    (fuel : Nat) (r : reader DS U) (p : Slice) (W : World) (hr : r.BoundsOK) (hp : p.WF) :
    ∀ res, reader.Read E fuel r p W = res →
    match res with
    | .error f => f = .outOfFuel ∨ (f = .memoryFault ∧
        ∃ ds dl src, dl < (E.ZBUFF_decompressContinue ds dl src).1.out.length)
    | .ok x => x.2.1.BoundsOK ∧ x.2.1.firstError = r.firstError ∧
        x.2.2.2.cPool = W.cPool ∧ x.2.2.2.dPool = W.dPool ∧
        ((x.1.2 = none ∨ x.1.2 = some .EOF) → ∃ evs : List Event,
          x.2.2.2.trace = W.trace ++ evs ∧
          carryChain r.carryover [] evs = some x.2.1.carryover) := by
  intro res h
  have hr0 := hr
  obtain ⟨⟨hwf, hcap, h0, h1, h2⟩, hdb1, hcwf, hc1, hc63, hcnil, hcl0, hcl1, hrec0, hrec63⟩ := hr
  obtain ⟨off, hoff⟩ := Int.eq_ofNat_of_zero_le h0
  obtain ⟨size, hsize⟩ := Int.eq_ofNat_of_zero_le (le_trans h0 h1)
  have hos : off ≤ size := by rw [hoff, hsize] at h1; exact Int.ofNat_le.mp h1
  have hsl : size ≤ r.decompressionBuffer.len := by rw [hsize] at h2; exact Int.ofNat_le.mp h2
  have hla : r.decompressionBuffer.len ≤ r.decompressionBuffer.arr.length := hwf
  have hpl : p.len ≤ p.arr.length := hp
  unfold reader.Read at h
  split at h
  · subst h
    exact ⟨hr0, rfl, rfl, rfl, fun _ => ⟨[], by simp, by simp [carryChain]⟩⟩
  · split at h
    · rename_i hc
      rw [hoff, hsize] at hc
      rw [hoff, Slice.sliceFrom_natCast _ _ (by omega)] at h
      simp only [bind, Except.bind] at h
      subst h
      dsimp only
      refine ⟨?_, rfl, rfl, rfl, fun _ => ⟨[], by simp, by simp [carryChain, reader.carryover]⟩⟩
      unfold reader.BoundsOK reader.StagingOK
      dsimp only
      exact ⟨⟨hwf, hcap, by omega, by omega, h2⟩, hdb1, hcwf, hc1, hc63, hcnil, hcl0, hcl1, hrec0,
        hrec63⟩
    · rename_i hc
      rw [hoff, hsize] at hc
      rw [hoff, hsize, Slice.slice_natCast _ _ _ hos (by unfold Slice.cap; omega)] at h
      simp only [bind, Except.bind] at h
      have hgot : ((size : Int) - (off : Int)) = ((size - off : Nat) : Int) := by omega
      rw [hgot] at h
      have hloop := reader.readLoop_bounds E hdecode hcount fuel
        { r with decompSize := 0, decompOff := 0 }
        (copy p ⟨r.decompressionBuffer.arr.drop off, size - off, r.decompressionBuffer.isNil⟩).1
        (size - off) W
        (by
          unfold reader.BoundsOK reader.StagingOK
          dsimp only
          exact ⟨⟨hwf, hcap, le_refl _, le_refl _, Int.natCast_nonneg _⟩, hdb1, hcwf, hc1, hc63,
            hcnil, hcl0, hcl1, hrec0, hrec63⟩)
        (by
          unfold Slice.WF
          simp only [copy, Slice.store, Slice.data, List.length_append, List.length_take,
            List.length_drop]
          omega)
        (by simp only [copy, Slice.store]; omega) res h
      exact hloop

theorem reader.run_bounds (E : Env CS DS K U)
    (hdecode : ∀ ds dl src, (E.ZBUFF_decompressContinue ds dl src).1.consumed ≤ src.length)
    (hcount : ∀ u k, (E.sourceRead u k).1.1.length ≤ k) (fuel : Nat) (ps : List Slice) :
    ∀ (r : reader DS U) (W : World), r.BoundsOK → (∀ p ∈ ps, p.WF) →
    ∀ res, reader.run E fuel (ps.map .Read) r W = res →
    match res with
    | .error f => f = .outOfFuel ∨ (f = .memoryFault ∧
        ∃ ds dl src, dl < (E.ZBUFF_decompressContinue ds dl src).1.out.length)
    | .ok x => x.2.1.BoundsOK ∧ x.2.1.firstError = r.firstError ∧
        x.2.2.cPool = W.cPool ∧ x.2.2.dPool = W.dPool ∧
        ((∀ y ∈ x.1, y.err = none ∨ y.err = some .EOF) → ∃ evs : List Event,
          x.2.2.trace = W.trace ++ evs ∧
          carryChain r.carryover [] evs = some x.2.1.carryover) := by
  induction ps with
  | nil =>
    intro r W hr _ res h
    simp only [List.map_nil, reader.run] at h
    subst h
    exact ⟨hr, rfl, rfl, rfl, fun _ => ⟨[], by simp, by simp [carryChain]⟩⟩
  | cons p ps ih =>
    intro r W hr hps res h
    simp only [List.map_cons, reader.run] at h
    have hread := reader.Read_bounds E hdecode hcount fuel r p W hr
      (hps p (List.mem_cons_self _ _)) _ rfl
    split at h
    · rename_i e he
      rw [he] at hread
      subst h
      exact hread
    · rename_i res1 r1 p1 W1 he
      rw [he] at hread
      obtain ⟨h1, h2, h3, h4, h5⟩ := hread
      dsimp only at h1 h2 h3 h4 h5
      have hrun := ih r1 W1 h1 (fun q hq => hps q (List.mem_cons_of_mem _ hq)) _ rfl
      split at h
      · rename_i e he2
        rw [he2] at hrun
        subst h
        exact hrun
      · rename_i rs r2 W2 he2
        rw [he2] at hrun
        subst h
        obtain ⟨g1, g2, g3, g4, g5⟩ := hrun
        dsimp only at g1 g2 g3 g4 g5 ⊢
        refine ⟨g1, by rw [g2, h2], by rw [g3, h3], by rw [g4, h4], ?_⟩
        intro herr
        obtain ⟨evs1, ht1, hc1⟩ := h5 (herr (.Read res1.1 res1.2 p1) (List.mem_cons_self _ _))
        obtain ⟨evs2, ht2, hc2⟩ := g5 (fun y hy => herr y (List.mem_cons_of_mem _ hy))
        refine ⟨evs1 ++ evs2, by rw [ht2, ht1, List.append_assoc], ?_⟩
        rw [carryChain_append _ _ _ _ _ hc1]
        exact hc2

theorem cSize_spec (E : Env CS DS K U) (c : Int) (h : cSize E = .ok c) :
    0 < c ∧ c < 2 ^ 63 ∧ c = sizeToInt E.ZBUFF_recommendedDInSize := by
  unfold cSize at h
  simp only at h
  split at h
  · simp at h
  · rename_i hc
    simp only [Except.ok.injEq] at h
    rw [← h]
    exact ⟨by omega, sizeToInt_lt _, rfl⟩

theorem dSize_spec (E : Env CS DS K U) (d : Int) (h : dSize E = .ok d) :
    0 < d ∧ d < 2 ^ 63 ∧ d = sizeToInt E.ZBUFF_recommendedDOutSize := by
  unfold dSize at h
  simp only at h
  split at h
  · simp at h
  · rename_i hc
    simp only [Except.ok.injEq] at h
    rw [← h]
    exact ⟨by omega, sizeToInt_lt _, rfl⟩

/-- What `cPool.Get()` returns: a buffer of the pool, or a new buffer of cSize
bytes when the pool is empty. -/
theorem cPoolGet_spec (E : Env CS DS K U) (W : World) (b : Slice) (W1 : World)
    (h : cPoolGet E W = .ok (b, W1)) :
    W1.dPool = W.dPool ∧
    ((∃ rest, W.cPool = b :: rest ∧ W1.cPool = rest) ∨
     (W.cPool = [] ∧ W1.cPool = [] ∧ ∃ c : Nat, cSize E = .ok (c : Int) ∧
        b = ⟨List.replicate c 0, c, false⟩)) := by
  unfold cPoolGet at h
  split at h
  · rename_i b0 rest hb
    simp only [Except.ok.injEq, Prod.mk.injEq] at h
    obtain ⟨h1, h2⟩ := h
    subst h1 h2
    exact ⟨rfl, Or.inl ⟨rest, hb, rfl⟩⟩
  · rename_i hb
    simp only [bind, Except.bind] at h
    split at h
    · simp at h
    · rename_i n hn
      obtain ⟨hn0, _, _⟩ := cSize_spec E n hn
      obtain ⟨c, hc⟩ := Int.eq_ofNat_of_zero_le (le_of_lt hn0)
      subst hc
      rw [make_natCast] at h
      simp only [Except.ok.injEq, Prod.mk.injEq] at h
      obtain ⟨h1, h2⟩ := h
      subst h1 h2
      exact ⟨rfl, Or.inr ⟨hb, hb, c, hn, rfl⟩⟩

/-- What `dPool.Get()` returns. -/
theorem dPoolGet_spec (E : Env CS DS K U) (W : World) (b : Slice) (W1 : World)
    (h : dPoolGet E W = .ok (b, W1)) :
    W1.cPool = W.cPool ∧
    ((∃ rest, W.dPool = b :: rest ∧ W1.dPool = rest) ∨
     (W.dPool = [] ∧ W1.dPool = [] ∧ ∃ d : Nat, dSize E = .ok (d : Int) ∧
        b = ⟨List.replicate d 0, d, false⟩)) := by
  unfold dPoolGet at h
  split at h
  · rename_i b0 rest hb
    simp only [Except.ok.injEq, Prod.mk.injEq] at h
    obtain ⟨h1, h2⟩ := h
    subst h1 h2
    exact ⟨rfl, Or.inl ⟨rest, hb, rfl⟩⟩
  · rename_i hb
    simp only [bind, Except.bind] at h
    split at h
    · simp at h
    · rename_i n hn
      obtain ⟨hn0, _, _⟩ := dSize_spec E n hn
      obtain ⟨c, hc⟩ := Int.eq_ofNat_of_zero_le (le_of_lt hn0)
      subst hc
      rw [make_natCast] at h
      simp only [Except.ok.injEq, Prod.mk.injEq] at h
      obtain ⟨h1, h2⟩ := h
      subst h1 h2
      exact ⟨rfl, Or.inr ⟨hb, hb, c, hn, rfl⟩⟩

/-- What NewReaderDict returns: the two buffers come from the pools, the
cursors are 0 and the recommended size is cSize. -/
theorem NewReaderDict_spec (E : Env CS DS K U) (u : U) (dict : Slice) (W : World)
    (r : reader DS U) (W3 : World) (h : NewReaderDict E u dict W = .ok (r, W3)) :
    ∃ W0 W1, W0.cPool = W.cPool ∧ W0.dPool = W.dPool ∧
      cPoolGet E W0 = .ok (r.compressionBuffer, W1) ∧
      dPoolGet E W1 = .ok (r.decompressionBuffer, W3) ∧
      cSize E = .ok r.recommendedSrcSize ∧
      r.compressionLeft = 0 ∧ r.decompOff = 0 ∧ r.decompSize = 0 := by
  unfold NewReaderDict at h
  simp only [bind, Except.bind, pure, Except.pure] at h
  repeat' split at h
  all_goals try (simp at h; done)
  all_goals
    rename_i x2 v2 hcget x1 v1 hdget x0 v0 hcs hd
    simp only [Except.ok.injEq, Prod.mk.injEq] at h
    obtain ⟨hr, hW⟩ := h
    subst hr hW
    refine ⟨_, _, ?_, ?_, hcget, hdget, hcs, rfl, rfl, rfl⟩
  all_goals
    split <;> rfl

theorem NewReaderDict_bounds (E : Env CS DS K U) (u : U) (dict : Slice) (W : World)
    (r : reader DS U) (W3 : World) (hpools : W.PoolsOK)
    (h : NewReaderDict E u dict W = .ok (r, W3)) :
    r.BoundsOK ∧ W3.PoolsOK ∧ r.carryover = [] := by
  obtain ⟨W0, W1, hc0, hd0, hcget, hdget, hcs, hcl, hoff, hsize⟩ :=
    NewReaderDict_spec E u dict W r W3 h
  obtain ⟨hrec0, hrec63, _⟩ := cSize_spec E _ hcs
  obtain ⟨hd1, hcc⟩ := cPoolGet_spec E W0 _ W1 hcget
  obtain ⟨hc3, hdd⟩ := dPoolGet_spec E W1 _ W3 hdget
  obtain ⟨hpc, hpd⟩ := hpools
  have hcb : r.compressionBuffer.WF ∧ 1 ≤ r.compressionBuffer.len ∧
      r.compressionBuffer.len < 2 ^ 63 ∧ r.compressionBuffer.isNil = false ∧
      ∀ b ∈ W1.cPool, b.WF ∧ 1 ≤ b.len ∧ b.len < 2 ^ 63 ∧ b.isNil = false := by
    rcases hcc with ⟨rest, h1, h2⟩ | ⟨h1, h2, c, h3, h4⟩
    · rw [hc0] at h1
      obtain ⟨a1, a2, a3, a4⟩ := hpc _ (by rw [h1]; exact List.mem_cons_self _ _)
      refine ⟨a1, a2, a3, a4, ?_⟩
      intro b hb
      exact hpc b (by rw [h1]; exact List.mem_cons_of_mem _ (by rw [← h2]; exact hb))
    · obtain ⟨c0, c63, _⟩ := cSize_spec E _ h3
      rw [h4]
      refine ⟨?_, by show 1 ≤ c; omega, by show c < 2 ^ 63; omega, rfl, ?_⟩
      · simp [Slice.WF]
      · intro b hb
        rw [h2] at hb
        simp at hb
  have hdb : r.decompressionBuffer.WF ∧ r.decompressionBuffer.cap < 2 ^ 63 ∧
      1 ≤ r.decompressionBuffer.len ∧
      ∀ b ∈ W3.dPool, b.WF ∧ b.cap < 2 ^ 63 ∧ 1 ≤ b.len := by
    rcases hdd with ⟨rest, h1, h2⟩ | ⟨h1, h2, d, h3, h4⟩
    · rw [hd1, hd0] at h1
      obtain ⟨a1, a2, a3⟩ := hpd _ (by rw [h1]; exact List.mem_cons_self _ _)
      refine ⟨a1, a2, a3, ?_⟩
      intro b hb
      exact hpd b (by rw [h1]; exact List.mem_cons_of_mem _ (by rw [← h2]; exact hb))
    · obtain ⟨d0, d63, _⟩ := dSize_spec E _ h3
      rw [h4]
      refine ⟨?_, ?_, by show 1 ≤ d; omega, ?_⟩
      · simp [Slice.WF]
      · simp only [Slice.cap, List.length_replicate]
        omega
      · intro b hb
        rw [h2] at hb
        simp at hb
  obtain ⟨b1, b2, b3, b4, b5⟩ := hcb
  obtain ⟨e1, e2, e3, e4⟩ := hdb
  refine ⟨⟨⟨e1, e2, by omega, by omega, by omega⟩, e3, b1, b2, b3, b4, by omega, by omega, hrec0,
    hrec63⟩, ⟨by rw [hc3]; exact b5, e4⟩, ?_⟩
  simp [reader.carryover, hcl]

theorem reader.Close_pools (E : Env CS DS K U) (r : reader DS U) (W : World)
    (hr : r.BoundsOK) (hpools : W.PoolsOK) : (reader.Close E r W).2.2.PoolsOK := by
  obtain ⟨⟨hwf, hcap, _⟩, hdb1, hcwf, hc1, hc63, hcnil, _⟩ := hr
  obtain ⟨hpc, hpd⟩ := hpools
  unfold reader.Close
  split
  · exact ⟨hpc, hpd⟩
  · simp only [World.PoolsOK, cPoolPut, dPoolPut, World.emit, List.mem_cons, forall_eq_or_imp]
    exact ⟨⟨⟨hcwf, hc1, hc63, hcnil⟩, hpc⟩, ⟨hwf, hcap, hdb1⟩, hpd⟩

end Bounds2

/-- C15: assuming every decode step reports a consumed count of at most the
length of its input and a produced count of at most the length of the
destination, over a source whose calls deliver no more bytes than the slice
they are given, and from pools whose buffers are in order (as the empty pools
are): the reader NewReaderDict makes, and the reader after every sequence of
Read calls, whatever they return, satisfy
`0 <= decompOff <= decompSize <= len(decompressionBuffer)`,
`0 <= compressionLeft <= len(compressionBuffer)`, `len(compressionBuffer) >= 1`
and `len(decompressionBuffer) >= 1`; the pools stay in order, also after Close
has returned the buffers; and no Read panics on a slice bound or an index: a
sequence of Read calls that does not return has run out of fuel. -/
theorem reader.bounds_invariant {CS DS K U : Type} (E : Env CS DS K U)
    (hdecode : ∀ ds dl src, (E.ZBUFF_decompressContinue ds dl src).1.consumed ≤ src.length ∧
      (E.ZBUFF_decompressContinue ds dl src).1.out.length ≤ dl)
    (hcount : ∀ u k, (E.sourceRead u k).1.1.length ≤ k)
    (fuel : Nat) (u : U) (dict : Slice) (W : World) (hpools : W.PoolsOK)
    (ps : List Slice) (hps : ∀ p ∈ ps, p.WF) (r : reader DS U) (W1 : World)
    (hnew : NewReaderDict E u dict W = .ok (r, W1)) :
    r.BoundsOK ∧
    (∀ rs r2 W2, reader.run E fuel (ps.map .Read) r W1 = .ok (rs, r2, W2) →
      r2.BoundsOK ∧
      (0 ≤ r2.decompOff ∧ r2.decompOff ≤ r2.decompSize ∧
       r2.decompSize ≤ (r2.decompressionBuffer.len : Int) ∧
       0 ≤ r2.compressionLeft ∧ r2.compressionLeft ≤ (r2.compressionBuffer.len : Int) ∧
       1 ≤ r2.compressionBuffer.len ∧ 1 ≤ r2.decompressionBuffer.len) ∧
      W2.PoolsOK ∧ (reader.Close E r2 W2).2.2.PoolsOK) ∧
    (∀ f, reader.run E fuel (ps.map .Read) r W1 = .error f → f = .outOfFuel) := by
  obtain ⟨hr, hp1, _⟩ := NewReaderDict_bounds E u dict W r W1 hpools hnew
  have hrun := reader.run_bounds E (fun ds dl src => (hdecode ds dl src).1) hcount fuel ps r W1
    hr hps _ rfl
  refine ⟨hr, ?_, ?_⟩
  · intro rs r2 W2 h
    rw [h] at hrun
    obtain ⟨g1, _, g3, g4, _⟩ := hrun
    dsimp only at g1 g3 g4
    have hp2 : W2.PoolsOK := by
      unfold World.PoolsOK
      rw [g3, g4]
      exact hp1
    obtain ⟨⟨_, _, s3, s4, s5⟩, hdb1, _, hc1, _, _, hcl0, hcl1, _⟩ := id g1
    exact ⟨g1, ⟨s3, s4, s5, hcl0, hcl1, hc1, hdb1⟩, hp2, reader.Close_pools E r2 W2 g1 hp2⟩
  · intro f h
    rw [h] at hrun
    rcases hrun with h1 | ⟨_, ds, dl, src, h2⟩
    · exact h1
    · exfalso
      have := (hdecode ds dl src).2
      omega

section Pooled

variable {CS DS K U : Type}

/-- The loop of TryReadFull keeps the length and the capacity of the buffer. -/
theorem TryReadFull.loop_shape (E : Env CS DS K U) :
    ∀ (fuel : Nat) (r : U) (buf : Slice) (n : Int) (err : Option GoError) (W : World)
      (res : (Int × Option GoError) × U × Slice × World),
      buf.WF → TryReadFull.loop E fuel r buf n err W = .ok res →
      res.2.2.1.len = buf.len ∧ res.2.2.1.arr.length = buf.arr.length ∧
      res.2.2.1.isNil = buf.isNil := by
  intro fuel
  induction fuel with
  | zero =>
    intro r buf n err W res hwf h
    unfold TryReadFull.loop at h
    split at h
    · simp at h
    · simp only [Except.ok.injEq] at h
      subst h
      exact ⟨rfl, rfl, rfl⟩
  | succ fuel ih =>
    intro r buf n err W res hwf h
    unfold TryReadFull.loop at h
    split at h
    · simp only [bind, Except.bind] at h
      split at h
      · simp at h
      · rename_i sub hsub
        obtain ⟨hv, h0, h1⟩ := Slice.sliceFrom_ok _ _ _ hsub
        obtain ⟨m, hm⟩ := Int.eq_ofNat_of_zero_le h0
        subst hm
        have hm2 : m ≤ buf.len := Int.ofNat_le.mp h1
        have hla : buf.len ≤ buf.arr.length := hwf
        simp only [Int.toNat_ofNat] at hv h
        subst hv
        have hx : ((E.sourceRead r (buf.len - m)).1.1.take (buf.len - m)).length ≤
            buf.len - m := by
          rw [List.length_take]; omega
        dsimp only at h hx
        generalize (E.sourceRead r (buf.len - m)).1.1.take (buf.len - m) = xs at h hx
        have hal : (buf.setFrom m ((⟨buf.arr.drop m, buf.len - m, buf.isNil⟩ : Slice).store
            xs)).arr.length = buf.arr.length := by
          simp only [Slice.setFrom, Slice.store, List.length_append, List.length_take,
            List.length_drop]
          omega
        obtain ⟨g1, g2, g3⟩ := ih _ _ _ _ _ res (by
          unfold Slice.WF
          rw [hal]
          exact hla) h
        rw [hal] at g2
        exact ⟨g1, g2, g3⟩
    · simp only [Except.ok.injEq] at h
      subst h
      exact ⟨rfl, rfl, rfl⟩

theorem TryReadFull_shape (E : Env CS DS K U) (fuel : Nat) (r : U) (buf : Slice) (W : World)
    (res : (Int × Option GoError) × U × Slice × World) (hwf : buf.WF)
    (h : TryReadFull E fuel r buf W = .ok res) :
    res.2.2.1.len = buf.len ∧ res.2.2.1.arr.length = buf.arr.length ∧
    res.2.2.1.isNil = buf.isNil ∧ res.2.2.2.cPool = W.cPool ∧ res.2.2.2.dPool = W.dPool := by
  obtain ⟨calls, hW⟩ := TryReadFull_world E fuel r buf W res h
  unfold TryReadFull at h
  simp only [bind, Except.bind, pure, Except.pure] at h
  split at h
  · simp at h
  · rename_i t ht
    obtain ⟨g1, g2, g3⟩ := TryReadFull.loop_shape E fuel r buf 0 none W t hwf ht
    refine ⟨?_, ?_, ?_, by rw [hW], by rw [hW]⟩
    all_goals
      repeat' split at h
      all_goals
        simp only [Except.ok.injEq] at h
        subst h
        assumption

theorem copy_shape (dst src : Slice) (hwf : dst.WF) :
    (copy dst src).1.len = dst.len ∧ (copy dst src).1.arr.length = dst.arr.length ∧
    (copy dst src).1.isNil = dst.isNil := by
  have hla : dst.len ≤ dst.arr.length := hwf
  refine ⟨rfl, ?_, rfl⟩
  simp only [copy, Slice.store, Slice.data, List.length_append, List.length_take,
    List.length_drop]
  omega

/-- An iteration of the decode loop keeps the compression buffer a slice of
at least the capacity it had and not empty, and the length of the
decompression buffer, whatever the engine and the source do. -/
theorem reader.readStep_pooled (E : Env CS DS K U) (fuel : Nat) (r : reader DS U) (p : Slice)
    (got : Int) (W : World) (c d : Int) (hc : 0 < c) (hr : r.BuffersKept c d)
    (s : LoopStep ((Int × Option GoError) × reader DS U × Slice × World)
      (reader DS U × Slice × Int × World))
    (h : reader.readStep E fuel r p got W = .ok s) :
    match s with
    | .ret x => x.2.1.BuffersKept c d ∧ x.2.1.firstError = r.firstError ∧
        x.2.2.2.cPool = W.cPool ∧ x.2.2.2.dPool = W.dPool
    | .next x => x.1.BuffersKept c d ∧ x.1.firstError = r.firstError ∧
        x.2.2.2.cPool = W.cPool ∧ x.2.2.2.dPool = W.dPool := by
  obtain ⟨hwf, hnil, hcap, hlen, hdl, hrec⟩ := hr
  have hla : r.compressionBuffer.len ≤ r.compressionBuffer.arr.length := hwf
  simp only [reader.readStep] at h
  split at h
  · simp at h
  · rename_i tail htail
    obtain ⟨hv, h0, h1⟩ := Slice.sliceFrom_ok _ _ _ htail
    obtain ⟨cl, hcl⟩ := Int.eq_ofNat_of_zero_le h0
    rw [hcl] at h1 hv h
    have hcl2 : cl ≤ r.compressionBuffer.len := Int.ofNat_le.mp h1
    simp only [Int.toNat_ofNat] at hv h
    split at h
    · simp at h
    · rename_i t ht
      obtain ⟨t1, t2, t3, t4, t5⟩ := TryReadFull_shape E fuel _ _ _ t (by
        rw [hv]
        unfold Slice.WF
        simp only [List.length_drop]
        omega) ht
      rw [hv] at t1 t2 t3
      simp only [List.length_drop] at t1 t2 t3
      have hcb1 : ∃ cb1, r.compressionBuffer.setFrom cl t.2.2.1 = cb1 ∧
          cb1.len = r.compressionBuffer.len ∧ cb1.isNil = false ∧
          cb1.arr.length = r.compressionBuffer.arr.length := by
        refine ⟨_, rfl, rfl, hnil, ?_⟩
        simp only [Slice.setFrom, List.length_append, List.length_take, t2]
        omega
      obtain ⟨cb1, hcb1, hl1, hnil1, hal1⟩ := hcb1
      rw [hcb1] at h
      have hok1 : ∀ (ctx : DS) (db : Slice) (off size : Int) (u : U),
          (db.len : Int) = d →
          reader.BuffersKept c d
            ({ ctx := ctx, compressionBuffer := cb1, compressionLeft := (cl : Int),
               decompressionBuffer := db, decompOff := off, decompSize := size,
               dict := r.dict, firstError := r.firstError,
               recommendedSrcSize := r.recommendedSrcSize, underlyingReader := u } :
              reader DS U) := by
        intro ctx db off size u hdb
        unfold reader.BuffersKept Slice.WF Slice.cap
        dsimp only
        refine ⟨by omega, hnil1, ?_, by omega, hdb, hrec⟩
        unfold Slice.cap at hcap
        omega
      repeat' split at h
      all_goals try (simp at h; done)
      · simp only [Except.ok.injEq] at h
        subst h
        exact ⟨hok1 _ _ _ _ _ hdl, rfl, t4, t5⟩
      · simp only [Except.ok.injEq] at h
        subst h
        exact ⟨hok1 _ _ _ _ _ hdl, rfl, t4, t5⟩
      · simp only [Except.ok.injEq] at h
        subst h
        exact ⟨hok1 _ _ _ _ _ hdl, rfl, t4, t5⟩
      · rename_i x5 src hsrc hidx hfault x4 hget x3 cb hcb x2 pt hpt x1 dh hdh x0 cb2 hres
        simp only [Except.ok.injEq] at h
        subst h
        dsimp only
        have hcb2 : cb.len = cb1.len ∧ cb.arr.length = cb1.arr.length ∧ cb.isNil = false := by
          split at hcb
          · cases hsf : src.sliceFrom
                (sizeToInt (E.ZBUFF_decompressContinue r.ctx r.decompressionBuffer.len
                  src.data).1.consumed) with
            | error f => simp [hsf, Except.map] at hcb
            | ok left =>
              simp only [hsf, Except.map, Except.ok.injEq] at hcb
              subst hcb
              obtain ⟨a1, a2, a3⟩ := copy_shape cb1 left (by unfold Slice.WF; omega)
              exact ⟨a1, a2, by rw [a3]; exact hnil1⟩
          · simp only [Except.ok.injEq] at hcb
            subst hcb
            exact ⟨rfl, rfl, hnil1⟩
        obtain ⟨b1, b2, b3⟩ := hcb2
        obtain ⟨hns0, _, _⟩ := reader.nextSize_spec
          (sizeToInt (E.ZBUFF_decompressContinue r.ctx r.decompressionBuffer.len src.data).1.code)
          r.recommendedSrcSize
          ((src.len : Int) - sizeToInt
            (E.ZBUFF_decompressContinue r.ctx r.decompressionBuffer.len src.data).1.consumed)
          (by rw [hrec]; exact hc)
        obtain ⟨ns, hns⟩ := Int.eq_ofNat_of_zero_le (le_of_lt hns0)
        rw [hns] at hres hns0
        obtain ⟨cb3, hr3, hl3, hwf3, hnil3, hcap3, _⟩ :=
          resize_shape E.growslice cb ns (by unfold Slice.WF; omega) b3
        rw [hr3] at hres
        simp only [Except.ok.injEq] at hres
        subst hres
        refine ⟨?_, rfl, by simp only [World.emit]; exact t4, by simp only [World.emit]; exact t5⟩
        unfold reader.BuffersKept
        dsimp only
        refine ⟨hwf3, hnil3, ?_, by omega, hdl, hrec⟩
        unfold Slice.cap at hcap3 hcap ⊢
        omega

theorem reader.readLoop_pooled (E : Env CS DS K U) (c d : Int) (hc : 0 < c) :
    ∀ (fuel : Nat) (r : reader DS U) (p : Slice) (got : Int) (W : World)
      (res : (Int × Option GoError) × reader DS U × Slice × World),
      r.BuffersKept c d → reader.readLoop E fuel r p got W = .ok res →
      res.2.1.BuffersKept c d ∧ res.2.1.firstError = r.firstError ∧
      res.2.2.2.cPool = W.cPool ∧ res.2.2.2.dPool = W.dPool := by
  intro fuel
  induction fuel with
  | zero =>
    intro r p got W res hr h
    unfold reader.readLoop at h
    split at h
    · simp at h
    · simp only [Except.ok.injEq] at h
      subst h
      exact ⟨hr, rfl, rfl, rfl⟩
  | succ fuel ih =>
    intro r p got W res hr h
    unfold reader.readLoop at h
    split at h
    · dsimp only at h
      split at h
      · simp at h
      · rename_i x hx
        simp only [Except.ok.injEq] at h
        subst h
        exact reader.readStep_pooled E fuel r p got W c d hc hr _ hx
      · rename_i r1 p1 got1 W1 hx
        obtain ⟨h1, h2, h3, h4⟩ := reader.readStep_pooled E fuel r p got W c d hc hr _ hx
        dsimp only at h1 h2 h3 h4
        obtain ⟨g1, g2, g3, g4⟩ := ih r1 p1 got1 W1 res h1 h
        exact ⟨g1, by rw [g2, h2], by rw [g3, h3], by rw [g4, h4]⟩
    · simp only [Except.ok.injEq] at h
      subst h
      exact ⟨hr, rfl, rfl, rfl⟩

theorem reader.Read_pooled (E : Env CS DS K U) (c d : Int) (hc : 0 < c) (fuel : Nat)
    (r : reader DS U) (p : Slice) (W : World)
    (res : (Int × Option GoError) × reader DS U × Slice × World)
    (hr : r.BuffersKept c d) (h : reader.Read E fuel r p W = .ok res) :
    res.2.1.BuffersKept c d ∧ res.2.1.firstError = r.firstError ∧
    res.2.2.2.cPool = W.cPool ∧ res.2.2.2.dPool = W.dPool := by
  unfold reader.Read at h
  split at h
  · simp only [Except.ok.injEq] at h
    subst h
    exact ⟨hr, rfl, rfl, rfl⟩
  · split at h
    · simp only [bind, Except.bind] at h
      split at h
      · simp at h
      · simp only [Except.ok.injEq] at h
        subst h
        exact ⟨hr, rfl, rfl, rfl⟩
    · simp only [bind, Except.bind] at h
      split at h
      · simp at h
      · exact reader.readLoop_pooled E c d hc fuel { r with decompSize := 0, decompOff := 0 }
          _ _ W res hr h

/-- NewReaderDict takes its buffers from the pools, or makes them of the
recommended sizes: they are as the pools keep them. -/
theorem NewReaderDict_pooled (E : Env CS DS K U) (c d : Int) (hcs : cSize E = .ok c)
    (hds : dSize E = .ok d) (u : U) (dict : Slice) (W : World) (r : reader DS U) (W3 : World)
    (hW : W.PoolsKept c d) (h : NewReaderDict E u dict W = .ok (r, W3)) :
    r.BuffersKept c d ∧ W3.PoolsKept c d := by
  obtain ⟨W0, W1, hc0, hd0, hcget, hdget, hcs2, _⟩ := NewReaderDict_spec E u dict W r W3 h
  rw [hcs] at hcs2
  simp only [Except.ok.injEq] at hcs2
  obtain ⟨hd1, hcc⟩ := cPoolGet_spec E W0 _ W1 hcget
  obtain ⟨hc3, hdd⟩ := dPoolGet_spec E W1 _ W3 hdget
  obtain ⟨hpc, hpd⟩ := hW
  have hcb : (r.compressionBuffer.WF ∧ r.compressionBuffer.isNil = false ∧
      c ≤ (r.compressionBuffer.cap : Int) ∧ 1 ≤ r.compressionBuffer.len) ∧
      ∀ b ∈ W1.cPool, b.WF ∧ b.isNil = false ∧ c ≤ (b.cap : Int) ∧ 1 ≤ b.len := by
    rcases hcc with ⟨rest, h1, h2⟩ | ⟨h1, h2, n, h3, h4⟩
    · rw [hc0] at h1
      refine ⟨hpc _ (by rw [h1]; exact List.mem_cons_self _ _), ?_⟩
      intro b hb
      exact hpc b (by rw [h1]; exact List.mem_cons_of_mem _ (by rw [← h2]; exact hb))
    · rw [hcs] at h3
      simp only [Except.ok.injEq] at h3
      obtain ⟨c0, _, _⟩ := cSize_spec E _ hcs
      rw [h4]
      refine ⟨⟨?_, rfl, ?_, ?_⟩, ?_⟩
      · simp [Slice.WF]
      · simp only [Slice.cap, List.length_replicate]
        omega
      · show 1 ≤ n
        omega
      · intro b hb
        rw [h2] at hb
        simp at hb
  have hdb : (r.decompressionBuffer.len : Int) = d ∧ ∀ b ∈ W3.dPool, (b.len : Int) = d := by
    rcases hdd with ⟨rest, h1, h2⟩ | ⟨h1, h2, n, h3, h4⟩
    · rw [hd1, hd0] at h1
      refine ⟨hpd _ (by rw [h1]; exact List.mem_cons_self _ _), ?_⟩
      intro b hb
      exact hpd b (by rw [h1]; exact List.mem_cons_of_mem _ (by rw [← h2]; exact hb))
    · rw [hds] at h3
      simp only [Except.ok.injEq] at h3
      rw [h4]
      refine ⟨h3.symm, ?_⟩
      intro b hb
      rw [h2] at hb
      simp at hb
  obtain ⟨⟨b1, b2, b3, b4⟩, b5⟩ := hcb
  exact ⟨⟨b1, b2, b3, b4, hdb.1, hcs2.symm⟩, ⟨by rw [hc3]; exact b5, hdb.2⟩⟩

/-- The readers and the pools of a program keep their buffers as the pools
keep them, through every operation. -/
theorem readersRun_pooled (E : Env CS DS K U) (c d : Int) (hcs : cSize E = .ok c)
    (hds : dSize E = .ok d) (fuel : Nat) (ops : List (ReaderOp U)) :
    ∀ (rs : List (reader DS U)) (W : World) (rs2 : List (reader DS U)) (W2 : World),
      (∀ r ∈ rs, r.firstError = none → r.BuffersKept c d) → W.PoolsKept c d →
      readersRun E fuel ops rs W = .ok (rs2, W2) →
      (∀ r ∈ rs2, r.firstError = none → r.BuffersKept c d) ∧ W2.PoolsKept c d := by
  obtain ⟨hc0, _, _⟩ := cSize_spec E c hcs
  induction ops with
  | nil =>
    intro rs W rs2 W2 hrs hW h
    simp only [readersRun, Except.ok.injEq, Prod.mk.injEq] at h
    obtain ⟨h1, h2⟩ := h
    subst h1 h2
    exact ⟨hrs, hW⟩
  | cons op ops ih =>
    intro rs W rs2 W2 hrs hW h
    cases op with
    | NewReaderDict u dict =>
      simp only [readersRun] at h
      split at h
      · simp at h
      · rename_i r W1 hnew
        obtain ⟨g1, g2⟩ := NewReaderDict_pooled E c d hcs hds u dict W r W1 hW hnew
        refine ih _ _ _ _ ?_ g2 h
        intro x hx hopen
        rcases List.mem_append.mp hx with hx | hx
        · exact hrs x hx hopen
        · simp only [List.mem_singleton] at hx
          rw [hx]
          exact g1
    | Read i p =>
      simp only [readersRun] at h
      split at h
      · exact ih _ _ _ _ hrs hW h
      · rename_i r hget
        split at h
        · simp at h
        · rename_i res r1 p1 W1 hread
          have hmem : r ∈ rs := List.getElem?_mem hget
          cases hopen : r.firstError with
          | some e =>
            rw [reader.Read_rejects E fuel r e hopen] at hread
            simp only [Except.ok.injEq, Prod.mk.injEq] at hread
            obtain ⟨_, hr1, _, hW1⟩ := hread
            subst hr1 hW1
            refine ih _ _ _ _ ?_ hW h
            intro x hx
            rcases List.mem_or_eq_of_mem_set hx with hx | hx
            · exact hrs x hx
            · rw [hx]
              exact hrs r hmem
          | none =>
            obtain ⟨g1, g2, g3, g4⟩ := reader.Read_pooled E c d hc0 fuel r p W _
              (hrs r hmem hopen) hread
            dsimp only at g1 g2 g3 g4
            refine ih _ _ _ _ ?_ ?_ h
            · intro x hx
              rcases List.mem_or_eq_of_mem_set hx with hx | hx
              · exact hrs x hx
              · rw [hx]
                exact fun _ => g1
            · unfold World.PoolsKept
              rw [g3, g4]
              exact hW
    | Close i =>
      simp only [readersRun] at h
      split at h
      · exact ih _ _ _ _ hrs hW h
      · rename_i r hget
        have hmem : r ∈ rs := List.getElem?_mem hget
        cases hopen : r.firstError with
        | some e =>
          rw [reader.Close_rejects E r e hopen] at h
          dsimp only at h
          refine ih _ _ _ _ ?_ hW h
          intro x hx
          rcases List.mem_or_eq_of_mem_set hx with hx | hx
          · exact hrs x hx
          · rw [hx]
            exact hrs r hmem
        | none =>
          obtain ⟨a1, a2, a3, a4, a5, _⟩ := hrs r hmem hopen
          refine ih _ _ _ _ ?_ ?_ h
          · intro x hx
            rcases List.mem_or_eq_of_mem_set hx with hx | hx
            · exact hrs x hx
            · rw [hx]
              intro hfe
              simp [reader.Close, hopen] at hfe
          · obtain ⟨hpc, hpd⟩ := hW
            simp only [reader.Close, hopen, World.PoolsKept, cPoolPut, dPoolPut, World.emit,
              List.mem_cons, forall_eq_or_imp]
            exact ⟨⟨⟨a1, a2, a3, a4⟩, hpc⟩, a5, hpd⟩

end Pooled

/-- C14 (amended): in every state a program reaches from its start, with empty
pools, through any sequence of NewReaderDict, Read and Close operations on its
readers, whatever the engine and the source do: the compressionBuffer a new
reader obtains from cPool has capacity at least cSize and a length between 1
and its capacity, and the decompressionBuffer it obtains from dPool has length
dSize. -/
theorem NewReaderDict_pool_buffers {CS DS K U : Type} (E : Env CS DS K U) (c d : Int)
    (hcs : cSize E = .ok c) (hds : dSize E = .ok d) (fuel : Nat) (ops : List (ReaderOp U))
    (u : U) (dict : Slice) (r : reader DS U) (W : World)
    (h : newReaderAfter E fuel ops u dict = .ok (r, W)) :
    c ≤ (r.compressionBuffer.cap : Int) ∧ 1 ≤ r.compressionBuffer.len ∧
    r.compressionBuffer.len ≤ r.compressionBuffer.cap ∧
    (r.decompressionBuffer.len : Int) = d := by
  unfold newReaderAfter at h
  split at h
  · simp at h
  · rename_i rs W1 hrun
    obtain ⟨_, hW1⟩ := readersRun_pooled E c d hcs hds fuel ops [] World.init rs W1
      (by simp) ⟨by simp [World.init], by simp [World.init]⟩ hrun
    obtain ⟨⟨g1, g2, g3, g4, g5, _⟩, _⟩ := NewReaderDict_pooled E c d hcs hds u dict W1 r W hW1 h
    exact ⟨g3, g4, g1, g5⟩

/-! ## The theorems at concrete streams, continued -/

/-- C14 as stated fails: over a codec whose decode step returns the hint 1, with
the recommended sizes 4, a first reader reads the source 1, 2, 3 into a
destination of one byte, which resizes its compression buffer to the hint, and
is closed; the compressionBuffer the next NewReaderDict obtains from cPool has
length 1, below cSize (its capacity is 4). -/
theorem NewReaderDict_gets_short_buffer :
    cSize hintEnv = .ok 4 ∧
    (newReaderAfter hintEnv 3
        [.NewReaderDict ([1, 2, 3], .EOF) Slice.null, .Read 0 (Slice.ofList [0]), .Close 0]
        ([], .EOF) Slice.null).map
          (fun x => (x.1.compressionBuffer, x.1.decompressionBuffer.len)) =
      .ok (⟨[1, 2, 3, 0], 1, false⟩, 4) := by
  constructor <;> decide!

theorem idEnv_compress_bounds (chunk dictCode firstCode : Nat) (c dl : Nat) (src : List Byte)
    (m : EndDirective) :
    ((idEnv chunk dictCode firstCode).ZSTD_compressStream2 c dl src m).1.out.length ≤ dl ∧
    ((idEnv chunk dictCode firstCode).ZSTD_compressStream2 c dl src m).1.consumed ≤
      src.length := by
  simp only [idEnv]
  split
  · simp
  · cases m <;> simp only [List.length_take] <;> omega

theorem carryEnv_decode_bounds (ds : Unit) (dl : Nat) (src : List Byte) :
    (carryEnv.ZBUFF_decompressContinue ds dl src).1.consumed ≤ src.length ∧
    (carryEnv.ZBUFF_decompressContinue ds dl src).1.out.length ≤ dl := by
  simp only [carryEnv, List.length_take]
  omega

/-- C20, at a concrete slice: three bytes in an array of four, resized to six
bytes, where append reallocates. -/
theorem resize_keeps_length_and_head_witness :
    (⟨[1, 2, 3, 0], 3, false⟩ : Slice).WF ∧
    ((⟨[1, 2, 3, 0], 3, false⟩ : Slice).isNil = true → (⟨[1, 2, 3, 0], 3, false⟩ : Slice).len = 0) ∧
    (0 : Int) ≤ 6 ∧
    (∃ t, resize (fun _ n => 2 * n) ⟨[1, 2, 3, 0], 3, false⟩ 6 = .ok t ∧ (t.len : Int) = 6 ∧
      t.WF ∧
      t.data.take (min (⟨[1, 2, 3, 0], 3, false⟩ : Slice).len t.len) =
        (⟨[1, 2, 3, 0], 3, false⟩ : Slice).data.take
          (min (⟨[1, 2, 3, 0], 3, false⟩ : Slice).len t.len)) ∧
    resize (fun _ n => 2 * n) ⟨[1, 2, 3, 0], 3, false⟩ 6 =
      .ok ⟨[1, 2, 3, 0, 0, 0, 0, 0, 0, 0, 0, 0], 6, false⟩ :=
  ⟨by decide, by decide, by decide,
    resize_keeps_length_and_head (fun _ n => 2 * n) ⟨[1, 2, 3, 0], 3, false⟩ 6 (by decide)
      (by decide) (by decide),
    by decide!⟩

/-- C13, at the concrete reader with the byte 3 staged, read into a destination
of one byte. -/
theorem reader.Read_fast_path_witness :
    demoReaderStaged.firstError = none ∧ demoReaderStaged.StagingOK ∧ (Slice.ofList [0]).WF ∧
    demoReaderStaged.decompSize - demoReaderStaged.decompOff ≥ ((Slice.ofList [0]).len : Int) ∧
    (∃ p2, reader.Read (idEnv 8 0 0) 0 demoReaderStaged (Slice.ofList [0])
          demoReaderStagedWorld =
        .ok ((((Slice.ofList [0]).len : Int), none),
          { demoReaderStaged with
            decompOff := demoReaderStaged.decompOff + ((Slice.ofList [0]).len : Int) },
          p2, demoReaderStagedWorld) ∧
      p2.len = (Slice.ofList [0]).len ∧ p2.isNil = (Slice.ofList [0]).isNil ∧
      p2.data = (demoReaderStaged.decompressionBuffer.arr.drop
        demoReaderStaged.decompOff.toNat).take (Slice.ofList [0]).len ∧
      p2.data = demoReaderStaged.staged.take (Slice.ofList [0]).len ∧
      p2.arr.drop (Slice.ofList [0]).len = (Slice.ofList [0]).arr.drop (Slice.ofList [0]).len) ∧
    reader.Read (idEnv 8 0 0) 0 demoReaderStaged (Slice.ofList [0]) demoReaderStagedWorld =
      .ok ((1, none), { demoReaderStaged with decompOff := 3 }, ⟨[3], 1, false⟩,
        demoReaderStagedWorld) :=
  ⟨rfl, by decide, by decide, by decide,
    reader.Read_fast_path (idEnv 8 0 0) 0 demoReaderStaged (Slice.ofList [0])
      demoReaderStagedWorld rfl (by decide) (by decide) (by decide),
    by decide!⟩

/-- C19, at a concrete Writer: over the identity codec whose continue step takes
one byte, after Write of the bytes 1, 2. -/
theorem Writer.srcBuffer_never_populated_witness :
    NewWriterLevelDict (idEnv 1 0 0) [] 3 Slice.null World.init =
      .ok (demoWriter, demoWriterWorld) ∧
    Writer.run (idEnv 1 0 0) 0 [.Write (Slice.ofList [1, 2])] demoWriter demoWriterWorld =
      .ok ([.Write 2 none], demoWriterWritten, demoWriterWrittenWorld) ∧
    (demoWriterWritten.srcBuffer.len = 0 ∧
    (∀ p W3 res w3 W4, demoWriterWritten.firstError = none → p.len ≠ 0 →
      Writer.Write (idEnv 1 0 0) demoWriterWritten p W3 = .ok (res, w3, W4) →
      w3.srcBuffer.len = 0 ∧
      ∃ dl r rest, W4.trace = W3.trace ++ .compressStream2 .e_continue dl p.data r :: rest)) :=
  ⟨by decide!, by decide!,
    Writer.srcBuffer_never_populated (idEnv 1 0 0) [] 3 Slice.null World.init 0
      [.Write (Slice.ofList [1, 2])] demoWriter demoWriterWorld [.Write 2 none]
      demoWriterWritten demoWriterWrittenWorld (by decide!) (by decide!)⟩

/-- C18, at a concrete Writer: a new Writer over the identity codec and Write of
the bytes 1, 2. -/
theorem Writer.Write_sizes_dstBuffer_witness :
    demoWriter.firstError = none ∧ (Slice.ofList [1, 2]).len ≠ 0 ∧
    Writer.Write (idEnv 1 0 0) demoWriter (Slice.ofList [1, 2]) demoWriterWorld =
      .ok ((2, none), demoWriterWritten, demoWriterWrittenWorld) ∧
    ∃ dst, Writer.sizedDst (idEnv 1 0 0) demoWriter.dstBuffer (Slice.ofList [1, 2]).len =
        .ok dst ∧
      (idEnv 1 0 0).CompressBound (Slice.ofList [1, 2]).len ≤ dst.len ∧
      demoWriter.dstBuffer.cap ≤ dst.len ∧
      (∀ res w2 W2,
        Writer.Write (idEnv 1 0 0) demoWriter (Slice.ofList [1, 2]) demoWriterWorld =
          .ok (res, w2, W2) →
        w2.dstBuffer.len = dst.len ∧ demoWriter.dstBuffer.cap ≤ w2.dstBuffer.cap ∧
        ∃ src r rest,
          W2.trace = demoWriterWorld.trace ++ .compressStream2 .e_continue dst.len src r :: rest) ∧
      ((0 < (idEnv 1 0 0).CompressBound (Slice.ofList [1, 2]).len ∨
          0 < demoWriter.dstBuffer.cap) →
        demoWriter.dstBuffer.cap < 2 ^ 63 →
        (idEnv 1 0 0).CompressBound (Slice.ofList [1, 2]).len < 2 ^ 63 →
        demoWriter.srcBuffer.len + (Slice.ofList [1, 2]).len < 2 ^ 63 →
        (∀ c dl src m, ((idEnv 1 0 0).ZSTD_compressStream2 c dl src m).1.out.length ≤ dl ∧
          ((idEnv 1 0 0).ZSTD_compressStream2 c dl src m).1.consumed ≤ src.length) →
        ∃ res, Writer.Write (idEnv 1 0 0) demoWriter (Slice.ofList [1, 2]) demoWriterWorld =
          .ok res) :=
  ⟨rfl, by decide, by decide!,
    Writer.Write_sizes_dstBuffer (idEnv 1 0 0) demoWriter (Slice.ofList [1, 2]) demoWriterWorld
      rfl (by decide)⟩

/-- C12, at a concrete Writer: a new Writer over the identity codec and Write of
the bytes 1, 2. -/
theorem Writer.Write_accepts_whole_input_witness :
    demoWriter.firstError = none ∧ demoWriter.dstBuffer.cap < 2 ^ 63 ∧
    (idEnv 1 0 0).CompressBound (Slice.ofList [1, 2]).len < 2 ^ 63 ∧
    (Slice.ofList [1, 2]).len ≠ 0 ∧
    Writer.Write (idEnv 1 0 0) demoWriter (Slice.ofList [1, 2]) demoWriterWorld =
      .ok ((2, none), demoWriterWritten, demoWriterWrittenWorld) ∧
    (∃ dl src r rest,
      demoWriterWrittenWorld.trace =
        demoWriterWorld.trace ++ .compressStream2 .e_continue dl src r :: rest ∧
      r = ((idEnv 1 0 0).ZSTD_compressStream2 demoWriter.ctx dl src .e_continue).1 ∧
      (getError (sizeToInt r.code) = none →
        rest = [.sinkWrite (demoWriterWritten.dstBuffer.arr.take
          demoWriterWritten.resultBuffer.bytes_written)] ∧
        demoWriterWritten.resultBuffer.bytes_written = r.out.length ∧
        demoWriterWritten.dstBuffer.arr.take demoWriterWritten.resultBuffer.bytes_written =
          r.out ∧
        demoWriterWritten.underlyingWriter =
          ((idEnv 1 0 0).sinkWrite demoWriter.underlyingWriter r.out).2 ∧
        (((idEnv 1 0 0).sinkWrite demoWriter.underlyingWriter r.out).1.2 = none →
          ((2 : Int), (none : Option GoError)) = (((Slice.ofList [1, 2]).len : Int), none)) ∧
        (∀ e, ((idEnv 1 0 0).sinkWrite demoWriter.underlyingWriter r.out).1.2 = some e →
          ((2 : Int), (none : Option GoError)) = (0, some e)))) ∧
    ∃ res, Writer.Write (idEnv 1 0 0) demoWriter (Slice.ofList [1, 2]) demoWriterWorld =
      .ok res :=
  ⟨rfl, by decide!, by decide, by decide, by decide!,
    (Writer.Write_accepts_whole_input (idEnv 1 0 0) demoWriter (Slice.ofList [1, 2])
      demoWriterWorld rfl (by decide!) (by decide)).2.1 (by decide) _ _ _ (by decide!),
    (Writer.Write_accepts_whole_input (idEnv 1 0 0) demoWriter (Slice.ofList [1, 2])
      demoWriterWorld rfl (by decide!) (by decide)).2.2 (by decide) (Or.inl (by decide))
      (by decide) (idEnv_compress_bounds 1 0 0)⟩

/-- C14 (amended), at the concrete program: a reader is made, reads and is
closed, and a second reader is made. -/
theorem NewReaderDict_pool_buffers_witness :
    cSize hintEnv = .ok 4 ∧ dSize hintEnv = .ok 4 ∧
    newReaderAfter hintEnv 3
        [.NewReaderDict ([1, 2, 3], .EOF) Slice.null, .Read 0 (Slice.ofList [0]), .Close 0]
        ([], .EOF) Slice.null = .ok (hintReader, hintReaderWorld) ∧
    ((4 : Int) ≤ (hintReader.compressionBuffer.cap : Int) ∧ 1 ≤ hintReader.compressionBuffer.len ∧
      hintReader.compressionBuffer.len ≤ hintReader.compressionBuffer.cap ∧
      (hintReader.decompressionBuffer.len : Int) = 4) :=
  ⟨by decide!, by decide!, by decide!,
    NewReaderDict_pool_buffers hintEnv 4 4 (by decide!) (by decide!) 3
      [.NewReaderDict ([1, 2, 3], .EOF) Slice.null, .Read 0 (Slice.ofList [0]), .Close 0]
      ([], .EOF) Slice.null hintReader hintReaderWorld (by decide!)⟩

/-- C15, at a concrete reader: over the codec whose decode step takes two bytes,
the source 1, 2, 3 and two Read calls on destinations of two bytes. -/
theorem reader.bounds_invariant_witness :
    (∀ ds dl src, (carryEnv.ZBUFF_decompressContinue ds dl src).1.consumed ≤ src.length ∧
      (carryEnv.ZBUFF_decompressContinue ds dl src).1.out.length ≤ dl) ∧
    (∀ u k, (carryEnv.sourceRead u k).1.1.length ≤ k) ∧
    World.init.PoolsOK ∧ (∀ p ∈ [Slice.ofList [0, 0], Slice.ofList [0, 0]], p.WF) ∧
    NewReaderDict carryEnv ([1, 2, 3], .EOF) Slice.null World.init =
      .ok (demoReader, demoReaderWorld) ∧
    reader.run carryEnv 4 ([Slice.ofList [0, 0], Slice.ofList [0, 0]].map .Read)
        demoReader demoReaderWorld =
      .ok ([.Read 2 none ⟨[1, 2], 2, false⟩, .Read 1 (some .EOF) ⟨[3, 0], 2, false⟩],
        carryReaderDone, carryReaderDoneWorld) ∧
    demoReader.BoundsOK ∧
    (carryReaderDone.BoundsOK ∧
      (0 ≤ carryReaderDone.decompOff ∧ carryReaderDone.decompOff ≤ carryReaderDone.decompSize ∧
       carryReaderDone.decompSize ≤ (carryReaderDone.decompressionBuffer.len : Int) ∧
       0 ≤ carryReaderDone.compressionLeft ∧
       carryReaderDone.compressionLeft ≤ (carryReaderDone.compressionBuffer.len : Int) ∧
       1 ≤ carryReaderDone.compressionBuffer.len ∧
       1 ≤ carryReaderDone.decompressionBuffer.len) ∧
      carryReaderDoneWorld.PoolsOK ∧
      (reader.Close carryEnv carryReaderDone carryReaderDoneWorld).2.2.PoolsOK) :=
  ⟨carryEnv_decode_bounds, idEnv_sourceRead_length 8 0 0, by decide, by decide, by decide!,
    by decide!,
    (reader.bounds_invariant carryEnv carryEnv_decode_bounds (idEnv_sourceRead_length 8 0 0) 4
      ([1, 2, 3], .EOF) Slice.null World.init (by decide)
      [Slice.ofList [0, 0], Slice.ofList [0, 0]] (by decide) demoReader demoReaderWorld
      (by decide!)).1,
    (reader.bounds_invariant carryEnv carryEnv_decode_bounds (idEnv_sourceRead_length 8 0 0) 4
      ([1, 2, 3], .EOF) Slice.null World.init (by decide)
      [Slice.ofList [0, 0], Slice.ofList [0, 0]] (by decide) demoReader demoReaderWorld
      (by decide!)).2.1
      [.Read 2 none ⟨[1, 2], 2, false⟩, .Read 1 (some .EOF) ⟨[3, 0], 2, false⟩]
      carryReaderDone carryReaderDoneWorld (by decide!)⟩

/-- C11: on a new Writer over a codec whose finish step emits the end mark 255
and a sink whose Write always returns an error, Close forwards the byte 255 to
the sink, the sink returns its error, and Close returns nil: the result of the
sink's Write is dropped. Write on such a Writer returns (0, the error of the
sink). -/
theorem Writer.Close_drops_sink_error :
    (newWriterRun brokenSinkEnv 1 [.Close]).map
        (fun x => (x.1, x.2.1.underlyingWriter, x.2.2.trace)) =
      .ok ([.Close none], [],
        [.createCStream, .setParameter 3,
         .compressStream2 .e_end 1032 [] ⟨0, 0, [255]⟩, .sinkWrite [255], .freeCStream]) ∧
    (newWriterRun brokenSinkEnv 0 [.Write (Slice.ofList [1])]).map (fun x => x.1) =
      .ok [.Write 0 (some (.other 5))] := by
  constructor <;> decide!

/-- C17: over the identity codec and a source that delivers the bytes 1, 2, 3, 4
and then fails: a first Read on a destination of two bytes returns (2, nil) and
leaves the bytes 3, 4 staged; the next Read, on a destination of three bytes,
copies them into p, finds the source failing and returns 0 with the wrapped
error: the count does not account for the two bytes and they are no longer
staged (decompOff and decompSize are 0). -/
theorem reader.Read_error_loses_staged :
    (newReaderRunOn (idEnv 8 0 0) 3 ([1, 2, 3, 4], GoError.other 7)
        [.Read (Slice.ofList [0, 0])]).map
        (fun x => (x.1, x.2.1.staged)) =
      .ok ([.Read 2 none ⟨[1, 2], 2, false⟩], [3, 4]) ∧
    (newReaderRunOn (idEnv 8 0 0) 3 ([1, 2, 3, 4], GoError.other 7)
        [.Read (Slice.ofList [0, 0]), .Read (Slice.ofList [0, 0, 0])]).map
        (fun x => (x.1, x.2.1.decompOff, x.2.1.decompSize, x.2.1.staged)) =
      .ok ([.Read 2 none ⟨[1, 2], 2, false⟩,
            .Read 0 (some (.failedToRead (.other 7))) ⟨[3, 4, 0], 3, false⟩], 0, 0, []) := by
  constructor <;> decide!

end Zstd
